import Mathlib

/-!
# MyFs: a shallow embedding of `src/fs/myfs.cpp` / `src/fs/myfs.h`

The volume lives on a byte-addressable block device.  Every operation of the
C++ class `MyFs` is translated to a function on the device content; operations
that can throw return an `Except`, and operations that write to the device also
return the device content they leave behind (also when they throw).

Machine integers are natural numbers, reduced modulo `2^32` where the C++
arithmetic is done on `uint32_t`.
-/

namespace MyFs

/-! ## The block device -/

/-- One byte of the device. -/
abbrev Byte := Fin 256

/-- Modelled from the spec: the block device (`blkdev.h` is outside the
sources): an addressable byte store with `read(offset, length)` and
`write(offset, length, bytes)`.  The store is total on all addresses; the
capacity is the constant `DEVICE_SIZE`. -/
abbrev Device := Nat → Byte

/-- Modelled from the spec: the capacity of the block device.  The value is the
one named by the comment at `INODE_AMOUNT` in `myfs.h`. -/
def DEVICE_SIZE : Nat := 1024 * 1024

/-- Modelled from the spec: `BlockDeviceSimulator::read(addr, size, out)`. -/
def blkRead (dev : Device) (addr size : Nat) : List Byte :=
  (List.range size).map fun k => dev (addr + k)

/-- The memory behind a `const char *` : the byte at each offset. -/
abbrev Buffer := Nat → Byte

/-- The buffer that holds the given bytes (and zero after them). -/
def bufferOf (l : List Byte) : Buffer := fun k => l.getD k 0

/-- The array `char zeros[INODE_TABLE_SIZE] = {0}` of `format`. -/
def zeros : Buffer := fun _ => 0

/-- Modelled from the spec: `BlockDeviceSimulator::write(addr, size, data)`. -/
def blkWrite (dev : Device) (addr size : Nat) (data : Buffer) : Device :=
  fun a => if addr ≤ a ∧ a < addr + size then data (a - addr) else dev a

/-! ## Constants of `myfs.h` -/

def UINT32_MAX : Nat := 4294967295
def INT32_MAX : Nat := 2147483647
def CURR_VERSION : Byte := 3
/-- The magic tag "DaLI". -/
def MYFS_MAGIC : List Byte := [68, 97, 76, 73]
def NAME_SIZE : Nat := 10
def INIT_DIR_SIZE : Nat := 4
def BASEDIR_INODE_INDEX : Nat := 0
/-- The size of `struct myfs_header` : four `char` and one `uint8_t`. -/
def sizeof_myfs_header : Nat := 5
/-- The size of `struct inode_entry` : two `uint32_t`, one `bool`, three bytes of padding. -/
def sizeof_inode_entry : Nat := 12
/-- The size of `struct dir_entry` : one `uint8_t` and `NAME_SIZE` chars. -/
def sizeof_dir_entry : Nat := 11
def INODE_AMOUNT : Nat := DEVICE_SIZE / 16384
def INODE_TABLE_SIZE : Nat := INODE_AMOUNT * sizeof_inode_entry
def INODE_TABLE_START : Nat := sizeof_myfs_header + 1
def MEM_START : Nat := INODE_TABLE_START + INODE_TABLE_SIZE + 1
/-- The character '/'. -/
def PATH_DELIMITER : Byte := 47

/-- Reduction to `uint32_t`. -/
def u32 (n : Nat) : Nat := n % 4294967296

/-- Subtraction of two `uint32_t` values. -/
def u32sub (a b : Nat) : Nat := (a + 4294967296 - b % 4294967296) % 4294967296

/-! ## Records -/

/-- The struct `inode_entry`. -/
structure inode_entry where
  addr : Nat
  size : Nat
  is_dir : Bool
deriving DecidableEq, Repr

/-- The struct `dir_entry`. -/
structure dir_entry where
  inode_index : Nat
  name : List Byte
deriving DecidableEq, Repr

/-- The struct `dir_list_entry`. -/
structure dir_list_entry where
  name : List Byte
  is_dir : Bool
  file_size : Int
deriving DecidableEq, Repr

deriving instance DecidableEq for Except

/-- The exceptions thrown by `MyFs`: the messages of its `std::runtime_error`s,
and the `std::bad_array_new_length` of a `new char[n]{0}` with `n = 0`. -/
inductive FsError where
  /-- The message `"<path>" is a directory` of `get_content` and `set_content`. -/
  | isADirectory
  /-- The message `<path> is a file, not a directory` of `list_dir`. -/
  | isAFile
  /-- The message `specifed path is a file, not a directory` of `addToDirectory`. -/
  | specifiedPathIsAFile
  /-- The message `file/directory "<name>" already exists`. -/
  | alreadyExists
  /-- The message `path contains whitespaces`. -/
  | pathContainsWhitespaces
  /-- The message `parent directory of "<name>" is a file, not a directory`. -/
  | parentIsAFile
  /-- The message `file/directory "<name>" not found`. -/
  | notFound
  /-- The message `no free inodes`. -/
  | noFreeInodes
  /-- The message `no free space`. -/
  | noFreeSpace
  /-- The exception `std::bad_array_new_length`, thrown by `new char[n]{0}` when
  `n` is 0: the array is shorter than its one initializer. -/
  | badArrayNewLength
deriving DecidableEq, Repr

/-- A little-endian `uint32_t` read from four bytes. -/
def le32 (b0 b1 b2 b3 : Byte) : Nat :=
  b0.val + 256 * b1.val + 65536 * b2.val + 16777216 * b3.val

/-- The four bytes of a `uint32_t`, little-endian. -/
def le32bytes (n : Nat) : List Byte :=
  [Fin.ofNat n, Fin.ofNat (n / 256), Fin.ofNat (n / 65536), Fin.ofNat (n / 16777216)]

/-- The twelve bytes of an `inode_entry`.  The three bytes of padding after
`is_dir` are written as zero: `format` writes a record initialised with `= {0}`;
`create_file`, `set_content` and `reallocInode` write a local record whose
padding the language leaves indeterminate, and no function of `MyFs` reads it
from an inode record. -/
def inodeBytes (e : inode_entry) : List Byte :=
  le32bytes e.addr ++ le32bytes e.size ++ [if e.is_dir then 1 else 0, 0, 0, 0]

/-- `MyFs::getInode`. -/
def getInode (dev : Device) (index : Nat) : inode_entry :=
  let base := INODE_TABLE_START + index * sizeof_inode_entry
  { addr := le32 (dev base) (dev (base + 1)) (dev (base + 2)) (dev (base + 3))
    size := le32 (dev (base + 4)) (dev (base + 5)) (dev (base + 6)) (dev (base + 7))
    is_dir := dev (base + 8) != 0 }

/-- `MyFs::setInode`. -/
def setInode (dev : Device) (index : Nat) (inode : inode_entry) : Device :=
  blkWrite dev (INODE_TABLE_START + index * sizeof_inode_entry) sizeof_inode_entry
    (bufferOf (inodeBytes inode))

/-- The `dir_entry` read at address `i`. -/
def readDirEntry (dev : Device) (i : Nat) : dir_entry :=
  { inode_index := (dev i).val, name := blkRead dev (i + 1) NAME_SIZE }

/-- The eleven bytes of a `dir_entry`. -/
def dirEntryBytes (e : dir_entry) : List Byte :=
  Fin.ofNat e.inode_index :: e.name

/-! ## C string functions -/

/-- The test `strncmp(a, b, n) == 0`; a list that ends is read as its terminating NUL. -/
def strncmpEq : Nat → List Byte → List Byte → Bool
  | 0, _, _ => true
  | n + 1, a, b =>
    if a.headD 0 = b.headD 0 then
      if a.headD 0 = 0 then true else strncmpEq n a.tail b.tail
    else false

/-- The `n` bytes that `strncpy(dest, src, n)` leaves in `dest`. -/
def strncpy (src : List Byte) (n : Nat) : List Byte :=
  let s := (src.takeWhile fun c => c ≠ 0).take n
  s ++ List.replicate (n - s.length) 0

/-! ## The free-space allocator -/

/-- `std::set<inode_entry>::insert` on the set's sorted content: the order is
`operator<` (by `addr`), and an element equivalent to one in the set is dropped. -/
def setInsert (x : inode_entry) : List inode_entry → List inode_entry
  | [] => [x]
  | y :: ys =>
    if x.addr < y.addr then x :: y :: ys
    else if y.addr < x.addr then y :: setInsert x ys
    else y :: ys

/-- The first loop of `findFreeSpace`: the set of allocated inodes, in iteration order. -/
def allocatedInodes (dev : Device) : List inode_entry :=
  (List.range INODE_AMOUNT).foldl
    (fun inodes i =>
      let currInode := getInode dev i
      if currInode.addr ≠ 0 ∧ currInode.addr ≠ UINT32_MAX then setInsert currInode inodes
      else inodes)
    []

/-- The local variables of the second loop of `findFreeSpace`. -/
structure FreeScan where
  min : Nat
  minAddress : Nat
  lastFreeSpaceAddress : Nat
deriving DecidableEq, Repr

/-- The test and assignment `if (freeSpace >= wantedSize && freeSpace < min)`. -/
def considerGap (wantedSize freeSpace : Nat) (st : FreeScan) : FreeScan :=
  if freeSpace ≥ wantedSize ∧ freeSpace < st.min then
    { st with min := freeSpace, minAddress := st.lastFreeSpaceAddress }
  else st

/-- One iteration of the second loop of `findFreeSpace`. -/
def scanStep (wantedSize : Nat) (st : FreeScan) (inode : inode_entry) : FreeScan :=
  let st1 := considerGap wantedSize (u32sub inode.addr st.lastFreeSpaceAddress) st
  { st1 with lastFreeSpaceAddress := u32 (inode.addr + inode.size + 1) }

/-- The second half of `findFreeSpace`, on the content of the set. -/
def bestFit (inodes : List inode_entry) (wantedSize : Nat) : Except FsError Nat :=
  let st := inodes.foldl (scanStep wantedSize)
    { min := UINT32_MAX, minAddress := UINT32_MAX, lastFreeSpaceAddress := MEM_START }
  let st := considerGap wantedSize (u32sub DEVICE_SIZE st.lastFreeSpaceAddress) st
  if st.min = UINT32_MAX then .error .noFreeSpace else .ok st.minAddress

/-- `MyFs::findFreeSpace`. -/
def findFreeSpace (dev : Device) (wantedSize : Nat) : Except FsError Nat :=
  bestFit (allocatedInodes dev) wantedSize

/-- `MyFs::findFirstFreeInode`. -/
def findFirstFreeInode (dev : Device) : Except FsError Nat :=
  match (List.range INODE_AMOUNT).find? (fun i => (getInode dev i).addr = 0) with
  | some i => .ok i
  | none => .error .noFreeInodes

/-! ## Paths -/

/-- `MyFs::capFileName` (the diagnostic printed on truncation is not modelled). -/
def capFileName (filename : List Byte) : List Byte :=
  if filename.length > NAME_SIZE then filename.take NAME_SIZE else filename

/-- The pieces of a path between its delimiters.  `std::getline` yields the same
pieces except for a last empty one, which `splitPath` discards anyway. -/
def pathPieces : List Byte → List (List Byte)
  | [] => [[]]
  | c :: cs =>
    if c = PATH_DELIMITER then [] :: pathPieces cs
    else
      match pathPieces cs with
      | [] => [[c]]
      | s :: ss => (c :: s) :: ss

/-- `MyFs::splitPath`; 32 is the space character and 46 the character '.'. -/
def splitPath (path : List Byte) : Except FsError (List (List Byte)) :=
  if (32 : Byte) ∈ path then .error .pathContainsWhitespaces
  else .ok (((pathPieces path).filter fun curr => curr ≠ [] ∧ curr ≠ [46]).map capFileName)

/-- The part of the path before its last delimiter: `path.substr(0, path.find_last_of('/'))`. -/
def beforeLastDelimiter (path : List Byte) : List Byte :=
  ((path.reverse.dropWhile fun c => c ≠ PATH_DELIMITER).tail).reverse

/-- The part of the path after its last delimiter: `path.substr(path.find_last_of('/') + 1)`. -/
def afterLastDelimiter (path : List Byte) : List Byte :=
  (path.reverse.takeWhile fun c => c ≠ PATH_DELIMITER).reverse

/-- `MyFs::removeFileNameFromPath`. -/
def removeFileNameFromPath (path : List Byte) : List Byte :=
  if PATH_DELIMITER ∉ path then [] else beforeLastDelimiter path

/-- `MyFs::getFileNameFromPath`. -/
def getFileNameFromPath (path : List Byte) : List Byte :=
  if PATH_DELIMITER ∉ path then capFileName path else capFileName (afterLastDelimiter path)

/-! ## Directories -/

/-- The values of `i` in `for (uint32_t i = start; i < limit; i += sizeof(dir_entry))`.
The loop variable wraps at `2^32`; the first argument bounds the number of iterations. -/
def slotAddrsFrom : Nat → Nat → Nat → List Nat
  | 0, _, _ => []
  | fuel + 1, i, limit =>
    if i < limit then i :: slotAddrsFrom fuel (u32 (i + sizeof_dir_entry)) limit else []

/-- The slot addresses visited by a scan of the directory content at `dir_addr`
of `dir_size` bytes.  The loop variable takes every `uint32_t` value within
`2^32` steps, so that many iterations are never exceeded. -/
def slotAddrs (dir_addr dir_size : Nat) : List Nat :=
  slotAddrsFrom 4294967296 dir_addr (u32 (dir_addr + dir_size))

/-- `MyFs::findFileInDirectory`. -/
def findFileInDirectory (dev : Device) (dir_addr dir_size : Nat) (filename : List Byte) :
    Except FsError Nat :=
  match (slotAddrs dir_addr dir_size).find?
      (fun i => strncmpEq NAME_SIZE (readDirEntry dev i).name filename) with
  | some i => .ok (readDirEntry dev i).inode_index
  | none => .error .notFound

/-- The loop of `getInodeIndexFromPath` over the names of the path. -/
def walkPath (dev : Device) (fileName : List Byte) : List (List Byte) → Nat → Except FsError Nat
  | [], dir_index => .ok dir_index
  | name :: rest, dir_index =>
    let curr_dir := getInode dev dir_index
    if curr_dir.is_dir = false ∧ name ≠ fileName then .error .parentIsAFile
    else
      match findFileInDirectory dev curr_dir.addr curr_dir.size name with
      | .error e => .error e
      | .ok next => walkPath dev fileName rest next

/-- `MyFs::getInodeIndexFromPath`. -/
def getInodeIndexFromPath (dev : Device) (path : List Byte) : Except FsError Nat :=
  if path = [] ∨ path = [46] then .ok BASEDIR_INODE_INDEX
  else if PATH_DELIMITER ∉ path then
    let curr_dir := getInode dev BASEDIR_INODE_INDEX
    findFileInDirectory dev curr_dir.addr curr_dir.size (capFileName path)
  else
    match splitPath path with
    | .error e => .error e
    | .ok dir_names => walkPath dev (getFileNameFromPath path) dir_names BASEDIR_INODE_INDEX

/-- `MyFs::reallocInode`.  The inode `dir` is passed by reference: the result
holds its final value.  The allocation `new char[new_size]{0}` of the staging
buffer throws when `new_size` is 0, before anything is written.  On a throw of
`findFreeSpace` the device keeps the inode written before the search for space.
The staging buffer is zero except for the old content read into it. -/
def reallocInode (dev : Device) (dir : inode_entry) (inode_index new_size : Nat) :
    Except FsError inode_entry × Device :=
  if new_size = 0 then (.error .badArrayNewLength, dev)
  else
    let buffer : Buffer := fun k =>
      if dir.addr ≠ UINT32_MAX ∧ k < dir.size then dev (dir.addr + k) else 0
    let dir1 : inode_entry := { dir with addr := INT32_MAX, size := new_size }
    let dev1 := setInode dev inode_index dir1
    match findFreeSpace dev1 new_size with
    | .error e => (.error e, dev1)
    | .ok a =>
      let dir2 : inode_entry := { dir1 with addr := a }
      let dev2 := setInode dev1 inode_index dir2
      (.ok dir2, blkWrite dev2 dir2.addr dir2.size buffer)

/-- The state of one pass of the `for` loop of `addToDirectory`. -/
structure AddPass where
  dev : Device
  hasAdded : Bool
  thrown : Bool

/-- The body of the `for` loop of `addToDirectory`, at the slot address `i`. -/
def addPassStep (entry_to_add : dir_entry) (filename : List Byte) (st : AddPass) (i : Nat) :
    AddPass :=
  if st.thrown then st
  else
    let curr := readDirEntry st.dev i
    if strncmpEq NAME_SIZE curr.name filename then { st with thrown := true }
    else if st.hasAdded = false ∧ curr.inode_index = 0 then
      { st with
        dev := blkWrite st.dev i sizeof_dir_entry (bufferOf (dirEntryBytes entry_to_add))
        hasAdded := true }
    else st

/-- The `while` loop of `addToDirectory`; `none` when the loop has not ended
within the given number of passes. -/
def addToDirectoryLoop (entry_to_add : dir_entry) (filename : List Byte) (dir_inode_index : Nat) :
    Nat → Device → inode_entry → Option (Except FsError Unit × Device)
  | 0, _, _ => none
  | fuel + 1, dev, dir =>
    let st := (slotAddrs dir.addr dir.size).foldl (addPassStep entry_to_add filename)
      { dev := dev, hasAdded := false, thrown := false }
    if st.thrown then some (.error .alreadyExists, st.dev)
    else if st.hasAdded then some (.ok (), st.dev)
    else
      let new_size := u32 (dir.size + INIT_DIR_SIZE * sizeof_dir_entry)
      match reallocInode st.dev dir dir_inode_index new_size with
      | (.error e, dev1) => some (.error e, dev1)
      | (.ok dir1, dev1) => addToDirectoryLoop entry_to_add filename dir_inode_index fuel dev1 dir1

/-- The number of passes granted to the `while` loop of `addToDirectory`. -/
def whileFuel : Nat := 4294967296

/-- `MyFs::addToDirectory` in a frame where the store
`entry_to_add.name[NAME_SIZE] = 0`, one byte past the entry, changes nothing
that is read afterwards (`PastEnd.dead`); `addToDirectoryWith` is the function
with the store.  The indices are `uint8_t` at `getInode` and `reallocInode`. -/
def addToDirectory (dev : Device) (dir_inode_index inode_index : Nat) (filename : List Byte) :
    Option (Except FsError Unit × Device) :=
  let dir := getInode dev (dir_inode_index % 256)
  if dir.is_dir = false then some (.error .specifiedPathIsAFile, dev)
  else
    let entry_to_add : dir_entry :=
      { inode_index := inode_index, name := strncpy filename NAME_SIZE }
    if dir.addr = UINT32_MAX then
      match reallocInode dev dir (dir_inode_index % 256) (INIT_DIR_SIZE * sizeof_dir_entry) with
      | (.error e, dev1) => some (.error e, dev1)
      | (.ok dir1, dev1) =>
        addToDirectoryLoop entry_to_add filename (dir_inode_index % 256) whileFuel dev1 dir1
    else addToDirectoryLoop entry_to_add filename (dir_inode_index % 256) whileFuel dev dir

/-- The byte that the store `entry_to_add.name[NAME_SIZE] = 0` of
`addToDirectory` writes.  The array `name` has `NAME_SIZE` bytes and is the last
member of the 11-byte `dir_entry`, so the store is one byte past the object
`entry_to_add`; what lies there is decided by the frame that the compiler lays
out. -/
inductive PastEnd where
  /-- The object `dir` follows `entry_to_add` in the frame: the byte is the first
  byte of `dir`, the low byte of `dir.addr` (g++ on x86-64 at `-O0`, `-O1`, `-Og`). -/
  | dirAddr
  /-- The byte belongs to nothing that is read afterwards (g++ on x86-64 at
  `-O2`, `-O3`). -/
  | dead
deriving DecidableEq, Repr

/-- The local `dir` of `addToDirectory` after the store
`entry_to_add.name[NAME_SIZE] = 0`. -/
def storePastEntry (past : PastEnd) (dir : inode_entry) : inode_entry :=
  match past with
  | .dirAddr => { dir with addr := dir.addr - dir.addr % 256 }
  | .dead => dir

/-- `MyFs::addToDirectory` with the store `entry_to_add.name[NAME_SIZE] = 0`,
which follows the first `reallocInode` and precedes the loop.  The store changes
the local `dir` only: the inode on the device keeps its address. -/
def addToDirectoryWith (past : PastEnd) (dev : Device) (dir_inode_index inode_index : Nat)
    (filename : List Byte) : Option (Except FsError Unit × Device) :=
  let dir := getInode dev (dir_inode_index % 256)
  if dir.is_dir = false then some (.error .specifiedPathIsAFile, dev)
  else
    let entry_to_add : dir_entry :=
      { inode_index := inode_index, name := strncpy filename NAME_SIZE }
    if dir.addr = UINT32_MAX then
      match reallocInode dev dir (dir_inode_index % 256) (INIT_DIR_SIZE * sizeof_dir_entry) with
      | (.error e, dev1) => some (.error e, dev1)
      | (.ok dir1, dev1) =>
        addToDirectoryLoop entry_to_add filename (dir_inode_index % 256) whileFuel dev1
          (storePastEntry past dir1)
    else
      addToDirectoryLoop entry_to_add filename (dir_inode_index % 256) whileFuel dev
        (storePastEntry past dir)

/-! ## The public operations -/

/-- `MyFs::format`. -/
def format (dev : Device) : Device :=
  let dev1 := blkWrite dev 0 sizeof_myfs_header (bufferOf (strncpy MYFS_MAGIC 4 ++ [CURR_VERSION]))
  let dev2 := blkWrite dev1 INODE_TABLE_START INODE_TABLE_SIZE zeros
  let basedir_inode : inode_entry :=
    { addr := MEM_START, size := sizeof_dir_entry * INIT_DIR_SIZE, is_dir := true }
  let dev3 := setInode dev2 BASEDIR_INODE_INDEX basedir_inode
  blkWrite dev3 basedir_inode.addr basedir_inode.size zeros

/-- The constructor `MyFs::MyFs`. -/
def construct (dev : Device) : Device :=
  let header := blkRead dev 0 sizeof_myfs_header
  if strncmpEq 4 (header.take 4) MYFS_MAGIC = false ∨ header.getD 4 0 ≠ CURR_VERSION then
    format dev
  else dev

/-- `MyFs::create_file` in a frame of `addToDirectory` where the store past
`entry_to_add` changes nothing that is read afterwards (`PastEnd.dead`);
`create_file_with` is the function with the store. -/
def create_file (dev : Device) (path_str : List Byte) (directory : Bool) :
    Option (Except FsError Unit × Device) :=
  let entry : inode_entry := { addr := UINT32_MAX, size := 0, is_dir := directory }
  let parent_dir_path := removeFileNameFromPath path_str
  match findFirstFreeInode dev with
  | .error e => some (.error e, dev)
  | .ok newInodeIndex =>
    match getInodeIndexFromPath dev parent_dir_path with
    | .error e => some (.error e, dev)
    | .ok parent =>
      match addToDirectory dev parent newInodeIndex (getFileNameFromPath path_str) with
      | none => none
      | some (.error e, dev1) => some (.error e, dev1)
      | some (.ok _, dev1) => some (.ok (), setInode dev1 newInodeIndex entry)

/-- `MyFs::create_file` with the store past `entry_to_add` of `addToDirectory`. -/
def create_file_with (past : PastEnd) (dev : Device) (path_str : List Byte) (directory : Bool) :
    Option (Except FsError Unit × Device) :=
  let entry : inode_entry := { addr := UINT32_MAX, size := 0, is_dir := directory }
  let parent_dir_path := removeFileNameFromPath path_str
  match findFirstFreeInode dev with
  | .error e => some (.error e, dev)
  | .ok newInodeIndex =>
    match getInodeIndexFromPath dev parent_dir_path with
    | .error e => some (.error e, dev)
    | .ok parent =>
      match addToDirectoryWith past dev parent newInodeIndex (getFileNameFromPath path_str) with
      | none => none
      | some (.error e, dev1) => some (.error e, dev1)
      | some (.ok _, dev1) => some (.ok (), setInode dev1 newInodeIndex entry)

/-- `MyFs::get_content`.  The allocation `new char[file_inode.size]{0}` throws
when the size is 0. -/
def get_content (dev : Device) (path_str : List Byte) : Except FsError (List Byte) :=
  match getInodeIndexFromPath dev path_str with
  | .error e => .error e
  | .ok index =>
    let file_inode := getInode dev index
    if file_inode.is_dir then .error .isADirectory
    else if file_inode.addr = UINT32_MAX then .ok []
    else if file_inode.size = 0 then .error .badArrayNewLength
    else .ok (blkRead dev file_inode.addr file_inode.size)

/-- `MyFs::set_content`. -/
def set_content (dev : Device) (path_str content : List Byte) : Except FsError Unit × Device :=
  match getInodeIndexFromPath dev path_str with
  | .error e => (.error e, dev)
  | .ok inode_index =>
    let file_inode := getInode dev inode_index
    if file_inode.is_dir then (.error .isADirectory, dev)
    else
      let size := u32 content.length
      match findFreeSpace dev size with
      | .error e => (.error e, dev)
      | .ok a =>
        let file_inode1 : inode_entry := { file_inode with size := size, addr := a }
        let dev1 := setInode dev inode_index file_inode1
        (.ok (), blkWrite dev1 a size (bufferOf content))

/-- The conversion of a `uint32_t` to `int`. -/
def toInt32 (n : Nat) : Int := if n < 2147483648 then n else (n : Int) - 4294967296

/-- `MyFs::list_dir`. -/
def list_dir (dev : Device) (path_str : List Byte) : Except FsError (List dir_list_entry) :=
  match getInodeIndexFromPath dev path_str with
  | .error e => .error e
  | .ok index =>
    let dir_inode := getInode dev index
    if dir_inode.is_dir = false then .error .isAFile
    else
      .ok ((slotAddrs dir_inode.addr dir_inode.size).filterMap fun i =>
        let curr := readDirEntry dev i
        if curr.inode_index ≠ 0 then
          let inode := getInode dev curr.inode_index
          some { name := curr.name, is_dir := inode.is_dir, file_size := toInt32 inode.size }
        else none)

/-! ## Traces of calls -/

/-- The bytes of a text. -/
def str (s : String) : List Byte := s.toList.map fun c => Fin.ofNat c.toNat

/-- The device that holds zero everywhere. -/
def blankDevice : Device := fun _ => 0

/-- A call of `create_file` or `set_content`. -/
inductive Call where
  | create (path : List Byte) (directory : Bool)
  | write (path content : List Byte)

/-- The device after a call, whether it returns or throws; `none` when the call
does not end within the passes granted to `addToDirectory`. -/
def Call.run (dev : Device) : Call → Option Device
  | .create path directory => (create_file dev path directory).map Prod.snd
  | .write path content => some (set_content dev path content).2

/-- The device after a sequence of calls. -/
def runCalls : Device → List Call → Option Device
  | dev, [] => some dev
  | dev, c :: cs =>
    match c.run dev with
    | none => none
    | some dev1 => runCalls dev1 cs

/-! ## The allocator, in the words of the specification -/

/-- The inode table, slot by slot. -/
def inodeTable (dev : Device) : List inode_entry :=
  (List.range INODE_AMOUNT).map (getInode dev)

/-- The allocated extents of the inode table: the inodes whose address is
neither 0 (unused) nor `UINT32_MAX` (not allocated). -/
def allocatedExtents (dev : Device) : List inode_entry :=
  (inodeTable dev).filter fun e => e.addr ≠ 0 ∧ e.addr ≠ UINT32_MAX

/-- The allocated extents have pairwise distinct start addresses, do not
overlap, and lie inside `[MEM_START, DEVICE_SIZE]`. -/
def ExtentsOk (dev : Device) : Prop :=
  (allocatedExtents dev).Pairwise
      (fun x y => x.addr ≠ y.addr ∧ (x.addr + x.size ≤ y.addr ∨ y.addr + y.size ≤ x.addr)) ∧
    ∀ e ∈ allocatedExtents dev, MEM_START ≤ e.addr ∧ e.addr + e.size ≤ DEVICE_SIZE

instance (dev : Device) : Decidable (ExtentsOk dev) := by
  unfold ExtentsOk; infer_instance

/-- The allocated extents in the order of their addresses. -/
def extentsInAddressOrder (dev : Device) : List inode_entry :=
  (allocatedExtents dev).insertionSort fun x y => x.addr ≤ y.addr

/-- The gaps left by extents given in address order, as (start, size): from
`start` to the first extent, between each extent (and its one-byte separator)
and the next, and from the last extent (and its separator) to `DEVICE_SIZE`.
A size is negative when an extent begins before the separator of the one
before it ends. -/
def gapsFrom (start : Nat) : List inode_entry → List (Nat × Int)
  | [] => [(start, (DEVICE_SIZE : Int) - start)]
  | e :: es => (start, (e.addr : Int) - start) :: gapsFrom (e.addr + e.size + 1) es

/-- The gaps of the data region. -/
def dataGaps (dev : Device) : List (Nat × Int) :=
  gapsFrom MEM_START (extentsInAddressOrder dev)

/-- The order of the set of `findFreeSpace` : by address. -/
abbrev addrLt (x y : inode_entry) : Prop := x.addr < y.addr

instance : IsAntisymm inode_entry addrLt :=
  ⟨fun _ _ h1 h2 => absurd h1 (Nat.lt_asymm h2)⟩

instance : IsTrans inode_entry addrLt :=
  ⟨fun _ _ _ h1 h2 => Nat.lt_trans h1 h2⟩

instance : IsTotal inode_entry (fun x y => x.addr ≤ y.addr) :=
  ⟨fun a b => Nat.le_total a.addr b.addr⟩

instance : IsTrans inode_entry (fun x y => x.addr ≤ y.addr) :=
  ⟨fun _ _ _ h1 h2 => Nat.le_trans h1 h2⟩

/-- The gaps of `gapsFrom` when the device ends at `D`. -/
def gapsUpTo (D : Nat) (start : Nat) : List inode_entry → List (Nat × Int)
  | [] => [(start, (D : Int) - start)]
  | e :: es => (start, (e.addr : Int) - start) :: gapsUpTo D (e.addr + e.size + 1) es

/-- Extents in address order that leave gaps of size at least -1 from `start`
on and end at `D` or before. -/
def Chained (D : Nat) (start : Nat) : List inode_entry → Prop
  | [] => start ≤ D + 1
  | e :: es => start ≤ e.addr + 1 ∧ e.addr + e.size ≤ D ∧ Chained D (e.addr + e.size + 1) es

/-- The local variables of `findFreeSpace` after the loop and the test of a
trailing gap that ends at `D`. -/
def scanTo (D : Nat) (n : Nat) (st : FreeScan) (L : List inode_entry) : FreeScan :=
  considerGap n (u32sub D (L.foldl (scanStep n) st).lastFreeSpaceAddress)
    (L.foldl (scanStep n) st)

/-! ## Concrete volumes and traces -/

/-- The volume formatted on a blank device. -/
def freshVolume : Device := format blankDevice

/-- `set_content` for a content whose `size()` is given. -/
def set_content_sized (dev : Device) (path_str : List Byte) (n : Nat) (content : List Byte) :
    Except FsError Unit × Device :=
  match getInodeIndexFromPath dev path_str with
  | .error e => (.error e, dev)
  | .ok inode_index =>
    let file_inode := getInode dev inode_index
    if file_inode.is_dir then (.error .isADirectory, dev)
    else
      match findFreeSpace dev (u32 n) with
      | .error e => (.error e, dev)
      | .ok a =>
        let file_inode1 : inode_entry := { file_inode with size := u32 n, addr := a }
        let dev1 := setInode dev inode_index file_inode1
        (.ok (), blkWrite dev1 a (u32 n) (bufferOf content))

/-- The calls that put the directory `/d` under a file of size zero: the root
directory is moved by its growth, `/d` is allocated at the start of the data
region, and the empty content of `/f` gets the same address. -/
def shadowTrace : List Call :=
  [.create (str "/f") false, .create (str "/d") true, .create (str "/g") false,
   .create (str "/h") false, .write (str "/g") (str "z"), .create (str "/i") false,
   .create (str "/d/x") false, .write (str "/f") (str "")]

/-- The same calls with files only: `/c` is allocated at the start of the data
region and the empty content of `/f` gets the same address. -/
def overlapTrace : List Call :=
  [.create (str "/f") false, .create (str "/a") false, .create (str "/b") false,
   .create (str "/c") false, .write (str "/b") (str "z"), .create (str "/e") false,
   .write (str "/c") (str "hello"), .write (str "/f") (str "")]

/-- A content of 1047756 bytes: all that is free after the root directory of a
fresh volume. -/
def bigContent : List Byte := List.replicate 1047756 0

/-- The calls after the first one that fill the device and the root directory. -/
def fullTraceTail : List Call :=
  [.write (str "/f") bigContent, .create (str "/a") false, .create (str "/b") false,
   .create (str "/c") false]

/-- The calls that fill the device and the four slots of the root directory. -/
def fullTrace : List Call := .create (str "/f") false :: fullTraceTail

/-- The volume after `fullTrace`, with the size of the big content given. -/
def fullVolume : Option Device :=
  match (Call.create (str "/f") false).run freshVolume with
  | none => none
  | some dev1 => runCalls (set_content_sized dev1 (str "/f") 1047756 bigContent).2 fullTraceTail.tail


/-- The device that `create_file` leaves, whether it returns or throws. -/
def afterCreate (dev : Device) (path_str : List Byte) (directory : Bool) : Device :=
  match create_file dev path_str directory with
  | some (_, dev1) => dev1
  | none => dev

/-- The outcomes of a sequence of `create_file` calls, each one made on the
volume that the call before it left. -/
def createResults : Device → List (List Byte × Bool) → List (Option (Except FsError Unit))
  | _, [] => []
  | dev, (path_str, directory) :: rest =>
    match create_file dev path_str directory with
    | none => [none]
    | some (r, dev1) => some r :: createResults dev1 rest

/-- The names used in `exhaustTrace`. -/
def fourNames : List (List Byte) := [str "a", str "b", str "c", str "d"]

/-- The paths `/x/y/z` with `x`, `y` and `z` among the four names, in order. -/
def leafPaths : List (List Byte) :=
  fourNames.flatMap fun x => fourNames.flatMap fun y => fourNames.map fun z =>
    str "/" ++ x ++ str "/" ++ y ++ str "/" ++ z

/-- The 63 calls that use up the inode table: the four directories `/a` to `/d`, the
sixteen directories `/a/a` to `/d/d`, and the first 43 of the files `/a/a/a` to
`/d/d/d`, of which `/c/c/c` is the last. -/
def exhaustTrace : List (List Byte × Bool) :=
  fourNames.map (fun x => (str "/" ++ x, true)) ++
    (fourNames.flatMap fun x => fourNames.map fun y => (str "/" ++ x ++ str "/" ++ y, true)) ++
    (leafPaths.take 43).map (fun q => (q, false))

/-- A volume with the two empty directories `/a` and `/b`. -/
def twoDirs : Device := afterCreate (afterCreate freshVolume (str "/a") true) (str "/b") true

/-- A file content of 35 bytes that reads as a directory when the file is at
820: its first 11 bytes are a directory entry with the name `x` and the inode
index 70, and its bytes 26 to 34, which lie where `getInode(70)` reads (at
`6 + 70 * 12 = 846`), are the record of a directory at `addr` with `size` bytes. -/
def forgedContent (addr size : Nat) : List Byte :=
  [70, 120] ++ List.replicate 9 0 ++ List.replicate 15 0 ++ le32bytes addr ++ le32bytes size ++ [1]

/-- The calls that make the root a file: the content of `/f` sends the parent
path `/f/x` to the forged directory at address 8, inside the record of inode 0. -/
def spoilRootTrace : List Call :=
  [.create (str "/f") false, .write (str "/f") (forgedContent 8 11),
   .create (str "/f/x/y") false]

/-- The calls before a failing `create_file("/f/x/y")` that takes the unused
inode 10: the content of `/f` sends the parent path `/f/x` to the forged
directory at address 126, the record of inode 10, whose slots end with the slot
of the entry `y` of the root directory. -/
def spoilInodeTrace : List Call :=
  [.create (str "/f") false, .create (str "/y") false,
   .write (str "/f") (forgedContent 126 671)]

/-- A fresh volume whose root directory holds an empty slot with the stale name
`abc` before the entry `abc` of inode 5. -/
def staleSlotVolume : Device :=
  blkWrite freshVolume 775 22
    (bufferOf ([0] ++ str "abc" ++ List.replicate 7 0 ++ [5] ++ str "abc" ++ List.replicate 7 0))

/-- The calls that put two entries named `x` into the content of the file `/f`,
the first one with the inode index 0. -/
def staleFileTrace : List Call :=
  [.create (str "/f") false,
   .write (str "/f")
     ([0] ++ str "x" ++ List.replicate 9 0 ++ [5] ++ str "x" ++ List.replicate 9 0)]

/-- The volume of the example scenario: the directory `/a` and the file `/a/b`
with the content "hello". -/
def helloVolume : Device :=
  (set_content (afterCreate (afterCreate freshVolume (str "/a") true) (str "/a/b") false)
    (str "/a/b") (str "hello")).2

/-- A content of `DEVICE_SIZE` bytes. -/
def deviceContent : List Byte := List.replicate 1048576 0

/-- A content of 21 bytes that reads as two pieces of a directory when it lies
one byte after the start of the directory: the ten bytes of the name `x`, and
an unused slot, index 0, that keeps the name `abcdefghij`. -/
def staleContent : List Byte :=
  str "x" ++ List.replicate 9 0 ++ [0] ++ str "abcdefghij"

/-- The calls of `shadowTrace` and a write of `staleContent`, which is put at
776, inside the directory `/d` at 775. -/
def staleTrace : List Call := shadowTrace ++ [.write (str "/h") staleContent]

/-- The device after a sequence of `create_file` calls, each one made on the
volume that the call before it left. -/
def createAll : Device → List (List Byte × Bool) → Device
  | dev, [] => dev
  | dev, (path_str, directory) :: rest => createAll (afterCreate dev path_str directory) rest

/-- A name of 1 to `NAME_SIZE` bytes that holds no NUL byte, no space and no
delimiter, and is not the name `.`. -/
def ValidName (n : List Byte) : Prop :=
  n ≠ [] ∧ n.length ≤ NAME_SIZE ∧ (0 : Byte) ∉ n ∧ (32 : Byte) ∉ n ∧ PATH_DELIMITER ∉ n ∧
    n ≠ [46]

/-- The calls `create_file("/" + name, directory)` for a list of names and flags. -/
def rootCalls (entries : List (List Byte × Bool)) : List (List Byte × Bool) :=
  entries.map fun e => (PATH_DELIMITER :: e.1, e.2)

/-- The directory entries of a list of names, with the inode indices `b`,
`b + 1`, ... and the names as `strncpy` stores them in the name field. -/
def rootEntries : Nat → List (List Byte × Bool) → List dir_entry
  | _, [] => []
  | b, e :: rest => ⟨b, strncpy e.1 NAME_SIZE⟩ :: rootEntries (b + 1) rest

instance : DecidablePred ValidName := fun n => by
  unfold ValidName
  infer_instance

/-- Five names with their flags, one more than the root directory holds at first. -/
def fiveEntries : List (List Byte × Bool) :=
  [(str "a", false), (str "b", true), (str "c", false), (str "d", false), (str "e", true)]

/-- The device that `create_file_with` leaves, whether it returns or throws. -/
def afterCreateWith (past : PastEnd) (dev : Device) (path_str : List Byte) (directory : Bool) :
    Device :=
  match create_file_with past dev path_str directory with
  | some (_, dev1) => dev1
  | none => dev

/-- The outcomes of a sequence of `create_file_with` calls, each one made on the
volume that the call before it left. -/
def createResultsWith (past : PastEnd) :
    Device → List (List Byte × Bool) → List (Option (Except FsError Unit))
  | _, [] => []
  | dev, (path_str, directory) :: rest =>
    match create_file_with past dev path_str directory with
    | none => [none]
    | some (r, dev1) => some r :: createResultsWith past dev1 rest

/-- The device after a sequence of `create_file_with` calls. -/
def createAllWith (past : PastEnd) : Device → List (List Byte × Bool) → Device
  | dev, [] => dev
  | dev, (path_str, directory) :: rest =>
    createAllWith past (afterCreateWith past dev path_str directory) rest

/-- Six names with their flags, two more than the root directory holds at first. -/
def sixEntries : List (List Byte × Bool) :=
  [(str "a", false), (str "b", true), (str "c", false), (str "d", false), (str "e", true),
    (str "g", false)]

/-- The calls that create the directories `/a` and `/b` and a file `f` in each. -/
def siblingCalls : List (List Byte × Bool) :=
  [(str "/a", true), (str "/b", true), (str "/a/f", false), (str "/b/f", false)]

/-- A formatted volume written byte by byte: the first slot of the root directory
holds the entry of the name `b` with the inode 1, and the inode 1 is a file of
the 5 bytes `hello` at 820. -/
def paddedVolume : Device :=
  blkWrite (setInode (blkWrite freshVolume 775 11 (bufferOf (1 :: str "b"))) 1 ⟨820, 5, false⟩)
    820 5 (bufferOf (str "hello"))

/-- A formatted volume whose inode 1 holds an extent outside the data region:
address 5, size 0. -/
def strayExtentVolume : Device := setInode freshVolume 1 ⟨5, 0, false⟩

/-- A formatted volume whose inode 1 holds all the bytes after the root
directory: the extent from 820 to the end of the device. -/
def filledVolume : Device := setInode freshVolume 1 ⟨820, 1047756, false⟩

/-- A formatted volume written byte by byte: the first slot of the root directory
holds the entry of the name `a` with the inode 1, and the inode 1 is a directory
of 44 bytes at 820, right after the root directory. -/
def neighbourVolume : Device :=
  setInode (blkWrite freshVolume 775 11 (bufferOf (1 :: str "a"))) 1 ⟨820, 44, true⟩
/-! ## Directories as lists of entries -/

/-- The entries of the directory content at `dir_addr` of `dir_size` bytes, slot by slot. -/
def dirSlots (dev : Device) (dir_addr dir_size : Nat) : List dir_entry :=
  (slotAddrs dir_addr dir_size).map (readDirEntry dev)

/-- The part of a name that `strncmp` and `strncpy` look at: the bytes before
the first NUL, `NAME_SIZE` at most. -/
def nameKey (name : List Byte) : List Byte :=
  (name.takeWhile fun c => c ≠ 0).take NAME_SIZE

/-- The test of `addToDirectory` and `findFileInDirectory` on the slot at address `s`. -/
def matchAt (dev : Device) (name : List Byte) (s : Nat) : Bool :=
  strncmpEq NAME_SIZE (readDirEntry dev s).name name

/-- The bytes that `addToDirectory` writes into a slot. -/
def entryBuffer (inode_index : Nat) (filename : List Byte) : Buffer :=
  bufferOf (dirEntryBytes ⟨inode_index, strncpy filename NAME_SIZE⟩)

/-! ## Volumes made by `format` and `create_file` -/

/-- The inode `i` holds an extent: its address is neither 0 nor `UINT32_MAX`. -/
def isAllocated (dev : Device) (i : Nat) : Prop :=
  (getInode dev i).addr ≠ 0 ∧ (getInode dev i).addr ≠ UINT32_MAX

instance (dev : Device) (i : Nat) : Decidable (isAllocated dev i) := by
  unfold isAllocated; infer_instance

/-- Every allocated extent ends inside the device. -/
def InCapacity (dev : Device) : Prop :=
  ∀ i, i < 64 → isAllocated dev i →
    (getInode dev i).addr + (getInode dev i).size ≤ DEVICE_SIZE

instance (dev : Device) : Decidable (InCapacity dev) := by
  unfold InCapacity; infer_instance

/-- The shape of a volume on which only `format` and `create_file` have run:
the root is a directory in use, unused inodes are zero, the allocated extents
are directory contents inside the data region that do not overlap, and every
slot of them holds an inode index below 64, with a name that starts with NUL
when the index is 0. -/
structure WellFormed (dev : Device) : Prop where
  root_dir : (getInode dev 0).addr ≠ 0 ∧ (getInode dev 0).is_dir = true
  unused_zero : ∀ i, i < 64 → (getInode dev i).addr = 0 →
    (getInode dev i).size = 0 ∧ (getInode dev i).is_dir = false
  extent : ∀ i, i < 64 → isAllocated dev i →
    MEM_START ≤ (getInode dev i).addr ∧
      (getInode dev i).addr + (getInode dev i).size ≤ DEVICE_SIZE ∧
      0 < (getInode dev i).size ∧ (getInode dev i).size % 11 = 0
  disjoint : ∀ i j, i < 64 → j < 64 → i ≠ j → isAllocated dev i → isAllocated dev j →
    (getInode dev i).addr + (getInode dev i).size ≤ (getInode dev j).addr ∨
      (getInode dev j).addr + (getInode dev j).size ≤ (getInode dev i).addr
  slots : ∀ i, i < 64 → isAllocated dev i → ∀ k, 11 * k < (getInode dev i).size →
    (dev ((getInode dev i).addr + 11 * k)).val < 64 ∧
      ((dev ((getInode dev i).addr + 11 * k)).val = 0 →
        dev ((getInode dev i).addr + 11 * k + 1) = 0)

/-- The volumes reached from `format` by calls of `create_file`, returning or
throwing. -/
inductive Reached : Device → Prop where
  | format (dev : Device) : Reached (format dev)
  | create {dev : Device} (path : List Byte) (directory : Bool) (r : Except FsError Unit)
      (dev' : Device) : Reached dev → create_file dev path directory = some (r, dev') →
      Reached dev'

/-- The directory `p` of the volume `dev` as the device `devX` holds it, at
`a` with `sz` bytes: in place, or moved by `reallocInode`. -/
structure DirBase (dev devX : Device) (p a sz : Nat) : Prop where
  inode : getInode devX p = ⟨a, sz, true⟩
  others : ∀ j, j < 64 → j ≠ p → getInode devX j = getInode dev j
  place : MEM_START ≤ a ∧ a + sz ≤ INT32_MAX ∧ 0 < sz ∧ sz % 11 = 0
  fresh : ∀ j, j < 64 → j ≠ p → isAllocated dev j →
    a + sz ≤ (getInode dev j).addr ∨ (getInode dev j).addr + (getInode dev j).size ≤ a
  frame : ∀ x, 775 ≤ x → (x < a ∨ a + sz ≤ x) → devX x = dev x
  slots : ∀ k, 11 * k < sz →
    (devX (a + 11 * k)).val < 64 ∧ ((devX (a + 11 * k)).val = 0 → devX (a + 11 * k + 1) = 0)
  lookups : ∀ c y, nameKey c ≠ [] →
    findFileInDirectory dev (getInode dev p).addr (getInode dev p).size c = .ok y →
    findFileInDirectory devX a sz c = .ok y

/-- What `addToDirectory(p, i, name)` leaves of the inode table and of the data region. -/
structure AddFrame (dev : Device) (p : Nat) (dev' : Device) : Prop where
  others : ∀ j, j < 64 → j ≠ p → getInode dev' j = getInode dev j
  is_dir : (getInode dev' p).is_dir = true
  place : MEM_START ≤ (getInode dev' p).addr ∧
    (getInode dev' p).addr + (getInode dev' p).size ≤ INT32_MAX ∧
    0 < (getInode dev' p).size ∧ (getInode dev' p).size % 11 = 0
  fresh : ∀ j, j < 64 → j ≠ p → isAllocated dev j →
    (getInode dev' p).addr + (getInode dev' p).size ≤ (getInode dev j).addr ∨
      (getInode dev j).addr + (getInode dev j).size ≤ (getInode dev' p).addr
  frame : ∀ x, 775 ≤ x →
    (x < (getInode dev' p).addr ∨ (getInode dev' p).addr + (getInode dev' p).size ≤ x) →
    dev' x = dev x
  slots : ∀ k, 11 * k < (getInode dev' p).size →
    (dev' ((getInode dev' p).addr + 11 * k)).val < 64 ∧
      ((dev' ((getInode dev' p).addr + 11 * k)).val = 0 →
        dev' ((getInode dev' p).addr + 11 * k + 1) = 0)

/-- What `addToDirectory(p, i, name)` does on a well-formed volume. -/
structure AddEffect (dev : Device) (p : Nat) (name : List Byte)
    (r : Except FsError Unit) (dev' : Device) : Prop where
  frame : AddFrame dev p dev'
  result : r = .ok () ∨ r = .error .alreadyExists
  lookups : r = .ok () → ∀ c y, nameKey c ≠ [] →
    findFileInDirectory dev (getInode dev p).addr (getInode dev p).size c = .ok y →
    findFileInDirectory dev' (getInode dev' p).addr (getInode dev' p).size c = .ok y
  present : r = .ok () →
    ∃ s ∈ slotAddrs (getInode dev' p).addr (getInode dev' p).size, matchAt dev' name s = true
  duplicate : (∃ s ∈ slotAddrs (getInode dev p).addr (getInode dev p).size,
      matchAt dev name s = true) → r = .error .alreadyExists
  succeeds : (∀ s ∈ slotAddrs (getInode dev p).addr (getInode dev p).size,
      matchAt dev name s = false) → nameKey name ≠ [] → r = .ok ()

/-- The size of the content of the directory `p` as the first pass of
`addToDirectory` sees it: nothing while the directory is not allocated. -/
def dirBaseSize (dev : Device) (p : Nat) : Nat :=
  if (getInode dev p).addr = UINT32_MAX then 0 else (getInode dev p).size

/-- The inode index held by the slot `k` of the content of the inode `p`. -/
def slotIndex (dev : Device) (p k : Nat) : Nat :=
  (dev ((getInode dev p).addr + 11 * k)).val

/-- In the content of `p` no taken slot follows an empty one. -/
def PrefixLive (dev : Device) (p : Nat) : Prop :=
  ∀ k k', k < k' → 11 * k' < dirBaseSize dev p → slotIndex dev p k = 0 →
    slotIndex dev p k' = 0

/-- The slots of the directory `p` after `addToDirectory(p, i, name)`: the
directory is in place, or it was full and has grown by four slots into a gap;
its slots hold what they held, the new ones hold zero, and on a return the
first empty one holds `i`. -/
structure AddShape (dev : Device) (p i : Nat) (r : Except FsError Unit) (dev' : Device) :
    Prop where
  grow : getInode dev' p = getInode dev p ∨
    ((getInode dev' p).size = dirBaseSize dev p + 44 ∧
      (∀ k, 11 * k < dirBaseSize dev p → slotIndex dev p k ≠ 0) ∧
      ((getInode dev' p).addr = MEM_START ∨ ∃ j, j < 64 ∧ j ≠ p ∧ isAllocated dev j ∧
        (getInode dev' p).addr = (getInode dev j).addr + (getInode dev j).size + 1))
  kept : r ≠ .ok () → ∀ k, 11 * k < (getInode dev' p).size →
    slotIndex dev' p k = if 11 * k < dirBaseSize dev p then slotIndex dev p k else 0
  added : r = .ok () → ∃ k0, 11 * k0 < (getInode dev' p).size ∧
    (∀ k, k < k0 → slotIndex dev' p k ≠ 0) ∧
    ∀ k, 11 * k < (getInode dev' p).size →
      slotIndex dev' p k =
        if k = k0 then i else if 11 * k < dirBaseSize dev p then slotIndex dev p k else 0

/-- The entries in the slots of the directory `p` after
`addToDirectory(p, i, name)`: every slot holds the entry it held, the new slots
hold zero, and on a return the first empty slot holds the entry `(i, name)`. -/
structure AddEntries (dev : Device) (p i : Nat) (name : List Byte) (r : Except FsError Unit)
    (dev' : Device) : Prop where
  kept : r ≠ .ok () → ∀ k, 11 * k < (getInode dev' p).size →
    readDirEntry dev' ((getInode dev' p).addr + 11 * k) =
      if 11 * k < dirBaseSize dev p then readDirEntry dev ((getInode dev p).addr + 11 * k)
      else ⟨0, List.replicate NAME_SIZE 0⟩
  added : r = .ok () → ∃ k0, 11 * k0 < (getInode dev' p).size ∧
    (∀ k, k < k0 → slotIndex dev' p k ≠ 0) ∧
    (11 * k0 < dirBaseSize dev p → slotIndex dev p k0 = 0) ∧
    ∀ k, 11 * k < (getInode dev' p).size →
      readDirEntry dev' ((getInode dev' p).addr + 11 * k) =
        if k = k0 then ⟨i, strncpy name NAME_SIZE⟩
        else if 11 * k < dirBaseSize dev p then
          readDirEntry dev ((getInode dev p).addr + 11 * k)
        else ⟨0, List.replicate NAME_SIZE 0⟩

/-- The entries of the content of the inode `p` whose inode index is not 0, in
slot order. -/
def liveEntries (dev : Device) (p : Nat) : List dir_entry :=
  (dirSlots dev (getInode dev p).addr (getInode dev p).size).filter
    fun e => e.inode_index ≠ 0

/-- The weight of an extent of `s` bytes, `s` a multiple of 44: the sum of
`44 * m + 1` over the `m` from 1 to `s / 44`, which bounds the bytes that the
growth of a directory to `s` bytes has taken at the end of the data region. -/
def extentWeight (s : Nat) : Nat := (s / 44) * (22 * (s / 44) + 23)

/-- The weight of the inode `j`: that of its extent when it holds one. -/
def inodeWeight (dev : Device) (j : Nat) : Nat :=
  if isAllocated dev j then extentWeight (getInode dev j).size else 0

/-- The start of the data region plus the weights of the allocated extents. -/
def potential (dev : Device) : Nat :=
  MEM_START + ((List.range 64).map (inodeWeight dev)).sum

/-- What `format` and `create_file` keep of the directories besides `WellFormed`:
taken slots come first, hold the indices of inodes in use, and hold different
indices within one directory; an extent has at most 64 slots in groups of four,
ends below the potential, and belongs to a directory. -/
structure Tidy (dev : Device) : Prop where
  taken_first : ∀ j, j < 64 → isAllocated dev j → PrefixLive dev j
  taken_used : ∀ j, j < 64 → isAllocated dev j → ∀ k, 11 * k < (getInode dev j).size →
    slotIndex dev j k ≠ 0 → (getInode dev (slotIndex dev j k)).addr ≠ 0
  taken_differ : ∀ j, j < 64 → isAllocated dev j → ∀ k k', 11 * k < (getInode dev j).size →
    11 * k' < (getInode dev j).size → slotIndex dev j k ≠ 0 →
    slotIndex dev j k = slotIndex dev j k' → k = k'
  small : ∀ j, j < 64 → isAllocated dev j →
    (getInode dev j).size ≤ 704 ∧ (getInode dev j).size % 44 = 0
  bound : ∀ j, j < 64 → isAllocated dev j →
    (getInode dev j).addr + (getInode dev j).size ≤ potential dev
  dirs : ∀ j, j < 64 → isAllocated dev j → (getInode dev j).is_dir = true

/-- The inode table and the data region after `create_file` has called
`addToDirectory(p, i, name)` and, on a return, has written the inode `i`. -/
structure CreateStep (dev devA dev' : Device) (p i : Nat) (r : Except FsError Unit) : Prop where
  wf : WellFormed dev
  tidy : Tidy dev
  hp : p < 64
  hi : i < 64
  unused : (getInode dev i).addr = 0
  used : (getInode dev p).addr ≠ 0
  frame : AddFrame dev p devA
  shape : AddShape dev p i r devA
  inodes : ∀ j, j ≠ i → getInode dev' j = getInode devA j
  data : ∀ x, 775 ≤ x → dev' x = devA x
  inode : (r = .ok () ∧ (getInode dev' i).addr = UINT32_MAX) ∨
    (r ≠ .ok () ∧ getInode dev' i = getInode devA i)

/-- The names that `splitPath` returns for a path without a space. -/
def pathNames (path : List Byte) : List (List Byte) :=
  ((pathPieces path).filter fun curr => curr ≠ [] ∧ curr ≠ [46]).map capFileName

/-- The lookups that a second volume answers as the first one does. -/
def LookupsKept (dev dev' : Device) : Prop :=
  ∀ X, X < 64 → ∀ c y, nameKey c ≠ [] →
    findFileInDirectory dev (getInode dev X).addr (getInode dev X).size c = .ok y →
    findFileInDirectory dev' (getInode dev' X).addr (getInode dev' X).size c = .ok y ∧
      (getInode dev' X).is_dir = (getInode dev X).is_dir

/-! # Lemmas

## Formatting -/

theorem format_apply (dev : Device) (a : Nat) :
    format dev a =
      if 775 ≤ a ∧ a < 819 then 0
      else if 6 ≤ a ∧ a < 18 then bufferOf (inodeBytes ⟨775, 44, true⟩) (a - 6)
      else if 6 ≤ a ∧ a < 774 then 0
      else if a < 5 then bufferOf [68, 97, 76, 73, 3] a
      else dev a := by
  simp only [format, blkWrite, setInode, zeros, MEM_START, INODE_TABLE_START, INODE_TABLE_SIZE,
    INODE_AMOUNT, DEVICE_SIZE, sizeof_inode_entry, sizeof_myfs_header, sizeof_dir_entry,
    INIT_DIR_SIZE, BASEDIR_INODE_INDEX]
  have h1 : (strncpy MYFS_MAGIC 4 ++ [CURR_VERSION]) = [68, 97, 76, 73, 3] := by decide
  rw [h1]
  norm_num

theorem format_format_aux (dev : Device) : format (format dev) = format dev := by
  funext a
  rw [format_apply (format dev) a, format_apply dev a]
  split_ifs <;> rfl

theorem getInode_format_root (dev : Device) : getInode (format dev) 0 = ⟨775, 44, true⟩ := by
  simp only [getInode, format_apply, INODE_TABLE_START, sizeof_inode_entry, sizeof_myfs_header]
  norm_num
  decide

theorem list_dir_format_aux (dev : Device) : list_dir (format dev) [] = .ok [] := by
  have hs : slotAddrs 775 44 = [775, 786, 797, 808] := by decide
  simp only [list_dir, getInodeIndexFromPath, BASEDIR_INODE_INDEX, true_or, if_true,
    getInode_format_root, hs]
  simp [readDirEntry, format_apply]

theorem strncmpEq_magic (b0 b1 b2 b3 : Byte) :
    strncmpEq 4 [b0, b1, b2, b3] MYFS_MAGIC = decide (b0 = 68 ∧ b1 = 97 ∧ b2 = 76 ∧ b3 = 73) := by
  simp only [strncmpEq, MYFS_MAGIC, List.headD_cons, List.tail_cons]
  by_cases h0 : b0 = 68 <;> by_cases h1 : b1 = 97 <;> by_cases h2 : b2 = 76 <;>
    by_cases h3 : b3 = 73 <;> simp [h0, h1, h2, h3]

theorem construct_eq_aux (dev : Device) :
    construct dev =
      if dev 0 = 68 ∧ dev 1 = 97 ∧ dev 2 = 76 ∧ dev 3 = 73 ∧ dev 4 = 3 then dev
      else format dev := by
  have hr : blkRead dev 0 sizeof_myfs_header = [dev 0, dev 1, dev 2, dev 3, dev 4] := by
    simp [blkRead, sizeof_myfs_header, List.range_succ]
  simp only [construct, hr, List.take, strncmpEq_magic, CURR_VERSION]
  by_cases h : dev 0 = 68 ∧ dev 1 = 97 ∧ dev 2 = 76 ∧ dev 3 = 73
  · by_cases h4 : dev 4 = 3
    · simp [h, h4]
    · simp [h, h4]
  · have : ¬ (dev 0 = 68 ∧ dev 1 = 97 ∧ dev 2 = 76 ∧ dev 3 = 73 ∧ dev 4 = 3) := by tauto
    simp [h, this]

/-! ## The store past `entry_to_add` -/

/-- With `PastEnd.dead` the function with the store is `addToDirectory`. -/
theorem addToDirectoryWith_dead (dev : Device) (dir_inode_index inode_index : Nat)
    (filename : List Byte) :
    addToDirectoryWith .dead dev dir_inode_index inode_index filename =
      addToDirectory dev dir_inode_index inode_index filename := rfl

/-- With `PastEnd.dead` the function with the store is `create_file`. -/
theorem create_file_with_dead (dev : Device) (path_str : List Byte) (directory : Bool) :
    create_file_with .dead dev path_str directory = create_file dev path_str directory := rfl

/-- With `PastEnd.dirAddr` the store turns the address 775 of the root directory
into 768, an address inside the record of the inode 63. -/
theorem storePastEntry_root :
    (storePastEntry .dirAddr ⟨MEM_START, 44, true⟩).addr = 768 ∧
      INODE_TABLE_START + 63 * sizeof_inode_entry ≤ 768 ∧
      768 < INODE_TABLE_START + 64 * sizeof_inode_entry := by
  decide

/-! ## The allocator -/

/-! ### The content of the set of `findFreeSpace` -/

theorem foldl_insert_filter {α β : Type} (g : α → β) (p : β → Prop) [DecidablePred p]
    (h : β → List β → List β) (l : List α) (init : List β) :
    l.foldl (fun acc i => if p (g i) then h (g i) acc else acc) init =
      ((l.map g).filter fun e => p e).foldl (fun acc e => h e acc) init := by
  induction l generalizing init with
  | nil => rfl
  | cons x xs ih =>
    simp only [List.foldl_cons, List.map_cons, List.filter_cons]
    by_cases hp : p (g x)
    · simp [hp, ih]
    · simp [hp, ih]

theorem allocatedInodes_eq (dev : Device) :
    allocatedInodes dev = (allocatedExtents dev).foldl (fun acc e => setInsert e acc) [] := by
  unfold allocatedInodes allocatedExtents inodeTable
  exact foldl_insert_filter (getInode dev) (fun e => e.addr ≠ 0 ∧ e.addr ≠ UINT32_MAX)
    setInsert (List.range INODE_AMOUNT) []

theorem mem_setInsert {x y : inode_entry} {l : List inode_entry} (h : y ∈ setInsert x l) :
    y = x ∨ y ∈ l := by
  induction l with
  | nil => simpa [setInsert] using h
  | cons z zs ih =>
    simp only [setInsert] at h
    split_ifs at h with h1 h2
    · simpa using h
    · rcases List.mem_cons.1 h with h | h
      · exact Or.inr (by simp [h])
      · rcases ih h with h | h
        · exact Or.inl h
        · exact Or.inr (List.mem_cons_of_mem _ h)
    · exact Or.inr h

theorem setInsert_sorted (x : inode_entry) {l : List inode_entry} (h : l.Sorted addrLt) :
    (setInsert x l).Sorted addrLt := by
  induction l with
  | nil => simp [setInsert]
  | cons z zs ih =>
    simp only [setInsert]
    have hz := List.sorted_cons.1 h
    split_ifs with h1 h2
    · refine List.sorted_cons.2 ⟨?_, h⟩
      intro b hb
      rcases List.mem_cons.1 hb with rfl | hb
      · exact h1
      · exact Nat.lt_trans h1 (hz.1 b hb)
    · refine List.sorted_cons.2 ⟨?_, ih hz.2⟩
      intro b hb
      rcases mem_setInsert hb with rfl | hb
      · exact h2
      · exact hz.1 b hb
    · exact h

theorem setInsert_perm (x : inode_entry) {l : List inode_entry}
    (h : ∀ y ∈ l, x.addr ≠ y.addr) : (setInsert x l).Perm (x :: l) := by
  induction l with
  | nil => simp [setInsert]
  | cons z zs ih =>
    simp only [setInsert]
    have hz : x.addr ≠ z.addr := h z (List.mem_cons_self _ _)
    split_ifs with h1 h2
    · exact List.Perm.refl _
    · exact ((ih fun y hy => h y (List.mem_cons_of_mem _ hy)).cons z).trans (List.Perm.swap _ _ _)
    · omega

theorem foldl_setInsert_sorted (l acc : List inode_entry) (h : acc.Sorted addrLt) :
    (l.foldl (fun acc e => setInsert e acc) acc).Sorted addrLt := by
  induction l generalizing acc with
  | nil => exact h
  | cons x xs ih => exact ih _ (setInsert_sorted x h)

theorem foldl_setInsert_perm (l acc : List inode_entry)
    (hl : l.Pairwise fun x y => x.addr ≠ y.addr)
    (hacc : ∀ x ∈ l, ∀ y ∈ acc, x.addr ≠ y.addr) :
    (l.foldl (fun acc e => setInsert e acc) acc).Perm (l ++ acc) := by
  induction l generalizing acc with
  | nil => simp
  | cons x xs ih =>
    have hx := List.pairwise_cons.1 hl
    have h1 : (setInsert x acc).Perm (x :: acc) :=
      setInsert_perm x fun y hy => hacc x (List.mem_cons_self _ _) y hy
    have h2 := ih (setInsert x acc) hx.2 (by
      intro a ha b hb
      rcases mem_setInsert hb with rfl | hb
      · exact fun hab => hx.1 a ha hab.symm
      · exact hacc a (List.mem_cons_of_mem _ ha) b hb)
    simp only [List.foldl_cons]
    refine h2.trans ?_
    refine (List.Perm.append_left xs h1).trans ?_
    simp only [List.cons_append]
    exact List.perm_middle

/-- With pairwise distinct start addresses the set of `findFreeSpace` holds the
allocated extents in the order of their addresses. -/
theorem allocatedInodes_eq_sorted (dev : Device)
    (h : (allocatedExtents dev).Pairwise fun x y => x.addr ≠ y.addr) :
    allocatedInodes dev = extentsInAddressOrder dev := by
  rw [allocatedInodes_eq]
  have hp1 := foldl_setInsert_perm (allocatedExtents dev) [] h (by simp)
  have hs1 := foldl_setInsert_sorted (allocatedExtents dev) [] List.sorted_nil
  have hp2 : (extentsInAddressOrder dev).Perm (allocatedExtents dev) :=
    List.perm_insertionSort _ _
  have hs2 : (extentsInAddressOrder dev).Sorted (fun x y => x.addr ≤ y.addr) :=
    List.sorted_insertionSort _ _
  have hd : (extentsInAddressOrder dev).Pairwise fun x y => x.addr ≠ y.addr :=
    (hp2.pairwise_iff (fun {a b} hab => Ne.symm hab)).2 h
  have hs3 : (extentsInAddressOrder dev).Sorted addrLt :=
    (List.Pairwise.and hs2 hd).imp fun {a b} hab => Nat.lt_of_le_of_ne hab.1 hab.2
  simp only [List.append_nil] at hp1
  exact List.eq_of_perm_of_sorted (hp1.trans hp2.symm) hs1 hs3

theorem bestFit_eq (L : List inode_entry) (n : Nat) :
    bestFit L n =
      if (scanTo DEVICE_SIZE n ⟨UINT32_MAX, UINT32_MAX, MEM_START⟩ L).min = UINT32_MAX then
        .error .noFreeSpace
      else .ok (scanTo DEVICE_SIZE n ⟨UINT32_MAX, UINT32_MAX, MEM_START⟩ L).minAddress := rfl

theorem gapsFrom_eq (start : Nat) (L : List inode_entry) :
    gapsFrom start L = gapsUpTo DEVICE_SIZE start L := by
  induction L generalizing start with
  | nil => rfl
  | cons e es ih => simp only [gapsFrom, gapsUpTo, ih]

theorem considerGap_spec (n x start : Nat) (st : FreeScan) (hx : x ≤ 4294967294)
    (hs : start ≤ x + 1) (hl : st.lastFreeSpaceAddress = start) (hm : st.min ≤ UINT32_MAX) :
    (considerGap n (u32sub x start) st).lastFreeSpaceAddress = start ∧
    (considerGap n (u32sub x start) st).min ≤ st.min ∧
    ((considerGap n (u32sub x start) st).min = st.min →
      (considerGap n (u32sub x start) st).minAddress = st.minAddress) ∧
    ((n : Int) ≤ (x : Int) - start → ((considerGap n (u32sub x start) st).min : Int) ≤ (x : Int) - start) ∧
    ((considerGap n (u32sub x start) st).min < st.min →
      (considerGap n (u32sub x start) st).minAddress = start ∧
      ((considerGap n (u32sub x start) st).min : Int) = (x : Int) - start ∧
      (n : Int) ≤ (x : Int) - start) := by
  simp only [UINT32_MAX] at *
  by_cases h1 : start ≤ x
  · have hu : u32sub x start = x - start := by
      simp only [u32sub]; omega
    rw [hu]
    simp only [considerGap]
    split_ifs with h2
    · simp only [hl]
      refine ⟨trivial, by omega, ?_, ?_, ?_⟩
      · intro h; omega
      · intro _; omega
      · intro _; exact ⟨trivial, by omega, by omega⟩
    · refine ⟨hl, le_refl _, fun _ => rfl, ?_, ?_⟩
      · intro h; omega
      · intro h; omega
  · have hu : u32sub x start = 4294967295 := by
      simp only [u32sub]; omega
    rw [hu]
    simp only [considerGap]
    split_ifs with h2
    · omega
    · refine ⟨hl, le_refl _, fun _ => rfl, ?_, ?_⟩
      · intro h; omega
      · intro h; omega

theorem gapsUpTo_start_le {D start : Nat} {L : List inode_entry} (h : Chained D start L) :
    ∀ g ∈ gapsUpTo D start L, start ≤ g.1 := by
  induction L generalizing start with
  | nil => intro g hg; simp [gapsUpTo] at hg; simp [hg]
  | cons e es ih =>
    intro g hg
    simp only [gapsUpTo, List.mem_cons] at hg
    rcases hg with rfl | hg
    · exact le_refl _
    · have := ih h.2.2 g hg
      have := h.1
      omega

theorem gapsUpTo_size_le {D start : Nat} {L : List inode_entry} (h : Chained D start L) :
    ∀ g ∈ gapsUpTo D start L, g.2 ≤ D := by
  induction L generalizing start with
  | nil => intro g hg; simp [gapsUpTo] at hg; simp [hg]
  | cons e es ih =>
    intro g hg
    simp only [gapsUpTo, List.mem_cons] at hg
    rcases hg with rfl | hg
    · have := h.2.1
      simp only
      omega
    · exact ih h.2.2 g hg

theorem scanTo_spec (D : Nat) (hD : D ≤ 4294967294) (n : Nat) (L : List inode_entry) :
    ∀ (start : Nat) (st : FreeScan), Chained D start L → st.lastFreeSpaceAddress = start →
      st.min ≤ UINT32_MAX →
      (scanTo D n st L).min ≤ st.min ∧
      ((scanTo D n st L).min = st.min → (scanTo D n st L).minAddress = st.minAddress) ∧
      (∀ g ∈ gapsUpTo D start L, (n : Int) ≤ g.2 → ((scanTo D n st L).min : Int) ≤ g.2) ∧
      ((scanTo D n st L).min < st.min →
        ∃ g ∈ gapsUpTo D start L, g.1 = (scanTo D n st L).minAddress ∧
          g.2 = ((scanTo D n st L).min : Int) ∧ (n : Int) ≤ g.2 ∧
          ∀ g' ∈ gapsUpTo D start L, g'.2 = g.2 → g.1 ≤ g'.1) := by
  induction L with
  | nil =>
    intro start st hc hl hm
    have hc' : start ≤ D + 1 := hc
    obtain ⟨-, h2, h3, h4, h5⟩ := considerGap_spec n D start st hD hc' hl hm
    simp only [scanTo, List.foldl_nil, hl, gapsUpTo, List.mem_singleton, forall_eq]
    refine ⟨h2, h3, h4, fun h => ?_⟩
    obtain ⟨h6, h7, h8⟩ := h5 h
    exact ⟨(start, (D : Int) - start), rfl, h6.symm, h7.symm, h8, fun _ => le_refl _⟩
  | cons e es ih =>
    intro start st hc hl hm
    obtain ⟨hc1, hc2, hc3⟩ := hc
    obtain ⟨-, h2, h3, h4, h5⟩ :=
      considerGap_spec n e.addr start st (by omega) hc1 hl hm
    have hu : u32 (e.addr + e.size + 1) = e.addr + e.size + 1 := by
      simp only [u32]; omega
    have hst1 : scanTo D n st (e :: es) =
        scanTo D n ⟨(considerGap n (u32sub e.addr start) st).min,
          (considerGap n (u32sub e.addr start) st).minAddress, e.addr + e.size + 1⟩ es := by
      simp only [scanTo, List.foldl_cons, scanStep, hl, hu]
    rw [hst1]
    generalize considerGap n (u32sub e.addr start) st = cg at h2 h3 h4 h5 ⊢
    obtain ⟨i1, i2, i3, i4⟩ := ih (e.addr + e.size + 1)
      ⟨cg.min, cg.minAddress, e.addr + e.size + 1⟩ hc3 rfl (le_trans h2 hm)
    generalize scanTo D n ⟨cg.min, cg.minAddress, e.addr + e.size + 1⟩ es = fin at i1 i2 i3 i4 ⊢
    simp only at i1 i2 i3 i4
    refine ⟨le_trans i1 h2, ?_, ?_, ?_⟩
    · intro h
      have e1 : cg.min = st.min := by omega
      rw [i2 (by omega), h3 e1]
    · intro g hg hn
      simp only [gapsUpTo, List.mem_cons] at hg
      rcases hg with rfl | hg
      · have := h4 hn
        simp only at hn ⊢
        omega
      · exact i3 g hg hn
    · intro h
      by_cases hlt : fin.min < cg.min
      · obtain ⟨g, hg, g1, g2, g3, g4⟩ := i4 hlt
        refine ⟨g, ?_, g1, g2, g3, ?_⟩
        · simp only [gapsUpTo, List.mem_cons]; exact Or.inr hg
        · intro g' hg' he
          simp only [gapsUpTo, List.mem_cons] at hg'
          rcases hg' with rfl | hg'
          · exfalso
            simp only at he
            have := h4 (by omega)
            omega
          · exact g4 g' hg' he
      · have e1 : fin.min = cg.min := by omega
        obtain ⟨h6, h7, h8⟩ := h5 (by omega)
        refine ⟨(start, (e.addr : Int) - start), ?_, ?_, ?_, h8, ?_⟩
        · simp [gapsUpTo]
        · rw [i2 e1, h6]
        · rw [e1, h7]
        · intro g' hg' _
          exact gapsUpTo_start_le (L := e :: es) ⟨hc1, hc2, hc3⟩ g' hg'

theorem chained_of_sorted (D start : Nat) (L : List inode_entry)
    (hb : ∀ e ∈ L, start ≤ e.addr + 1 ∧ e.addr + e.size ≤ D)
    (hp : L.Pairwise fun x y =>
      x.addr < y.addr ∧ (x.addr + x.size ≤ y.addr ∨ y.addr + y.size ≤ x.addr))
    (hs : start ≤ D + 1) : Chained D start L := by
  induction L generalizing start with
  | nil => exact hs
  | cons e es ih =>
    have he := hb e (List.mem_cons_self _ _)
    have hpc := List.pairwise_cons.1 hp
    refine ⟨he.1, he.2, ih _ ?_ hpc.2 (by omega)⟩
    intro y hy
    have h1 := hpc.1 y hy
    have h2 := hb y (List.mem_cons_of_mem _ hy)
    omega

theorem sorted_extents (dev : Device) (hok : ExtentsOk dev) :
    (extentsInAddressOrder dev).Pairwise fun x y =>
      x.addr < y.addr ∧ (x.addr + x.size ≤ y.addr ∨ y.addr + y.size ≤ x.addr) := by
  have hp2 : (extentsInAddressOrder dev).Perm (allocatedExtents dev) :=
    List.perm_insertionSort _ _
  have hs2 : (extentsInAddressOrder dev).Sorted (fun x y => x.addr ≤ y.addr) :=
    List.sorted_insertionSort _ _
  have hd : (extentsInAddressOrder dev).Pairwise fun x y =>
      x.addr ≠ y.addr ∧ (x.addr + x.size ≤ y.addr ∨ y.addr + y.size ≤ x.addr) :=
    (hp2.pairwise_iff (fun {a b} hab => ⟨Ne.symm hab.1, hab.2.symm⟩)).2 hok.1
  exact (List.Pairwise.and hs2 hd).imp fun {a b} hab =>
      ⟨Nat.lt_of_le_of_ne hab.1 hab.2.1, hab.2.2⟩

theorem mem_extentsInAddressOrder (dev : Device) (e : inode_entry) :
    e ∈ extentsInAddressOrder dev ↔ e ∈ allocatedExtents dev :=
  (List.perm_insertionSort _ _).mem_iff

theorem chained_extents (dev : Device) (hok : ExtentsOk dev) :
    Chained DEVICE_SIZE MEM_START (extentsInAddressOrder dev) := by
  refine chained_of_sorted _ _ _ ?_ (sorted_extents dev hok) (by decide)
  intro e he
  have := hok.2 e ((mem_extentsInAddressOrder dev e).1 he)
  omega

theorem findFreeSpace_eq_scanAll (dev : Device) (n : Nat) (hok : ExtentsOk dev) :
    findFreeSpace dev n =
      if (scanTo DEVICE_SIZE n ⟨UINT32_MAX, UINT32_MAX, MEM_START⟩ (extentsInAddressOrder dev)).min
          = UINT32_MAX then .error .noFreeSpace
      else .ok (scanTo DEVICE_SIZE n ⟨UINT32_MAX, UINT32_MAX, MEM_START⟩
        (extentsInAddressOrder dev)).minAddress := by
  unfold findFreeSpace
  rw [allocatedInodes_eq_sorted dev (hok.1.imp fun {a b} hab => hab.1), bestFit_eq]

/-! ## Reads after writes -/

theorem blkWrite_apply (dev : Device) (a n : Nat) (data : Buffer) (x : Nat) :
    blkWrite dev a n data x = if a ≤ x ∧ x < a + n then data (x - a) else dev x := rfl

theorem blkWrite_outside (dev : Device) (a n : Nat) (data : Buffer) (x : Nat)
    (h : x < a ∨ a + n ≤ x) : blkWrite dev a n data x = dev x := by
  rw [blkWrite_apply, if_neg]
  omega

theorem blkWrite_inside (dev : Device) (a n : Nat) (data : Buffer) (x : Nat)
    (h : a ≤ x ∧ x < a + n) : blkWrite dev a n data x = data (x - a) := by
  rw [blkWrite_apply, if_pos h]

theorem ofNat_val (n : Nat) : ((Fin.ofNat n : Byte) : Nat) = n % 256 := rfl

theorem le32_le32bytes (n : Nat) (h : n < 4294967296) :
    le32 (Fin.ofNat n) (Fin.ofNat (n / 256)) (Fin.ofNat (n / 65536)) (Fin.ofNat (n / 16777216))
      = n := by
  simp only [le32, ofNat_val]
  omega

theorem le32_lt (b0 b1 b2 b3 : Byte) : le32 b0 b1 b2 b3 < 4294967296 := by
  have h0 := b0.isLt
  have h1 := b1.isLt
  have h2 := b2.isLt
  have h3 := b3.isLt
  simp only [le32]
  omega

theorem getInode_addr_lt (dev : Device) (i : Nat) : (getInode dev i).addr < 4294967296 :=
  le32_lt _ _ _ _

theorem getInode_size_lt (dev : Device) (i : Nat) : (getInode dev i).size < 4294967296 :=
  le32_lt _ _ _ _

theorem getInode_congr (dev dev' : Device) (i : Nat)
    (h : ∀ x, 6 + i * 12 ≤ x → x < 6 + i * 12 + 9 → dev' x = dev x) :
    getInode dev' i = getInode dev i := by
  simp only [getInode, INODE_TABLE_START, sizeof_myfs_header, sizeof_inode_entry]
  rw [h (5 + 1 + i * 12) (by omega) (by omega), h (5 + 1 + i * 12 + 1) (by omega) (by omega),
    h (5 + 1 + i * 12 + 2) (by omega) (by omega), h (5 + 1 + i * 12 + 3) (by omega) (by omega),
    h (5 + 1 + i * 12 + 4) (by omega) (by omega), h (5 + 1 + i * 12 + 5) (by omega) (by omega),
    h (5 + 1 + i * 12 + 6) (by omega) (by omega), h (5 + 1 + i * 12 + 7) (by omega) (by omega),
    h (5 + 1 + i * 12 + 8) (by omega) (by omega)]

theorem setInode_apply (dev : Device) (i : Nat) (e : inode_entry) (x : Nat) :
    setInode dev i e x =
      if 6 + i * 12 ≤ x ∧ x < 6 + i * 12 + 12 then bufferOf (inodeBytes e) (x - (6 + i * 12))
      else dev x := rfl

theorem setInode_outside (dev : Device) (i : Nat) (e : inode_entry) (x : Nat)
    (h : x < 6 + i * 12 ∨ 6 + i * 12 + 12 ≤ x) : setInode dev i e x = dev x := by
  rw [setInode_apply, if_neg]
  omega

theorem getInode_setInode_same (dev : Device) (i : Nat) (e : inode_entry)
    (ha : e.addr < 4294967296) (hs : e.size < 4294967296) :
    getInode (setInode dev i e) i = e := by
  have hb : ∀ k, k < 12 → setInode dev i e (5 + 1 + i * 12 + k) = bufferOf (inodeBytes e) k := by
    intro k hk
    rw [setInode_apply, if_pos (by omega)]
    congr 1
    omega
  simp only [getInode, INODE_TABLE_START, sizeof_myfs_header, sizeof_inode_entry]
  have h0 := hb 0 (by omega)
  simp only [Nat.add_zero] at h0
  rw [h0, hb 1 (by omega), hb 2 (by omega), hb 3 (by omega), hb 4 (by omega), hb 5 (by omega),
    hb 6 (by omega), hb 7 (by omega), hb 8 (by omega)]
  cases e with
  | mk addr size is_dir =>
    simp only [bufferOf, inodeBytes, le32bytes, List.cons_append, List.nil_append,
      List.getD_cons_zero, List.getD_cons_succ, inode_entry.mk.injEq]
    refine ⟨le32_le32bytes addr ha, le32_le32bytes size hs, ?_⟩
    cases is_dir <;> rfl

theorem getInode_setInode_ne (dev : Device) (i j : Nat) (e : inode_entry) (h : i ≠ j) :
    getInode (setInode dev i e) j = getInode dev j := by
  apply getInode_congr
  intro x h1 h2
  apply setInode_outside
  omega

theorem getInode_blkWrite (dev : Device) (a n : Nat) (data : Buffer) (i : Nat)
    (hi : i < 64) (ha : 775 ≤ a) : getInode (blkWrite dev a n data) i = getInode dev i := by
  apply getInode_congr
  intro x h1 h2
  apply blkWrite_outside
  omega

theorem setInode_data (dev : Device) (i : Nat) (e : inode_entry) (x : Nat)
    (hi : i < 64) (hx : 775 ≤ x) : setInode dev i e x = dev x := by
  apply setInode_outside
  omega

/-! ## The inode table as a list -/

theorem INODE_AMOUNT_eq : INODE_AMOUNT = 64 := rfl

theorem mem_allocatedExtents (dev : Device) (e : inode_entry) :
    e ∈ allocatedExtents dev ↔
      ∃ i, i < 64 ∧ getInode dev i = e ∧ e.addr ≠ 0 ∧ e.addr ≠ UINT32_MAX := by
  simp only [allocatedExtents, inodeTable, List.mem_filter, List.mem_map, List.mem_range,
    INODE_AMOUNT_eq, decide_eq_true_eq]
  constructor
  · rintro ⟨⟨i, hi, rfl⟩, h⟩
    exact ⟨i, hi, rfl, h⟩
  · rintro ⟨i, hi, rfl, h⟩
    exact ⟨⟨i, hi, rfl⟩, h⟩

theorem pairwise_allocatedExtents (dev : Device) (R : inode_entry → inode_entry → Prop)
    (h : ∀ i j, i < 64 → j < 64 → i ≠ j →
      (getInode dev i).addr ≠ 0 ∧ (getInode dev i).addr ≠ UINT32_MAX →
      (getInode dev j).addr ≠ 0 ∧ (getInode dev j).addr ≠ UINT32_MAX →
      R (getInode dev i) (getInode dev j)) :
    (allocatedExtents dev).Pairwise R := by
  unfold allocatedExtents inodeTable
  rw [List.pairwise_filter, List.pairwise_map]
  have hn : (List.range INODE_AMOUNT).Pairwise (fun a b => a ≠ b) := List.nodup_range _
  refine hn.imp_of_mem ?_
  intro a b ha hb hab h1 h2
  simp only [List.mem_range, INODE_AMOUNT_eq] at ha hb
  exact h a b ha hb hab (by simpa using h1) (by simpa using h2)

/-- The conditions of `ExtentsOk` slot by slot. -/
theorem extentsOk_of_slots (dev : Device)
    (hb : ∀ i, i < 64 → (getInode dev i).addr ≠ 0 ∧ (getInode dev i).addr ≠ UINT32_MAX →
      MEM_START ≤ (getInode dev i).addr ∧
        (getInode dev i).addr + (getInode dev i).size ≤ DEVICE_SIZE)
    (hd : ∀ i j, i < 64 → j < 64 → i ≠ j →
      (getInode dev i).addr ≠ 0 ∧ (getInode dev i).addr ≠ UINT32_MAX →
      (getInode dev j).addr ≠ 0 ∧ (getInode dev j).addr ≠ UINT32_MAX →
      (getInode dev i).addr ≠ (getInode dev j).addr ∧
        ((getInode dev i).addr + (getInode dev i).size ≤ (getInode dev j).addr ∨
          (getInode dev j).addr + (getInode dev j).size ≤ (getInode dev i).addr)) :
    ExtentsOk dev := by
  refine ⟨pairwise_allocatedExtents dev _ hd, ?_⟩
  intro e he
  obtain ⟨i, hi, rfl, h⟩ := (mem_allocatedExtents dev e).1 he
  exact hb i hi h

/-! ## The allocator while an inode is marked with `INT32_MAX` -/

theorem chained_addr_ge {D start : Nat} {L : List inode_entry} (h : Chained D start L) :
    ∀ e ∈ L, start ≤ e.addr + 1 := by
  induction L generalizing start with
  | nil => intro e he; cases he
  | cons x xs ih =>
    intro e he
    rcases List.mem_cons.1 he with rfl | he
    · exact h.1
    · have h1 := ih h.2.2 e he
      have h2 := h.1
      omega

theorem chained_mono {D D' start : Nat} {L : List inode_entry} (hD : D ≤ D')
    (h : Chained D start L) : Chained D' start L := by
  induction L generalizing start with
  | nil =>
    have h' : start ≤ D + 1 := h
    show start ≤ D' + 1
    omega
  | cons x xs ih => exact ⟨h.1, le_trans h.2.1 hD, ih h.2.2⟩

theorem gapsUpTo_trailing {D0 start : Nat} (D : Nat) {L : List inode_entry}
    (h : Chained D0 start L) : ∃ s, s ≤ D0 + 1 ∧ (s, (D : Int) - s) ∈ gapsUpTo D start L := by
  induction L generalizing start with
  | nil => exact ⟨start, h, by simp [gapsUpTo]⟩
  | cons x xs ih =>
    obtain ⟨s, hs, hm⟩ := ih h.2.2
    exact ⟨s, hs, by simp only [gapsUpTo, List.mem_cons]; exact Or.inr hm⟩

theorem gapsUpTo_disjoint {D start : Nat} {L : List inode_entry} (h : Chained D start L) :
    ∀ g ∈ gapsUpTo D start L, (g.1 : Int) + g.2 ≤ D ∧
      ∀ e ∈ L, ((e.addr : Int) + e.size < g.1 ∨ (g.1 : Int) + g.2 ≤ e.addr) := by
  induction L generalizing start with
  | nil =>
    intro g hg
    simp only [gapsUpTo, List.mem_singleton] at hg
    subst hg
    refine ⟨by simp, ?_⟩
    intro e he
    cases he
  | cons x xs ih =>
    intro g hg
    simp only [gapsUpTo, List.mem_cons] at hg
    rcases hg with rfl | hg
    · refine ⟨by have := h.2.1; simp only; omega, ?_⟩
      intro e he
      right
      rcases List.mem_cons.1 he with rfl | he
      · simp
      · have := chained_addr_ge h.2.2 e he
        simp only
        omega
    · obtain ⟨h1, h2⟩ := ih h.2.2 g hg
      refine ⟨h1, ?_⟩
      intro e he
      rcases List.mem_cons.1 he with rfl | he
      · left
        have := gapsUpTo_start_le h.2.2 g hg
        omega
      · exact h2 e he

/-- Every gap starts at the start of the scan or one byte after an extent. -/
theorem gapsUpTo_start_mem (D : Nat) (L : List inode_entry) : ∀ (start : Nat),
    ∀ g ∈ gapsUpTo D start L, g.1 = start ∨ ∃ e ∈ L, g.1 = e.addr + e.size + 1 := by
  induction L with
  | nil =>
    intro start g hg
    simp only [gapsUpTo, List.mem_singleton] at hg
    subst hg
    exact Or.inl rfl
  | cons e es ih =>
    intro start g hg
    simp only [gapsUpTo, List.mem_cons] at hg
    rcases hg with h | h
    · subst h
      exact Or.inl rfl
    · rcases ih _ g h with h2 | ⟨e2, he2, h2⟩
      · exact Or.inr ⟨e, List.mem_cons_self _ _, h2⟩
      · exact Or.inr ⟨e2, List.mem_cons_of_mem _ he2, h2⟩

/-- While the inode `p` is marked with `INT32_MAX` and the other allocated
extents are well placed, `findFreeSpace` returns, and the range that it
returns is below `INT32_MAX` and away from every other allocated extent, and starts at the start of the data
region or one byte after such an extent. -/
theorem findFreeSpace_marked (dev : Device) (p n : Nat) (hp : p < 64)
    (hmark : (getInode dev p).addr = INT32_MAX) (hsize : (getInode dev p).size = n)
    (hn : n ≤ DEVICE_SIZE)
    (hb : ∀ j, j < 64 → j ≠ p →
      (getInode dev j).addr ≠ 0 ∧ (getInode dev j).addr ≠ UINT32_MAX →
      MEM_START ≤ (getInode dev j).addr ∧
        (getInode dev j).addr + (getInode dev j).size ≤ DEVICE_SIZE)
    (hd : ∀ i j, i < 64 → j < 64 → i ≠ j → i ≠ p → j ≠ p →
      (getInode dev i).addr ≠ 0 ∧ (getInode dev i).addr ≠ UINT32_MAX →
      (getInode dev j).addr ≠ 0 ∧ (getInode dev j).addr ≠ UINT32_MAX →
      (getInode dev i).addr ≠ (getInode dev j).addr ∧
        ((getInode dev i).addr + (getInode dev i).size ≤ (getInode dev j).addr ∨
          (getInode dev j).addr + (getInode dev j).size ≤ (getInode dev i).addr)) :
    ∃ a, findFreeSpace dev n = .ok a ∧ MEM_START ≤ a ∧ a + n ≤ INT32_MAX ∧
      (∀ j, j < 64 → j ≠ p →
        (getInode dev j).addr ≠ 0 ∧ (getInode dev j).addr ≠ UINT32_MAX →
        a + n ≤ (getInode dev j).addr ∨ (getInode dev j).addr + (getInode dev j).size < a) ∧
      (a = MEM_START ∨ ∃ j, j < 64 ∧ j ≠ p ∧
        ((getInode dev j).addr ≠ 0 ∧ (getInode dev j).addr ≠ UINT32_MAX) ∧
        a = (getInode dev j).addr + (getInode dev j).size + 1) := by
  have hDS : DEVICE_SIZE = 1048576 := rfl
  have hI : INT32_MAX = 2147483647 := rfl
  have hU : UINT32_MAX = 4294967295 := rfl
  have hM : MEM_START = 775 := rfl
  -- the table with the inode properly marked as not allocated
  obtain ⟨dev0, hdev0⟩ : ∃ dev0, dev0 = setInode dev p ⟨UINT32_MAX, n, (getInode dev p).is_dir⟩ :=
    ⟨_, rfl⟩
  have h0p : (getInode dev0 p).addr = UINT32_MAX := by
    rw [hdev0, getInode_setInode_same _ _ _ (by simp [hU]) (by simp only; omega)]
  have h0j : ∀ j, j ≠ p → getInode dev0 j = getInode dev j := by
    intro j hj
    rw [hdev0, getInode_setInode_ne _ _ _ _ (Ne.symm hj)]
  have hok0 : ExtentsOk dev0 := by
    apply extentsOk_of_slots
    · intro i hi ha
      by_cases hip : i = p
      · subst hip; exact absurd h0p ha.2
      · rw [h0j i hip] at ha ⊢; exact hb i hi hip ha
    · intro i j hi hj hij hai haj
      by_cases hip : i = p
      · subst hip; exact absurd h0p hai.2
      · by_cases hjp : j = p
        · subst hjp; exact absurd h0p haj.2
        · rw [h0j i hip] at hai ⊢
          rw [h0j j hjp] at haj ⊢
          exact hd i j hi hj hij hip hjp hai haj
  have hmem : ∀ e, e ∈ allocatedExtents dev ↔ e = getInode dev p ∨ e ∈ allocatedExtents dev0 := by
    intro e
    rw [mem_allocatedExtents, mem_allocatedExtents]
    constructor
    · rintro ⟨i, hi, rfl, ha⟩
      by_cases hip : i = p
      · subst hip; exact Or.inl rfl
      · exact Or.inr ⟨i, hi, h0j i hip, ha⟩
    · rintro (rfl | ⟨i, hi, rfl, ha⟩)
      · exact ⟨p, hp, rfl, by rw [hmark, hI]; decide, by rw [hmark, hI, hU]; decide⟩
      · have hip : i ≠ p := by
          intro h; subst h; exact ha.2 h0p
        rw [h0j i hip] at ha ⊢
        exact ⟨i, hi, rfl, ha⟩
  have hdist1 : (allocatedExtents dev).Pairwise fun x y => x.addr ≠ y.addr := by
    apply pairwise_allocatedExtents
    intro i j hi hj hij hai haj
    by_cases hip : i = p
    · subst hip
      have := hb j hj (Ne.symm hij) haj
      omega
    · by_cases hjp : j = p
      · subst hjp
        have := hb i hi hij hai
        omega
      · exact (hd i j hi hj hij hip hjp hai haj).1
  have hperm1 := foldl_setInsert_perm (allocatedExtents dev) [] hdist1 (by simp)
  simp only [List.append_nil] at hperm1
  have hsorted1 := foldl_setInsert_sorted (allocatedExtents dev) [] List.sorted_nil
  have hreal : ∀ e ∈ extentsInAddressOrder dev0,
      MEM_START ≤ e.addr ∧ e.addr + e.size ≤ DEVICE_SIZE := fun e he =>
    hok0.2 e ((mem_extentsInAddressOrder dev0 e).1 he)
  have hsortedT : (extentsInAddressOrder dev0 ++ [getInode dev p]).Sorted addrLt := by
    refine List.pairwise_append.2 ⟨(sorted_extents dev0 hok0).imp fun {a b} h => h.1,
      List.pairwise_singleton _ _, ?_⟩
    intro a ha b hb'
    rw [List.mem_singleton.1 hb']
    have := hreal a ha
    show a.addr < (getInode dev p).addr
    omega
  have hpermT : (extentsInAddressOrder dev0 ++ [getInode dev p]).Perm (allocatedExtents dev) := by
    refine (List.perm_ext_iff_of_nodup ?_ ?_).2 ?_
    · have hnd : (extentsInAddressOrder dev0 ++ [getInode dev p]).Pairwise fun a b => a ≠ b :=
        List.Pairwise.imp (fun {a b} (h : addrLt a b) => fun hab => by
          subst hab; exact Nat.lt_irrefl _ h) hsortedT
      exact hnd
    · have hnd : (allocatedExtents dev).Pairwise fun a b => a ≠ b :=
        List.Pairwise.imp (fun {a b} (h : a.addr ≠ b.addr) => fun hab => by
          subst hab; exact h rfl) hdist1
      exact hnd
    · intro e
      rw [hmem e, List.mem_append, List.mem_singleton, mem_extentsInAddressOrder]
      tauto
  have hlist : allocatedInodes dev = extentsInAddressOrder dev0 ++ [getInode dev p] := by
    rw [allocatedInodes_eq]
    exact List.eq_of_perm_of_sorted (hperm1.trans hpermT.symm) hsorted1 hsortedT
  -- the scan
  have hch : Chained INT32_MAX MEM_START (extentsInAddressOrder dev0) :=
    chained_mono (by decide) (chained_extents dev0 hok0)
  obtain ⟨s1, -, s3, s4⟩ := scanTo_spec INT32_MAX (by decide) n (extentsInAddressOrder dev0)
    MEM_START ⟨UINT32_MAX, UINT32_MAX, MEM_START⟩ hch rfl (le_refl _)
  obtain ⟨s, hs, hsm⟩ := gapsUpTo_trailing INT32_MAX (chained_extents dev0 hok0)
  have hfin := s3 _ hsm (by simp only; omega)
  simp only at s1 s4 hfin
  have hres : findFreeSpace dev n =
      .ok (scanTo INT32_MAX n ⟨UINT32_MAX, UINT32_MAX, MEM_START⟩
        (extentsInAddressOrder dev0)).minAddress := by
    unfold findFreeSpace
    rw [hlist]
    simp only [bestFit, List.foldl_append, List.foldl_cons, List.foldl_nil, scanStep, hmark,
      hsize]
    have e1 : considerGap n (u32sub INT32_MAX
        ((extentsInAddressOrder dev0).foldl (scanStep n)
          ⟨UINT32_MAX, UINT32_MAX, MEM_START⟩).lastFreeSpaceAddress)
        ((extentsInAddressOrder dev0).foldl (scanStep n) ⟨UINT32_MAX, UINT32_MAX, MEM_START⟩) =
        scanTo INT32_MAX n ⟨UINT32_MAX, UINT32_MAX, MEM_START⟩ (extentsInAddressOrder dev0) := rfl
    rw [e1]
    generalize scanTo INT32_MAX n ⟨UINT32_MAX, UINT32_MAX, MEM_START⟩
      (extentsInAddressOrder dev0) = fin at hfin ⊢
    have e2 : u32sub DEVICE_SIZE (u32 (INT32_MAX + n + 1)) = 2148532224 - n := by
      simp only [u32sub, u32, hDS, hI]; omega
    simp only [considerGap, e2]
    have e3 : ¬ (2148532224 - n ≥ n ∧ 2148532224 - n < fin.min) := by omega
    rw [if_neg e3]
    simp only
    rw [if_neg (by rw [hU]; omega)]
  generalize scanTo INT32_MAX n ⟨UINT32_MAX, UINT32_MAX, MEM_START⟩
    (extentsInAddressOrder dev0) = fin at hfin s1 s4 hres
  obtain ⟨g, hg, g1, g2, g3, -⟩ := s4 (by rw [hU]; omega)
  obtain ⟨d1, d2⟩ := gapsUpTo_disjoint hch g hg
  have hstart := gapsUpTo_start_le hch g hg
  refine ⟨fin.minAddress, hres, by omega, by omega, ?_, ?_⟩
  · intro j hj hjp ha
    have hmemj : getInode dev j ∈ extentsInAddressOrder dev0 := by
      rw [mem_extentsInAddressOrder, mem_allocatedExtents]
      exact ⟨j, hj, h0j j hjp, ha⟩
    have := d2 _ hmemj
    omega
  · rcases gapsUpTo_start_mem INT32_MAX _ MEM_START g hg with h | ⟨e, he, h⟩
    · exact Or.inl (by omega)
    · right
      rw [mem_extentsInAddressOrder, mem_allocatedExtents] at he
      obtain ⟨j, hj, rfl, ha⟩ := he
      have hjp : j ≠ p := by
        intro hh; subst hh; exact ha.2 h0p
      rw [h0j j hjp] at ha h
      exact ⟨j, hj, hjp, ha, by omega⟩

/-! ## Slots and names -/

theorem slotAddrsFrom_eq (m : Nat) : ∀ (fuel i : Nat), m ≤ fuel → i + 11 * m < 4294967296 →
    slotAddrsFrom fuel i (i + 11 * m) = (List.range m).map fun k => i + 11 * k := by
  induction m with
  | zero =>
    intro fuel i _ _
    cases fuel <;> simp [slotAddrsFrom]
  | succ m ih =>
    intro fuel i hf hi
    cases fuel with
    | zero => omega
    | succ f =>
      have hu : u32 (i + sizeof_dir_entry) = i + 11 := by
        simp only [u32, sizeof_dir_entry]; omega
      have hl : i + 11 * (m + 1) = (i + 11) + 11 * m := by omega
      rw [slotAddrsFrom, if_pos (by omega), hu, hl, ih f (i + 11) (by omega) (by omega),
        List.range_succ_eq_map, List.map_cons, List.map_map]
      simp only [Nat.mul_zero, Nat.add_zero, List.cons.injEq, true_and]
      apply List.map_congr_left
      intro k _
      simp only [Function.comp, Nat.succ_eq_add_one]
      omega

/-- The slot addresses of a directory content that does not wrap around `2^32`. -/
theorem slotAddrs_eq (a m : Nat) (h : a + 11 * m < 4294967296) :
    slotAddrs a (11 * m) = (List.range m).map fun k => a + 11 * k := by
  have hu : u32 (a + 11 * m) = a + 11 * m := by
    simp only [u32]; omega
  rw [slotAddrs, hu]
  exact slotAddrsFrom_eq m _ a (by omega) h

theorem slotAddrs_unallocated (s : Nat) : slotAddrs UINT32_MAX s = [] := by
  have h : ¬ UINT32_MAX < u32 (UINT32_MAX + s) := by
    simp only [u32, UINT32_MAX]; omega
  show slotAddrsFrom (4294967295 + 1) UINT32_MAX (u32 (UINT32_MAX + s)) = []
  rw [slotAddrsFrom, if_neg h]

theorem slotAddrs_zero : slotAddrs 0 0 = [] := by decide

theorem blkRead_congr (dev dev' : Device) (a n : Nat)
    (h : ∀ x, a ≤ x → x < a + n → dev' x = dev x) : blkRead dev' a n = blkRead dev a n := by
  unfold blkRead
  apply List.map_congr_left
  intro k hk
  have := List.mem_range.1 hk
  exact h _ (by omega) (by omega)

theorem readDirEntry_congr (dev dev' : Device) (s : Nat)
    (h : ∀ x, s ≤ x → x < s + 11 → dev' x = dev x) :
    readDirEntry dev' s = readDirEntry dev s := by
  unfold readDirEntry
  rw [h s (le_refl _) (by omega), blkRead_congr dev dev' (s + 1) NAME_SIZE (by
    intro x h1 h2
    simp only [NAME_SIZE] at h2
    exact h x (by omega) (by omega))]

theorem strncpy_length (src : List Byte) (n : Nat) : (strncpy src n).length = n := by
  simp only [strncpy, List.length_append, List.length_replicate, List.length_take]
  omega

theorem blkRead_bufferOf (dev : Device) (s : Nat) (l : List Byte) (b : Byte) :
    blkRead (blkWrite dev s (l.length + 1) (bufferOf (b :: l))) (s + 1) l.length = l := by
  apply List.ext_getElem
  · simp [blkRead]
  · intro k h1 h2
    simp only [blkRead, List.getElem_map, List.getElem_range]
    rw [blkWrite_inside _ _ _ _ _ (by omega)]
    have hk : s + 1 + k - s = k + 1 := by omega
    simp only [hk, bufferOf, List.getD_cons_succ]
    exact (List.getD_eq_getElem _ _ h2)

/-- The entry read back from the slot where `addToDirectory` stored it. -/
theorem readDirEntry_written (dev : Device) (s i : Nat) (name : List Byte) (hi : i < 256) :
    readDirEntry (blkWrite dev s sizeof_dir_entry
      (bufferOf (dirEntryBytes ⟨i, strncpy name NAME_SIZE⟩))) s = ⟨i, strncpy name NAME_SIZE⟩ := by
  have hlen : (strncpy name NAME_SIZE).length = 10 := strncpy_length _ _
  have h1 := blkRead_bufferOf dev s (strncpy name NAME_SIZE) (Fin.ofNat i)
  rw [hlen] at h1
  simp only [readDirEntry, dirEntryBytes, sizeof_dir_entry, NAME_SIZE] at h1 ⊢
  rw [h1, blkWrite_inside _ _ _ _ _ (by omega)]
  simp only [Nat.sub_self, bufferOf, List.getD_cons_zero, ofNat_val]
  congr 1
  omega

theorem strncmpEq_iff (n : Nat) : ∀ a b : List Byte,
    strncmpEq n a b = true ↔
      (a.takeWhile fun c => c ≠ 0).take n = (b.takeWhile fun c => c ≠ 0).take n := by
  induction n with
  | zero => intro a b; simp [strncmpEq]
  | succ n ih =>
    intro a b
    rw [strncmpEq]
    cases a with
    | nil =>
      cases b with
      | nil => simp
      | cons y ys =>
        by_cases hy : y = 0
        · simp [hy]
        · have hy' : ¬ (0 : Byte) = y := fun h => hy h.symm
          simp [hy, hy', List.takeWhile_cons]
    | cons x xs =>
      cases b with
      | nil =>
        by_cases hx : x = 0
        · simp [hx]
        · simp [hx, List.takeWhile_cons]
      | cons y ys =>
        by_cases hxy : x = y
        · subst hxy
          by_cases hx : x = 0
          · simp [hx]
          · simp [hx, List.takeWhile_cons, ih xs ys]
        · by_cases hx : x = 0
          · have hy : ¬ y = 0 := fun h => hxy (hx.trans h.symm)
            have hy' : ¬ (0 : Byte) = y := fun h => hy h.symm
            simp [hx, hy, hy', List.takeWhile_cons]
          · by_cases hy : y = 0
            · simp [hxy, hx, hy, List.takeWhile_cons]
            · simp [hxy, hx, hy, List.takeWhile_cons]

theorem strncmpEq_iff_nameKey (a b : List Byte) :
    strncmpEq NAME_SIZE a b = true ↔ nameKey a = nameKey b :=
  strncmpEq_iff NAME_SIZE a b

theorem nameKey_strncpy (name : List Byte) : nameKey (strncpy name NAME_SIZE) = nameKey name := by
  unfold nameKey strncpy
  have h1 : ∀ c ∈ (name.takeWhile fun c => c ≠ 0).take NAME_SIZE, (fun c : Byte => decide (c ≠ 0)) c = true := by
    intro c hc
    exact List.mem_takeWhile_imp (p := fun c : Byte => decide (c ≠ 0)) (List.mem_of_mem_take hc)
  have h2 : ∀ (l : List Byte) (k : Nat), (∀ c ∈ l, (fun c : Byte => decide (c ≠ 0)) c = true) →
      (l ++ List.replicate k 0).takeWhile (fun c => decide (c ≠ 0)) = l := by
    intro l k hl
    induction l with
    | nil => cases k <;> simp [List.replicate, List.takeWhile]
    | cons x xs ih =>
      have hx := hl x (List.mem_cons_self _ _)
      simp only [List.cons_append, List.takeWhile_cons, hx, if_true]
      rw [ih fun c hc => hl c (List.mem_cons_of_mem _ hc)]
  simp only
  rw [h2 _ _ h1, List.take_take, Nat.min_self]

theorem strncmpEq_strncpy (name : List Byte) :
    strncmpEq NAME_SIZE (strncpy name NAME_SIZE) name = true :=
  (strncmpEq_iff_nameKey _ _).2 (nameKey_strncpy name)

theorem nameKey_of_zero (l : List Byte) (h : l.headD 0 = 0) : nameKey l = [] := by
  cases l with
  | nil => rfl
  | cons x xs =>
    simp only [List.headD_cons] at h
    simp [nameKey, List.takeWhile_cons, h]

/-! ## One pass of `addToDirectory` over the slots -/

theorem addPassStep_thrown (e : dir_entry) (name : List Byte) (st : AddPass) (s : Nat)
    (h : st.thrown = true) : addPassStep e name st s = st := by
  simp [addPassStep, h]

theorem foldl_addPassStep_thrown (e : dir_entry) (name : List Byte) (addrs : List Nat)
    (st : AddPass) (h : st.thrown = true) : addrs.foldl (addPassStep e name) st = st := by
  induction addrs with
  | nil => rfl
  | cons s rest ih => rw [List.foldl_cons, addPassStep_thrown e name st s h, ih]

/-- After the entry is stored the pass only looks for the name. -/
theorem pass_added (e : dir_entry) (name : List Byte) (addrs : List Nat) (dev : Device) :
    ∀ thrown : Bool,
    (addrs.foldl (addPassStep e name) ⟨dev, true, thrown⟩).dev = dev ∧
    (addrs.foldl (addPassStep e name) ⟨dev, true, thrown⟩).hasAdded = true ∧
    ((addrs.foldl (addPassStep e name) ⟨dev, true, thrown⟩).thrown = true ↔
      thrown = true ∨ ∃ s ∈ addrs, matchAt dev name s = true) := by
  induction addrs with
  | nil => intro thrown; simp
  | cons s rest ih =>
    intro thrown
    rw [List.foldl_cons]
    cases thrown with
    | true =>
      rw [addPassStep_thrown _ _ _ _ rfl]
      obtain ⟨h1, h2, h3⟩ := ih true
      exact ⟨h1, h2, by simp [h3]⟩
    | false =>
      by_cases hm : matchAt dev name s = true
      · have hstep : addPassStep e name ⟨dev, true, false⟩ s = ⟨dev, true, true⟩ := by
          unfold matchAt at hm
          simp [addPassStep, hm]
        rw [hstep]
        obtain ⟨h1, h2, h3⟩ := ih true
        refine ⟨h1, h2, ?_⟩
        rw [h3]
        simp only [true_or, true_iff]
        exact Or.inr ⟨s, List.mem_cons_self _ _, hm⟩
      · have hstep : addPassStep e name ⟨dev, true, false⟩ s = ⟨dev, true, false⟩ := by
          unfold matchAt at hm
          simp [addPassStep, hm]
        rw [hstep]
        obtain ⟨h1, h2, h3⟩ := ih false
        refine ⟨h1, h2, ?_⟩
        rw [h3]
        simp only [false_or, List.mem_cons, exists_eq_or_imp, hm, false_or, Bool.false_eq_true]

theorem matchAt_congr (dev dev' : Device) (name : List Byte) (s : Nat)
    (h : ∀ x, s ≤ x → x < s + 11 → dev' x = dev x) : matchAt dev' name s = matchAt dev name s := by
  unfold matchAt
  rw [readDirEntry_congr dev dev' s h]

/-- The three outcomes of a pass of `addToDirectory` over slots that do not overlap. -/
theorem pass_fresh (i : Nat) (name : List Byte) (addrs : List Nat) (dev : Device)
    (hp : addrs.Pairwise fun a b => a + 11 ≤ b) :
    ((addrs.foldl (addPassStep ⟨i, strncpy name NAME_SIZE⟩ name) ⟨dev, false, false⟩).thrown = true ↔
        ∃ s ∈ addrs, matchAt dev name s = true) ∧
    (((addrs.foldl (addPassStep ⟨i, strncpy name NAME_SIZE⟩ name) ⟨dev, false, false⟩).dev = dev ∧
      (addrs.foldl (addPassStep ⟨i, strncpy name NAME_SIZE⟩ name) ⟨dev, false, false⟩).hasAdded
        = false ∧
      ((addrs.foldl (addPassStep ⟨i, strncpy name NAME_SIZE⟩ name) ⟨dev, false, false⟩).thrown
        = false → ∀ s ∈ addrs, (readDirEntry dev s).inode_index ≠ 0)) ∨
    (∃ s ∈ addrs, (readDirEntry dev s).inode_index = 0 ∧ matchAt dev name s = false ∧
      (addrs.foldl (addPassStep ⟨i, strncpy name NAME_SIZE⟩ name) ⟨dev, false, false⟩).dev =
        blkWrite dev s sizeof_dir_entry (entryBuffer i name) ∧
      (addrs.foldl (addPassStep ⟨i, strncpy name NAME_SIZE⟩ name) ⟨dev, false, false⟩).hasAdded
        = true ∧
      ∀ t ∈ addrs, t < s → (readDirEntry dev t).inode_index ≠ 0 ∧ matchAt dev name t = false)) := by
  induction addrs with
  | nil => simp
  | cons s rest ih =>
    have hpc := List.pairwise_cons.1 hp
    obtain ⟨ih1, ih2⟩ := ih hpc.2
    rw [List.foldl_cons]
    by_cases hm : matchAt dev name s = true
    · have hstep : addPassStep ⟨i, strncpy name NAME_SIZE⟩ name ⟨dev, false, false⟩ s =
          ⟨dev, false, true⟩ := by
        unfold matchAt at hm
        simp [addPassStep, hm]
      rw [hstep, foldl_addPassStep_thrown _ _ _ _ rfl]
      refine ⟨?_, Or.inl ⟨rfl, rfl, ?_⟩⟩
      · simp only [true_iff]
        exact ⟨s, List.mem_cons_self _ _, hm⟩
      · intro h; cases h
    · have hm' : matchAt dev name s = false := by
        cases h : matchAt dev name s
        · rfl
        · exact absurd h hm
      by_cases h0 : (readDirEntry dev s).inode_index = 0
      · have hstep : addPassStep ⟨i, strncpy name NAME_SIZE⟩ name ⟨dev, false, false⟩ s =
            ⟨blkWrite dev s sizeof_dir_entry (entryBuffer i name), true, false⟩ := by
          unfold matchAt at hm
          simp [addPassStep, hm, h0, entryBuffer]
        rw [hstep]
        obtain ⟨a1, a2, a3⟩ := pass_added ⟨i, strncpy name NAME_SIZE⟩ name rest
          (blkWrite dev s sizeof_dir_entry (entryBuffer i name)) false
        have hrest : ∀ t ∈ rest,
            matchAt (blkWrite dev s sizeof_dir_entry (entryBuffer i name)) name t
              = matchAt dev name t := by
          intro t ht
          apply matchAt_congr
          intro x hx1 hx2
          apply blkWrite_outside
          have := hpc.1 t ht
          simp only [sizeof_dir_entry]
          omega
        refine ⟨?_, Or.inr ⟨s, List.mem_cons_self _ _, h0, hm', a1, a2, ?_⟩⟩
        · rw [a3]
          simp only [Bool.false_eq_true, false_or, List.mem_cons, exists_eq_or_imp, hm]
          constructor
          · rintro ⟨t, ht, h⟩
            exact ⟨t, ht, (hrest t ht) ▸ h⟩
          · rintro ⟨t, ht, h⟩
            exact ⟨t, ht, (hrest t ht).symm ▸ h⟩
        · intro t ht hts
          rcases List.mem_cons.1 ht with rfl | ht
          · omega
          · have := hpc.1 t ht
            omega
      · have hstep : addPassStep ⟨i, strncpy name NAME_SIZE⟩ name ⟨dev, false, false⟩ s =
            ⟨dev, false, false⟩ := by
          unfold matchAt at hm
          simp [addPassStep, hm, h0]
        rw [hstep]
        refine ⟨?_, ?_⟩
        · rw [ih1]
          simp only [List.mem_cons, exists_eq_or_imp, hm', Bool.false_eq_true, false_or]
        · rcases ih2 with ⟨b1, b2, b3⟩ | ⟨t, ht, c1, c2, c3, c4, c5⟩
          · refine Or.inl ⟨b1, b2, ?_⟩
            intro hth u hu
            rcases List.mem_cons.1 hu with rfl | hu
            · exact h0
            · exact b3 hth u hu
          · refine Or.inr ⟨t, List.mem_cons_of_mem _ ht, c1, c2, c3, c4, ?_⟩
            intro u hu hut
            rcases List.mem_cons.1 hu with rfl | hu
            · exact ⟨h0, hm'⟩
            · exact c5 u hu hut

/-! ## `reallocInode` on a well-formed volume -/

theorem reallocInode_spec (dev : Device) (hwf : WellFormed dev) (p ns : Nat) (hp : p < 64)
    (hpos : 0 < ns) (hns : ns ≤ DEVICE_SIZE) :
    ∃ a dev', reallocInode dev (getInode dev p) p ns =
        (.ok ⟨a, ns, (getInode dev p).is_dir⟩, dev') ∧
      MEM_START ≤ a ∧ a + ns ≤ INT32_MAX ∧
      (∀ j, j < 64 → j ≠ p → isAllocated dev j →
        a + ns ≤ (getInode dev j).addr ∨ (getInode dev j).addr + (getInode dev j).size ≤ a) ∧
      getInode dev' p = ⟨a, ns, (getInode dev p).is_dir⟩ ∧
      (∀ j, j < 64 → j ≠ p → getInode dev' j = getInode dev j) ∧
      (∀ x, a ≤ x → x < a + ns → dev' x =
        if (getInode dev p).addr ≠ UINT32_MAX ∧ x - a < (getInode dev p).size then
          dev ((getInode dev p).addr + (x - a)) else 0) ∧
      (∀ x, 775 ≤ x → (x < a ∨ a + ns ≤ x) → dev' x = dev x) ∧
      (a = MEM_START ∨ ∃ j, j < 64 ∧ j ≠ p ∧ isAllocated dev j ∧
        a = (getInode dev j).addr + (getInode dev j).size + 1) := by
  have hDS : DEVICE_SIZE = 1048576 := rfl
  have hI : INT32_MAX = 2147483647 := rfl
  have hM : MEM_START = 775 := rfl
  obtain ⟨dev1, hdev1⟩ : ∃ dev1, dev1 = setInode dev p ⟨INT32_MAX, ns, (getInode dev p).is_dir⟩ :=
    ⟨_, rfl⟩
  have h1p : getInode dev1 p = ⟨INT32_MAX, ns, (getInode dev p).is_dir⟩ := by
    rw [hdev1, getInode_setInode_same _ _ _ (by simp [hI]) (by simp only; omega)]
  have h1j : ∀ j, j ≠ p → getInode dev1 j = getInode dev j := by
    intro j hj
    rw [hdev1, getInode_setInode_ne _ _ _ _ (Ne.symm hj)]
  obtain ⟨a, ha, ha1, ha2, ha3, ha4⟩ := findFreeSpace_marked dev1 p ns hp (by rw [h1p]) (by rw [h1p])
    hns
    (by
      intro j hj hjp hal
      rw [h1j j hjp] at hal ⊢
      have := hwf.extent j hj hal
      exact ⟨this.1, this.2.1⟩)
    (by
      intro i j hi hj hij hip hjp hai haj
      rw [h1j i hip] at hai ⊢
      rw [h1j j hjp] at haj ⊢
      have h1 := hwf.disjoint i j hi hj hij hai haj
      have h2 := hwf.extent i hi hai
      have h3 := hwf.extent j hj haj
      exact ⟨by omega, h1⟩)
  refine ⟨a, blkWrite (setInode dev1 p ⟨a, ns, (getInode dev p).is_dir⟩) a ns
    (fun k => if (getInode dev p).addr ≠ UINT32_MAX ∧ k < (getInode dev p).size then
      dev ((getInode dev p).addr + k) else 0), ?_, ha1, ha2, ?_, ?_, ?_, ?_, ?_, ?_⟩
  · simp only [reallocInode, ← hdev1, ha]
    rw [if_neg (by omega)]
  · intro j hj hjp hal
    have := ha3 j hj hjp (by rw [h1j j hjp]; exact hal)
    rw [h1j j hjp] at this
    omega
  · rw [getInode_blkWrite _ _ _ _ _ hp (by omega),
      getInode_setInode_same _ _ _ (by simp only; omega) (by simp only; omega)]
  · intro j hj hjp
    rw [getInode_blkWrite _ _ _ _ _ hj (by omega), getInode_setInode_ne _ _ _ _ (Ne.symm hjp),
      h1j j hjp]
  · intro x hx1 hx2
    rw [blkWrite_inside _ _ _ _ _ ⟨hx1, hx2⟩]
  · intro x hx hout
    rw [blkWrite_outside _ _ _ _ _ hout, setInode_data _ _ _ _ hp hx, hdev1,
      setInode_data _ _ _ _ hp hx]
  · rcases ha4 with h | ⟨j, hj, hjp, hal, h⟩
    · exact Or.inl h
    · rw [h1j j hjp] at hal h
      exact Or.inr ⟨j, hj, hjp, hal, h⟩
/-! ## Looking a name up in a directory -/

theorem findFile_ok_iff (dev : Device) (a sz : Nat) (c : List Byte) (y : Nat) :
    findFileInDirectory dev a sz c = .ok y ↔
      ∃ s, (slotAddrs a sz).find? (fun t => matchAt dev c t) = some s ∧
        (readDirEntry dev s).inode_index = y := by
  unfold findFileInDirectory
  have hm : (fun i => strncmpEq NAME_SIZE (readDirEntry dev i).name c) = fun t => matchAt dev c t :=
    rfl
  rw [hm]
  cases h : (slotAddrs a sz).find? (fun t => matchAt dev c t) with
  | none => simp
  | some s =>
    simp only [Except.ok.injEq, Option.some.injEq, exists_eq_left']

theorem find_congr_mem {α : Type} (p q : α → Bool) (l : List α) (h : ∀ x ∈ l, p x = q x) :
    l.find? p = l.find? q := by
  induction l with
  | nil => rfl
  | cons x xs ih =>
    rw [List.find?_cons, List.find?_cons, h x (List.mem_cons_self _ _),
      ih fun y hy => h y (List.mem_cons_of_mem _ hy)]

theorem find_map_same (p q : Nat → Bool) (f g : Nat → Nat) (l : List Nat)
    (h : ∀ k ∈ l, q (g k) = p (f k)) (s : Nat) (hs : (l.map f).find? p = some s) :
    ∃ k, k ∈ l ∧ s = f k ∧ (l.map g).find? q = some (g k) := by
  induction l with
  | nil => simp at hs
  | cons x xs ihx =>
    rw [List.map_cons, List.find?_cons] at hs
    rw [List.map_cons, List.find?_cons, h x (List.mem_cons_self _ _)]
    cases hpx : p (f x) with
    | true =>
      rw [hpx] at hs
      simp only [Option.some.injEq] at hs
      exact ⟨x, List.mem_cons_self _ _, hs.symm, rfl⟩
    | false =>
      rw [hpx] at hs
      obtain ⟨k, hk, hsk, hf⟩ := ihx (fun k hk => h k (List.mem_cons_of_mem _ hk)) hs
      exact ⟨k, List.mem_cons_of_mem _ hk, hsk, hf⟩

/-- A name found among the first `m` slots is found at the same slot when the
slots are moved and more slots follow. -/
theorem find_map_range (p q : Nat → Bool) (f g : Nat → Nat) (m m' : Nat) (hm : m ≤ m')
    (h : ∀ k, k < m → q (g k) = p (f k)) (s : Nat)
    (hs : ((List.range m).map f).find? p = some s) :
    ∃ k, k < m ∧ s = f k ∧ ((List.range m').map g).find? q = some (g k) := by
  obtain ⟨k, hk, hsk, hf⟩ := find_map_same p q f g (List.range m)
    (fun k hk => h k (List.mem_range.1 hk)) s hs
  refine ⟨k, List.mem_range.1 hk, hsk, ?_⟩
  have hsplit : List.range m' = List.range m ++ (List.range (m' - m)).map (m + ·) := by
    have := List.range_add m (m' - m)
    rwa [Nat.add_sub_cancel' hm] at this
  rw [hsplit, List.map_append, List.find?_append, hf]
  rfl

/-! ## The directory before and after its growth -/

theorem dirBase_self (dev : Device) (hwf : WellFormed dev) (p : Nat) (hp : p < 64)
    (hal : isAllocated dev p) (hdir : (getInode dev p).is_dir = true) :
    DirBase dev dev p (getInode dev p).addr (getInode dev p).size := by
  have he := hwf.extent p hp hal
  refine ⟨?_, fun _ _ _ => rfl, ⟨he.1, ?_, he.2.2.1, he.2.2.2⟩, ?_, fun _ _ _ => rfl,
    hwf.slots p hp hal, fun _ _ _ h => h⟩
  · cases h : getInode dev p with
    | mk a s d =>
      rw [h] at hdir
      simp only at hdir
      simp [hdir]
  · have : DEVICE_SIZE ≤ INT32_MAX := by decide
    omega
  · intro j hj hjp haj
    exact hwf.disjoint p j hp hj (Ne.symm hjp) hal haj

theorem readDirEntry_moved (dev dev' : Device) (s s' : Nat)
    (h : ∀ x, x < 11 → dev' (s' + x) = dev (s + x)) :
    readDirEntry dev' s' = readDirEntry dev s := by
  unfold readDirEntry
  have h0 := h 0 (by omega)
  simp only [Nat.add_zero] at h0
  rw [h0]
  congr 1
  unfold blkRead
  apply List.map_congr_left
  intro k hk
  have hk' := List.mem_range.1 hk
  simp only [NAME_SIZE] at hk'
  have := h (1 + k) (by omega)
  rw [← Nat.add_assoc, ← Nat.add_assoc] at this
  exact this

theorem readDirEntry_name_head (dev : Device) (s : Nat) :
    (readDirEntry dev s).name.headD 0 = dev (s + 1) := by
  simp [readDirEntry, blkRead, NAME_SIZE, List.range_succ_eq_map]

theorem matchAt_empty_slot (dev : Device) (c : List Byte) (s : Nat) (hc : nameKey c ≠ [])
    (h : dev (s + 1) = 0) : matchAt dev c s = false := by
  cases hm : matchAt dev c s with
  | false => rfl
  | true =>
    exfalso
    apply hc
    rw [← (strncmpEq_iff_nameKey _ _).1 hm]
    exact nameKey_of_zero _ (by rw [readDirEntry_name_head, h])

theorem matchAt_zero_slot (dev : Device) (c : List Byte) (s : Nat) (hc : nameKey c = [])
    (h : dev (s + 1) = 0) : matchAt dev c s = true := by
  apply (strncmpEq_iff_nameKey _ _).2
  rw [hc]
  exact nameKey_of_zero _ (by rw [readDirEntry_name_head, h])

/-- The directory `p` after `reallocInode` has grown it by four slots (or
given it its first four slots). -/
theorem dirBase_realloc (dev : Device) (hwf : WellFormed dev) (p : Nat) (hp : p < 64)
    (hdir : (getInode dev p).is_dir = true) (hused : (getInode dev p).addr ≠ 0)
    (old : Nat) (hold : old = if (getInode dev p).addr = UINT32_MAX then 0 else (getInode dev p).size) :
    ∃ a dev3, reallocInode dev (getInode dev p) p (old + 44) = (.ok ⟨a, old + 44, true⟩, dev3) ∧
      DirBase dev dev3 p a (old + 44) ∧
      (∀ k x, 11 * k < old → x < 11 →
        dev3 (a + 11 * k + x) = dev ((getInode dev p).addr + 11 * k + x)) ∧
      (∀ x, old ≤ x → x < old + 44 → dev3 (a + x) = 0) ∧
      (a = MEM_START ∨ ∃ j, j < 64 ∧ j ≠ p ∧ isAllocated dev j ∧
        a = (getInode dev j).addr + (getInode dev j).size + 1) := by
  have hDS : DEVICE_SIZE = 1048576 := rfl
  have hM : MEM_START = 775 := rfl
  have hI : INT32_MAX = 2147483647 := rfl
  have hold_le : old + 44 ≤ DEVICE_SIZE := by
    by_cases hu : (getInode dev p).addr = UINT32_MAX
    · rw [if_pos hu] at hold; omega
    · rw [if_neg hu] at hold
      have := hwf.extent p hp ⟨hused, hu⟩
      omega
  have hold11 : old % 11 = 0 := by
    by_cases hu : (getInode dev p).addr = UINT32_MAX
    · rw [if_pos hu] at hold; omega
    · rw [if_neg hu] at hold
      have := hwf.extent p hp ⟨hused, hu⟩
      omega
  obtain ⟨a, dev3, h1, h2, h3, h4, h5, h6, h7, h8, h9⟩ :=
    reallocInode_spec dev hwf p (old + 44) hp (by omega) hold_le
  rw [hdir] at h1 h5
  have hcopy : ∀ k x, 11 * k < old → x < 11 →
      dev3 (a + 11 * k + x) = dev ((getInode dev p).addr + 11 * k + x) := by
    intro k x hk hx
    have hu : (getInode dev p).addr ≠ UINT32_MAX := by
      intro hu; rw [if_pos hu] at hold; omega
    rw [if_neg hu] at hold
    rw [h7 _ (by omega) (by omega), if_pos ⟨hu, by omega⟩]
    congr 1
    omega
  have hzero : ∀ x, old ≤ x → x < old + 44 → dev3 (a + x) = 0 := by
    intro x hx1 hx2
    rw [h7 _ (by omega) (by omega), if_neg]
    intro hc
    rw [if_neg hc.1] at hold
    omega
  refine ⟨a, dev3, h1, ⟨h5, h6, ⟨h2, h3, by omega, by omega⟩, h4, h8, ?_, ?_⟩, hcopy, hzero, h9⟩
  · intro k hk
    by_cases hko : 11 * k < old
    · have hu : (getInode dev p).addr ≠ UINT32_MAX := by
        intro hu; rw [if_pos hu] at hold; omega
      rw [if_neg hu] at hold
      have hs := hwf.slots p hp ⟨hused, hu⟩ k (by omega)
      have c0 := hcopy k 0 hko (by omega)
      have c1 := hcopy k 1 hko (by omega)
      simp only [Nat.add_zero] at c0
      rw [c0, c1]
      exact hs
    · have z0 := hzero (11 * k) (by omega) (by omega)
      have z1 := hzero (11 * k + 1) (by omega) (by omega)
      rw [← Nat.add_assoc] at z1
      rw [z0, z1]
      exact ⟨by decide, fun _ => rfl⟩
  · intro c y hc hfind
    by_cases hu : (getInode dev p).addr = UINT32_MAX
    · rw [hu, findFile_ok_iff, slotAddrs_unallocated] at hfind
      obtain ⟨s, hs, -⟩ := hfind
      simp at hs
    · rw [if_neg hu] at hold
      have hext := hwf.extent p hp ⟨hused, hu⟩
      obtain ⟨m, hm⟩ : ∃ m, old = 11 * m := ⟨old / 11, by omega⟩
      rw [← hold, hm, findFile_ok_iff, slotAddrs_eq _ _ (by omega)] at hfind
      obtain ⟨s, hs, hy⟩ := hfind
      obtain ⟨k, hk, hsk, hf⟩ := find_map_range (fun t => matchAt dev c t)
        (fun t => matchAt dev3 c t) (fun k => (getInode dev p).addr + 11 * k)
        (fun k => a + 11 * k) m (m + 4) (by omega)
        (by
          intro k hk
          simp only
          unfold matchAt
          rw [readDirEntry_moved dev dev3 ((getInode dev p).addr + 11 * k) (a + 11 * k)
            (fun x hx => hcopy k x (by omega) hx)])
        s hs
      have hsz : old + 44 = 11 * (m + 4) := by omega
      rw [hsz, findFile_ok_iff, slotAddrs_eq _ _ (by omega)]
      refine ⟨a + 11 * k, hf, ?_⟩
      rw [readDirEntry_moved dev dev3 ((getInode dev p).addr + 11 * k) (a + 11 * k)
        (fun x hx => hcopy k x (by omega) hx), ← hsk]
      exact hy

/-! ## The effect of `addToDirectory` -/

theorem addFrame_base {dev devX : Device} {p a sz : Nat} (hb : DirBase dev devX p a sz) :
    AddFrame dev p devX := by
  refine ⟨hb.others, ?_, ?_, ?_, ?_, ?_⟩
  · rw [hb.inode]
  · rw [hb.inode]; exact hb.place
  · rw [hb.inode]; exact hb.fresh
  · rw [hb.inode]; exact hb.frame
  · rw [hb.inode]; exact hb.slots

theorem mem_slotAddrs {a sz : Nat} (h11 : sz % 11 = 0) (hsz : a + sz < 4294967296) (s : Nat) :
    s ∈ slotAddrs a sz ↔ ∃ k, 11 * k < sz ∧ s = a + 11 * k := by
  obtain ⟨m, hm⟩ : ∃ m, sz = 11 * m := ⟨sz / 11, by omega⟩
  subst hm
  rw [slotAddrs_eq _ _ hsz]
  simp only [List.mem_map, List.mem_range]
  constructor
  · rintro ⟨k, hk, rfl⟩; exact ⟨k, by omega, rfl⟩
  · rintro ⟨k, hk, rfl⟩; exact ⟨k, by omega, rfl⟩

theorem slotAddrs_pairwise {a sz : Nat} (h11 : sz % 11 = 0) (hsz : a + sz < 4294967296) :
    (slotAddrs a sz).Pairwise fun x y => x + 11 ≤ y := by
  obtain ⟨m, hm⟩ : ∃ m, sz = 11 * m := ⟨sz / 11, by omega⟩
  subst hm
  rw [slotAddrs_eq _ _ hsz, List.pairwise_map]
  have h := List.pairwise_lt_range m
  exact h.imp fun {x y} hxy => by omega

/-- The volume after the entry is stored in the slot `k0` of the directory. -/
theorem dirBase_write {dev devX : Device} {p a sz : Nat} (hb : DirBase dev devX p a sz)
    (hp : p < 64) (k0 i : Nat) (name : List Byte) (hk0 : 11 * k0 < sz) (hi0 : 0 < i)
    (hi : i < 64) :
    AddFrame dev p (blkWrite devX (a + 11 * k0) sizeof_dir_entry (entryBuffer i name)) ∧
    getInode (blkWrite devX (a + 11 * k0) sizeof_dir_entry (entryBuffer i name)) p
      = ⟨a, sz, true⟩ := by
  have hM : MEM_START = 775 := rfl
  have hI : INT32_MAX = 2147483647 := rfl
  obtain ⟨hp1, hp2, hp3, hp4⟩ := hb.place
  have hin : ∀ j, j < 64 →
      getInode (blkWrite devX (a + 11 * k0) sizeof_dir_entry (entryBuffer i name)) j
        = getInode devX j := fun j hj => getInode_blkWrite _ _ _ _ _ hj (by omega)
  have hpe := (hin p hp).trans hb.inode
  · refine ⟨⟨?_, ?_, ?_, ?_, ?_, ?_⟩, hpe⟩
    · intro j hj hjp
      rw [hin j hj, hb.others j hj hjp]
    · rw [hpe]
    · rw [hpe]; exact hb.place
    · rw [hpe]; exact hb.fresh
    · rw [hpe]
      intro x hx hout
      simp only at hout
      rw [blkWrite_outside _ _ _ _ _ (by simp only [sizeof_dir_entry]; omega)]
      exact hb.frame x hx hout
    · rw [hpe]
      intro k hk
      simp only
      by_cases hkk : k = k0
      · subst hkk
        rw [blkWrite_inside _ _ _ _ _ (by simp only [sizeof_dir_entry]; omega)]
        have hv : ((entryBuffer i name (a + 11 * k - (a + 11 * k))) : Nat) = i := by
          simp only [Nat.sub_self, entryBuffer, bufferOf, dirEntryBytes, List.getD_cons_zero,
            ofNat_val]
          omega
        rw [hv]
        exact ⟨hi, fun h => by omega⟩
      · have h0 : blkWrite devX (a + 11 * k0) sizeof_dir_entry (entryBuffer i name) (a + 11 * k)
            = devX (a + 11 * k) :=
          blkWrite_outside _ _ _ _ _ (by simp only [sizeof_dir_entry]; omega)
        have h1 : blkWrite devX (a + 11 * k0) sizeof_dir_entry (entryBuffer i name)
            (a + 11 * k + 1) = devX (a + 11 * k + 1) :=
          blkWrite_outside _ _ _ _ _ (by simp only [sizeof_dir_entry]; omega)
        rw [h0, h1]
        exact hb.slots k hk

theorem addEffect_fail {dev devX : Device} {p : Nat} (name : List Byte)
    (hfr : AddFrame dev p devX)
    (hfail : (∃ s ∈ slotAddrs (getInode dev p).addr (getInode dev p).size,
      matchAt dev name s = true) ∨ nameKey name = []) :
    AddEffect dev p name (.error .alreadyExists) devX := by
  refine ⟨hfr, Or.inr rfl, fun h => (by cases h), fun h => (by cases h), fun _ => rfl, ?_⟩
  intro hno hkey
  exfalso
  rcases hfail with ⟨s, hs, hm⟩ | hk
  · rw [hno s hs] at hm; cases hm
  · exact hkey hk

/-- The volume after `addToDirectory` has stored the entry and returned. -/
theorem addEffect_ok {dev devX : Device} {p a sz : Nat} (hb : DirBase dev devX p a sz)
    (hp : p < 64) (k0 i : Nat) (name : List Byte) (hk0 : 11 * k0 < sz) (hi0 : 0 < i)
    (hi : i < 64) (hempty : (devX (a + 11 * k0)).val = 0)
    (hnoX : ∀ s ∈ slotAddrs a sz, matchAt devX name s = false)
    (hno : ∀ s ∈ slotAddrs (getInode dev p).addr (getInode dev p).size,
      matchAt dev name s = false) :
    AddEffect dev p name (.ok ())
      (blkWrite devX (a + 11 * k0) sizeof_dir_entry (entryBuffer i name)) := by
  have hI : INT32_MAX = 2147483647 := rfl
  obtain ⟨hfr, hpe⟩ := dirBase_write hb hp k0 i name hk0 hi0 hi
  obtain ⟨hp1, hp2, hp3, hp4⟩ := hb.place
  have hwr : readDirEntry (blkWrite devX (a + 11 * k0) sizeof_dir_entry (entryBuffer i name))
      (a + 11 * k0) = ⟨i, strncpy name NAME_SIZE⟩ :=
    readDirEntry_written devX (a + 11 * k0) i name (by omega)
  have hother : ∀ t ∈ slotAddrs a sz, t ≠ a + 11 * k0 →
      readDirEntry (blkWrite devX (a + 11 * k0) sizeof_dir_entry (entryBuffer i name)) t
        = readDirEntry devX t := by
    intro t ht hne
    obtain ⟨k, hk, rfl⟩ := (mem_slotAddrs hp4 (by omega) t).1 ht
    apply readDirEntry_congr
    intro x hx1 hx2
    apply blkWrite_outside
    simp only [sizeof_dir_entry]
    have : k ≠ k0 := fun h => hne (by rw [h])
    omega
  have hmem0 : a + 11 * k0 ∈ slotAddrs a sz := (mem_slotAddrs hp4 (by omega) _).2 ⟨k0, hk0, rfl⟩
  refine ⟨hfr, Or.inl rfl, ?_, ?_, ?_, fun _ _ => rfl⟩
  · intro _ c y hc hfind
    rw [hpe]
    have hX := hb.lookups c y hc hfind
    rw [findFile_ok_iff] at hX ⊢
    obtain ⟨t, ht, hy⟩ := hX
    have htmem : t ∈ slotAddrs a sz := List.mem_of_find?_eq_some ht
    have htm : matchAt devX c t = true := by
      have := List.find?_some ht
      exact this
    have hs0 : matchAt devX c (a + 11 * k0) = false :=
      matchAt_empty_slot devX c _ hc ((hb.slots k0 hk0).2 hempty)
    have hne : t ≠ a + 11 * k0 := by
      intro h; rw [h, hs0] at htm; cases htm
    have hs1 : matchAt (blkWrite devX (a + 11 * k0) sizeof_dir_entry (entryBuffer i name)) c
        (a + 11 * k0) = false := by
      cases hm : matchAt (blkWrite devX (a + 11 * k0) sizeof_dir_entry (entryBuffer i name)) c
        (a + 11 * k0) with
      | false => rfl
      | true =>
        exfalso
        unfold matchAt at hm htm
        rw [hwr] at hm
        have e1 := (strncmpEq_iff_nameKey _ _).1 hm
        have e2 := (strncmpEq_iff_nameKey _ _).1 htm
        simp only at e1
        rw [nameKey_strncpy] at e1
        have e3 : matchAt devX name t = true :=
          (strncmpEq_iff_nameKey _ _).2 (e2.trans e1.symm)
        rw [hnoX t htmem] at e3
        cases e3
    refine ⟨t, ?_, ?_⟩
    · rw [← ht]
      apply find_congr_mem
      intro u hu
      by_cases hu0 : u = a + 11 * k0
      · rw [hu0, hs1, hs0]
      · unfold matchAt
        rw [hother u hu hu0]
    · rw [hother t htmem hne]
      exact hy
  · intro _
    rw [hpe]
    refine ⟨a + 11 * k0, hmem0, ?_⟩
    unfold matchAt
    rw [hwr]
    exact strncmpEq_strncpy name
  · rintro ⟨s, hs, hm⟩
    rw [hno s hs] at hm
    cases hm

/-- The slots of a directory whose pass has thrown before any store. -/
theorem addShape_fail {dev devX : Device} {p a sz : Nat} (hb : DirBase dev devX p a sz) (i : Nat)
    (hgrow : (⟨a, sz, true⟩ : inode_entry) = getInode dev p ∨
      (sz = dirBaseSize dev p + 44 ∧
        (∀ k, 11 * k < dirBaseSize dev p → slotIndex dev p k ≠ 0) ∧
        (a = MEM_START ∨ ∃ j, j < 64 ∧ j ≠ p ∧ isAllocated dev j ∧
          a = (getInode dev j).addr + (getInode dev j).size + 1)))
    (hcont : ∀ k, 11 * k < sz →
      (devX (a + 11 * k)).val = if 11 * k < dirBaseSize dev p then slotIndex dev p k else 0) :
    AddShape dev p i (.error .alreadyExists) devX := by
  refine ⟨?_, ?_, fun h => (by cases h)⟩
  · rw [hb.inode]; exact hgrow
  · intro _ k hk
    rw [hb.inode] at hk
    unfold slotIndex
    rw [hb.inode]
    exact hcont k hk

/-- The slots of a directory after the entry is stored in its first empty slot. -/
theorem addShape_ok {dev devX : Device} {p a sz : Nat} (hb : DirBase dev devX p a sz)
    (hp : p < 64) (k0 i : Nat) (name : List Byte) (hk0 : 11 * k0 < sz) (hi0 : 0 < i)
    (hi : i < 64)
    (hgrow : (⟨a, sz, true⟩ : inode_entry) = getInode dev p ∨
      (sz = dirBaseSize dev p + 44 ∧
        (∀ k, 11 * k < dirBaseSize dev p → slotIndex dev p k ≠ 0) ∧
        (a = MEM_START ∨ ∃ j, j < 64 ∧ j ≠ p ∧ isAllocated dev j ∧
          a = (getInode dev j).addr + (getInode dev j).size + 1)))
    (hcont : ∀ k, 11 * k < sz →
      (devX (a + 11 * k)).val = if 11 * k < dirBaseSize dev p then slotIndex dev p k else 0)
    (hfirst : ∀ k, k < k0 → (devX (a + 11 * k)).val ≠ 0) :
    AddShape dev p i (.ok ())
      (blkWrite devX (a + 11 * k0) sizeof_dir_entry (entryBuffer i name)) := by
  obtain ⟨-, hpe⟩ := dirBase_write hb hp k0 i name hk0 hi0 hi
  have hval : ∀ k, 11 * k < sz →
      (blkWrite devX (a + 11 * k0) sizeof_dir_entry (entryBuffer i name) (a + 11 * k)).val =
        if k = k0 then i else (devX (a + 11 * k)).val := by
    intro k hk
    by_cases hkk : k = k0
    · subst hkk
      rw [if_pos rfl, blkWrite_inside _ _ _ _ _ (by simp only [sizeof_dir_entry]; omega)]
      simp only [Nat.sub_self, entryBuffer, bufferOf, dirEntryBytes, List.getD_cons_zero,
        ofNat_val]
      omega
    · rw [if_neg hkk, blkWrite_outside _ _ _ _ _ (by simp only [sizeof_dir_entry]; omega)]
  refine ⟨?_, fun h => absurd rfl h, fun _ => ⟨k0, ?_, ?_, ?_⟩⟩
  · rw [hpe]; exact hgrow
  · rw [hpe]; exact hk0
  · intro k hk
    unfold slotIndex
    rw [hpe]
    simp only
    rw [hval k (by omega), if_neg (by omega)]
    exact hfirst k hk
  · intro k hk
    rw [hpe] at hk
    unfold slotIndex
    rw [hpe]
    simp only at hk ⊢
    rw [hval k hk]
    by_cases hkk : k = k0
    · rw [if_pos hkk, if_pos hkk]
    · rw [if_neg hkk, if_neg hkk]
      exact hcont k hk

theorem readDirEntry_zero (dev : Device) (s : Nat) (h : ∀ x, x < 11 → dev (s + x) = 0) :
    readDirEntry dev s = ⟨0, List.replicate NAME_SIZE 0⟩ := by
  unfold readDirEntry blkRead
  have h0 := h 0 (by omega)
  simp only [Nat.add_zero] at h0
  rw [h0]
  congr 1
  rw [List.eq_replicate_iff]
  refine ⟨by simp, ?_⟩
  intro b hb
  rw [List.mem_map] at hb
  obtain ⟨k, hk, rfl⟩ := hb
  rw [List.mem_range] at hk
  simp only [NAME_SIZE] at hk
  rw [Nat.add_assoc]
  exact h (1 + k) (by omega)

/-- The entries of a directory whose pass has thrown before any store. -/
theorem addEntries_fail {dev devX : Device} {p a sz : Nat} (hb : DirBase dev devX p a sz)
    (i : Nat) (name : List Byte)
    (hcont : ∀ k, 11 * k < sz →
      readDirEntry devX (a + 11 * k) =
        if 11 * k < dirBaseSize dev p then readDirEntry dev ((getInode dev p).addr + 11 * k)
        else ⟨0, List.replicate NAME_SIZE 0⟩) :
    AddEntries dev p i name (.error .alreadyExists) devX := by
  refine ⟨?_, fun h => (by cases h)⟩
  intro _ k hk
  rw [hb.inode] at hk ⊢
  exact hcont k hk

/-- The entries of a directory after the entry is stored in its first empty slot. -/
theorem addEntries_ok {dev devX : Device} {p a sz : Nat} (hb : DirBase dev devX p a sz)
    (hp : p < 64) (k0 i : Nat) (name : List Byte) (hk0 : 11 * k0 < sz) (hi0 : 0 < i)
    (hi : i < 64)
    (hcont : ∀ k, 11 * k < sz →
      readDirEntry devX (a + 11 * k) =
        if 11 * k < dirBaseSize dev p then readDirEntry dev ((getInode dev p).addr + 11 * k)
        else ⟨0, List.replicate NAME_SIZE 0⟩)
    (hfirst : ∀ k, k < k0 → (devX (a + 11 * k)).val ≠ 0)
    (hempty : (devX (a + 11 * k0)).val = 0) :
    AddEntries dev p i name (.ok ())
      (blkWrite devX (a + 11 * k0) sizeof_dir_entry (entryBuffer i name)) := by
  have hI : INT32_MAX = 2147483647 := rfl
  obtain ⟨-, hpe⟩ := dirBase_write hb hp k0 i name hk0 hi0 hi
  obtain ⟨hp1, hp2, hp3, hp4⟩ := hb.place
  have hwr : readDirEntry (blkWrite devX (a + 11 * k0) sizeof_dir_entry (entryBuffer i name))
      (a + 11 * k0) = ⟨i, strncpy name NAME_SIZE⟩ :=
    readDirEntry_written devX (a + 11 * k0) i name (by omega)
  have hother : ∀ k, k ≠ k0 →
      readDirEntry (blkWrite devX (a + 11 * k0) sizeof_dir_entry (entryBuffer i name))
        (a + 11 * k) = readDirEntry devX (a + 11 * k) := by
    intro k hne
    apply readDirEntry_congr
    intro x hx1 hx2
    apply blkWrite_outside
    simp only [sizeof_dir_entry]
    omega
  refine ⟨fun h => absurd rfl h, fun _ => ⟨k0, ?_, ?_, ?_, ?_⟩⟩
  · rw [hpe]; exact hk0
  · intro k hk
    unfold slotIndex
    rw [hpe]
    simp only
    have := hother k (by omega)
    have h2 : (readDirEntry (blkWrite devX (a + 11 * k0) sizeof_dir_entry (entryBuffer i name))
        (a + 11 * k)).inode_index = (readDirEntry devX (a + 11 * k)).inode_index := by
      rw [this]
    intro hc
    exact hfirst k hk (h2.symm.trans hc)
  · intro hlt
    have h := hcont k0 hk0
    rw [if_pos hlt] at h
    have h2 : (readDirEntry devX (a + 11 * k0)).inode_index =
        (readDirEntry dev ((getInode dev p).addr + 11 * k0)).inode_index := by rw [h]
    exact h2.symm.trans hempty
  · intro k hk
    rw [hpe] at hk ⊢
    simp only at hk ⊢
    by_cases hkk : k = k0
    · rw [if_pos hkk, hkk, hwr]
    · rw [if_neg hkk, hother k hkk]
      exact hcont k hk
/-! ## Evaluation on concrete traces -/

theorem bigContent_length : bigContent.length = 1047756 := List.length_replicate _ _

theorem set_content_eq_sized (dev : Device) (path content : List Byte) (n : Nat)
    (h : content.length = n) :
    set_content dev path content = set_content_sized dev path n content := by
  subst h
  rfl

theorem runCalls_cons (dev : Device) (c : Call) (cs : List Call) :
    runCalls dev (c :: cs) =
      match c.run dev with
      | none => none
      | some dev1 => runCalls dev1 cs := rfl

theorem run_write (dev : Device) (path content : List Byte) :
    (Call.write path content).run dev = some (set_content dev path content).2 := rfl

theorem runCalls_fullTrace : runCalls freshVolume fullTrace = fullVolume := by
  have h : ∀ dev1 : Device, runCalls dev1 fullTraceTail =
      runCalls (set_content_sized dev1 (str "/f") 1047756 bigContent).2 fullTraceTail.tail := by
    intro dev1
    unfold fullTraceTail
    rw [runCalls_cons, run_write,
      set_content_eq_sized dev1 (str "/f") bigContent 1047756 bigContent_length]
    rfl
  unfold fullTrace fullVolume
  rw [runCalls_cons]
  cases (Call.create (str "/f") false).run freshVolume with
  | none => rfl
  | some dev1 => exact h dev1

/-! ## The loop of `addToDirectory` -/

theorem addToDirectoryLoop_succ (e : dir_entry) (name : List Byte) (p fuel : Nat) (dev : Device)
    (dir : inode_entry) :
    addToDirectoryLoop e name p (fuel + 1) dev dir =
      if ((slotAddrs dir.addr dir.size).foldl (addPassStep e name) ⟨dev, false, false⟩).thrown
          = true then
        some (.error .alreadyExists,
          ((slotAddrs dir.addr dir.size).foldl (addPassStep e name) ⟨dev, false, false⟩).dev)
      else if ((slotAddrs dir.addr dir.size).foldl (addPassStep e name)
          ⟨dev, false, false⟩).hasAdded = true then
        some (.ok (),
          ((slotAddrs dir.addr dir.size).foldl (addPassStep e name) ⟨dev, false, false⟩).dev)
      else
        match reallocInode
          ((slotAddrs dir.addr dir.size).foldl (addPassStep e name) ⟨dev, false, false⟩).dev
          dir p (u32 (dir.size + INIT_DIR_SIZE * sizeof_dir_entry)) with
        | (.error err, dev1) => some (.error err, dev1)
        | (.ok dir1, dev1) => addToDirectoryLoop e name p fuel dev1 dir1 := rfl

/-- The pass over a directory that was just grown: its old slots are taken
and do not hold the name, its last four slots are zero. -/
theorem loop_grown {dev devX : Device} {p a old : Nat} (hb : DirBase dev devX p a (old + 44))
    (i : Nat) (name : List Byte) (fuel : Nat) (hold11 : old % 11 = 0)
    (hzero : ∀ x, old ≤ x → x < old + 44 → devX (a + x) = 0)
    (hfull : ∀ k, 11 * k < old →
      (devX (a + 11 * k)).val ≠ 0 ∧ matchAt devX name (a + 11 * k) = false) :
    (nameKey name = [] ∧
      addToDirectoryLoop ⟨i, strncpy name NAME_SIZE⟩ name p (fuel + 1) devX ⟨a, old + 44, true⟩
        = some (.error .alreadyExists, devX)) ∨
    (nameKey name ≠ [] ∧
      addToDirectoryLoop ⟨i, strncpy name NAME_SIZE⟩ name p (fuel + 1) devX ⟨a, old + 44, true⟩
        = some (.ok (), blkWrite devX (a + old) sizeof_dir_entry (entryBuffer i name)) ∧
      ∀ s ∈ slotAddrs a (old + 44), matchAt devX name s = false) := by
  have hI : INT32_MAX = 2147483647 := rfl
  obtain ⟨hp1, hp2, hp3, hp4⟩ := hb.place
  have hmem := fun s => @mem_slotAddrs a (old + 44) hp4 (by omega) s
  obtain ⟨ht, hcases⟩ := pass_fresh i name (slotAddrs a (old + 44)) devX
    (slotAddrs_pairwise hp4 (by omega))
  have hnew0 : (devX (a + old)).val = 0 := by
    rw [hzero old (le_refl _) (by omega)]; rfl
  have hnewmem : a + old ∈ slotAddrs a (old + 44) :=
    (hmem _).2 ⟨old / 11, by omega, by omega⟩
  have hzslot : ∀ k, 11 * k < old + 44 → old ≤ 11 * k → devX (a + 11 * k + 1) = 0 := by
    intro k hk1 hk2
    have := hzero (11 * k + 1) (by omega) (by omega)
    rwa [← Nat.add_assoc] at this
  rw [addToDirectoryLoop_succ]
  simp only
  by_cases hkey : nameKey name = []
  · left
    refine ⟨hkey, ?_⟩
    have hthrown := ht.2 ⟨a + old, hnewmem, matchAt_zero_slot devX name _ hkey (by
      have := hzslot (old / 11) (by omega) (by omega)
      have e : 11 * (old / 11) = old := by omega
      rwa [e] at this)⟩
    rw [if_pos hthrown]
    rcases hcases with ⟨h1, -, -⟩ | ⟨s, hs, hidx, hnom, -, -, -⟩
    · rw [h1]
    · exfalso
      obtain ⟨k, hk, rfl⟩ := (hmem s).1 hs
      have hidx' : (devX (a + 11 * k)).val = 0 := hidx
      by_cases hko : 11 * k < old
      · exact (hfull k hko).1 hidx'
      · rw [matchAt_zero_slot devX name _ hkey (hzslot k hk (by omega))] at hnom
        cases hnom
  · right
    have hnomatch : ∀ s ∈ slotAddrs a (old + 44), matchAt devX name s = false := by
      intro s hs
      obtain ⟨k, hk, rfl⟩ := (hmem s).1 hs
      by_cases hko : 11 * k < old
      · exact (hfull k hko).2
      · exact matchAt_empty_slot devX name _ hkey (hzslot k hk (by omega))
    have hnt : ¬ ((slotAddrs a (old + 44)).foldl
        (addPassStep ⟨i, strncpy name NAME_SIZE⟩ name) ⟨devX, false, false⟩).thrown = true := by
      intro h
      obtain ⟨s, hs, hm⟩ := ht.1 h
      rw [hnomatch s hs] at hm
      cases hm
    refine ⟨hkey, ?_, hnomatch⟩
    rw [if_neg hnt]
    rcases hcases with ⟨-, -, h3⟩ | ⟨s, hs, hidx, -, hdev, hadd, hfirst⟩
    · exfalso
      have hf : ((slotAddrs a (old + 44)).foldl
          (addPassStep ⟨i, strncpy name NAME_SIZE⟩ name) ⟨devX, false, false⟩).thrown = false := by
        cases h : ((slotAddrs a (old + 44)).foldl
          (addPassStep ⟨i, strncpy name NAME_SIZE⟩ name) ⟨devX, false, false⟩).thrown
        · rfl
        · exact absurd h hnt
      exact h3 hf (a + old) hnewmem hnew0
    · rw [if_pos hadd, hdev]
      obtain ⟨k, hk, rfl⟩ := (hmem s).1 hs
      have hidx' : (devX (a + 11 * k)).val = 0 := hidx
      have hk1 : old ≤ 11 * k := by
        by_contra hc
        exact (hfull k (by omega)).1 hidx'
      have hk2 : ¬ a + old < a + 11 * k := by
        intro hc
        exact (hfirst (a + old) hnewmem hc).1 hnew0
      have e : a + 11 * k = a + old := by omega
      rw [e]

/-! ## `addToDirectory` on a well-formed volume -/

/-- On a well-formed volume `addToDirectory` ends within two passes, and what
it leaves is described by `AddEffect`, and by `AddShape` and `AddEntries` when
no taken slot of the directory follows an empty one. -/
theorem addToDirectory_spec (dev : Device) (hwf : WellFormed dev) (p i : Nat) (hp : p < 64)
    (hi0 : 0 < i) (hi : i < 64) (name : List Byte) (hdir : (getInode dev p).is_dir = true)
    (hused : (getInode dev p).addr ≠ 0) :
    ∃ r dev', addToDirectory dev p i name = some (r, dev') ∧ AddEffect dev p name r dev' ∧
      (PrefixLive dev p → AddShape dev p i r dev' ∧ AddEntries dev p i name r dev') := by
  have hmod : p % 256 = p := by omega
  have hfuel : whileFuel = 4294967295 + 1 := rfl
  have h44 : INIT_DIR_SIZE * sizeof_dir_entry = 44 := rfl
  have hndir : ¬ (getInode dev p).is_dir = false := by rw [hdir]; decide
  unfold addToDirectory
  simp only [hmod, if_neg hndir, hfuel, h44]
  by_cases hu : (getInode dev p).addr = UINT32_MAX
  · rw [if_pos hu]
    obtain ⟨a, dev3, hre, hb, -, hzero, hgap⟩ :=
      dirBase_realloc dev hwf p hp hdir hused 0 (by rw [if_pos hu])
    simp only [Nat.zero_add] at hre hb hzero
    rw [hre]
    simp only
    have hno : ∀ s ∈ slotAddrs (getInode dev p).addr (getInode dev p).size,
        matchAt dev name s = false := by
      intro s hs
      rw [hu, slotAddrs_unallocated] at hs
      cases hs
    have hb' : DirBase dev dev3 p a (0 + 44) := by simpa using hb
    have hbase : dirBaseSize dev p = 0 := by unfold dirBaseSize; rw [if_pos hu]
    have hgrow : (⟨a, 44, true⟩ : inode_entry) = getInode dev p ∨
        (44 = dirBaseSize dev p + 44 ∧
          (∀ k, 11 * k < dirBaseSize dev p → slotIndex dev p k ≠ 0) ∧
          (a = MEM_START ∨ ∃ j, j < 64 ∧ j ≠ p ∧ isAllocated dev j ∧
            a = (getInode dev j).addr + (getInode dev j).size + 1)) :=
      Or.inr ⟨by omega, fun k hk => by omega, hgap⟩
    have hcont : ∀ k, 11 * k < 44 →
        (dev3 (a + 11 * k)).val =
          if 11 * k < dirBaseSize dev p then slotIndex dev p k else 0 := by
      intro k hk
      rw [hbase, if_neg (by omega), hzero (11 * k) (by omega) hk]
      rfl
    have hcontE : ∀ k, 11 * k < 44 →
        readDirEntry dev3 (a + 11 * k) =
          if 11 * k < dirBaseSize dev p then readDirEntry dev ((getInode dev p).addr + 11 * k)
          else ⟨0, List.replicate NAME_SIZE 0⟩ := by
      intro k hk
      rw [hbase, if_neg (by omega)]
      apply readDirEntry_zero
      intro x hx
      rw [Nat.add_assoc]
      exact hzero (11 * k + x) (by omega) (by omega)
    rcases loop_grown hb' i name 4294967295 (by omega)
      (by intro x h1 h2; exact hzero x (by omega) (by omega)) (by intro k hk; omega) with
      ⟨hkey, hl⟩ | ⟨hkey, hl, hnoX⟩
    · simp only [Nat.zero_add] at hl
      exact ⟨_, _, hl, addEffect_fail name (addFrame_base hb) (Or.inr hkey),
        fun _ => ⟨addShape_fail hb i hgrow hcont, addEntries_fail hb i name hcontE⟩⟩
    · simp only [Nat.zero_add, Nat.add_zero] at hl hnoX
      have hz0 : (dev3 (a + 11 * 0)).val = 0 := by
        have h := hzero 0 (le_refl _) (by omega)
        simp only [Nat.add_zero] at h
        simp only [Nat.mul_zero, Nat.add_zero, h]
        rfl
      have e1 := addEffect_ok hb hp 0 i name (by omega) hi0 hi hz0 hnoX hno
      have e2 := addShape_ok hb hp 0 i name (by omega) hi0 hi hgrow hcont (fun k hk => by omega)
      have e3 := addEntries_ok hb hp 0 i name (by omega) hi0 hi hcontE (fun k hk => by omega) hz0
      simp only [Nat.mul_zero, Nat.add_zero] at e1 e2 e3
      exact ⟨_, _, hl, e1, fun _ => ⟨e2, e3⟩⟩
  · rw [if_neg hu]
    have hal : isAllocated dev p := ⟨hused, hu⟩
    have hext := hwf.extent p hp hal
    have hDS : DEVICE_SIZE = 1048576 := rfl
    have hb := dirBase_self dev hwf p hp hal hdir
    have hbase : dirBaseSize dev p = (getInode dev p).size := by
      unfold dirBaseSize; rw [if_neg hu]
    have hgrow0 : (⟨(getInode dev p).addr, (getInode dev p).size, true⟩ : inode_entry) =
          getInode dev p ∨
        ((getInode dev p).size = dirBaseSize dev p + 44 ∧
          (∀ k, 11 * k < dirBaseSize dev p → slotIndex dev p k ≠ 0) ∧
          ((getInode dev p).addr = MEM_START ∨ ∃ j, j < 64 ∧ j ≠ p ∧ isAllocated dev j ∧
            (getInode dev p).addr = (getInode dev j).addr + (getInode dev j).size + 1)) :=
      Or.inl hb.inode.symm
    have hcont0 : ∀ k, 11 * k < (getInode dev p).size →
        (dev ((getInode dev p).addr + 11 * k)).val =
          if 11 * k < dirBaseSize dev p then slotIndex dev p k else 0 := by
      intro k hk
      rw [hbase, if_pos hk]
      rfl
    have hcontE0 : ∀ k, 11 * k < (getInode dev p).size →
        readDirEntry dev ((getInode dev p).addr + 11 * k) =
          if 11 * k < dirBaseSize dev p then readDirEntry dev ((getInode dev p).addr + 11 * k)
          else ⟨0, List.replicate NAME_SIZE 0⟩ := by
      intro k hk
      rw [hbase, if_pos hk]
    have hmem := fun s => @mem_slotAddrs (getInode dev p).addr
      (getInode dev p).size hext.2.2.2 (by omega) s
    obtain ⟨ht, hcases⟩ := pass_fresh i name
      (slotAddrs (getInode dev p).addr (getInode dev p).size) dev
      (slotAddrs_pairwise hext.2.2.2 (by omega))
    rw [addToDirectoryLoop_succ]
    generalize (slotAddrs (getInode dev p).addr (getInode dev p).size).foldl
      (addPassStep ⟨i, strncpy name NAME_SIZE⟩ name) ⟨dev, false, false⟩ = R at ht hcases ⊢
    by_cases hth : R.thrown = true
    · rw [if_pos hth]
      have hex := ht.1 hth
      rcases hcases with ⟨hdev, -, -⟩ | ⟨s, hs, hidx, hnos, hdev, -, hbefore⟩
      · rw [hdev]
        exact ⟨_, _, rfl, addEffect_fail name (addFrame_base hb) (Or.inl hex),
          fun _ => ⟨addShape_fail hb i hgrow0 hcont0, addEntries_fail hb i name hcontE0⟩⟩
      · rw [hdev]
        obtain ⟨k, hk, rfl⟩ := (hmem s).1 hs
        refine ⟨_, _, rfl, addEffect_fail name (dirBase_write hb hp k i name hk hi0 hi).1
          (Or.inl hex), fun hpre => ?_⟩
        exfalso
        obtain ⟨t, ht, hmt⟩ := hex
        obtain ⟨k', hk', rfl⟩ := (hmem t).1 ht
        have hidx' : (dev ((getInode dev p).addr + 11 * k)).val = 0 := hidx
        have hkey : nameKey name ≠ [] := by
          intro hkey
          rw [matchAt_zero_slot dev name _ hkey ((hwf.slots p hp hal k hk).2 hidx')] at hnos
          cases hnos
        have hkk : k < k' := by
          rcases Nat.lt_trichotomy k' k with h | h | h
          · have := (hbefore _ ht (by omega)).2
            rw [this] at hmt
            cases hmt
          · subst h
            rw [hnos] at hmt
            cases hmt
          · exact h
        have hidx2 : (dev ((getInode dev p).addr + 11 * k')).val = 0 :=
          hpre k k' hkk (by rw [hbase]; exact hk') hidx'
        rw [matchAt_empty_slot dev name _ hkey ((hwf.slots p hp hal k' hk').2 hidx2)] at hmt
        cases hmt
    · rw [if_neg hth]
      have hno : ∀ s ∈ slotAddrs (getInode dev p).addr (getInode dev p).size,
          matchAt dev name s = false := by
        intro s hs
        cases hm : matchAt dev name s with
        | false => rfl
        | true => exact absurd (ht.2 ⟨s, hs, hm⟩) hth
      rcases hcases with ⟨hdev, hadd, h3⟩ | ⟨s, hs, hidx, -, hdev, hadd, hbefore⟩
      · have hnadd : ¬ R.hasAdded = true := by rw [hadd]; decide
        rw [if_neg hnadd, hdev]
        have hthf : R.thrown = false := by
          cases h : R.thrown
          · rfl
          · exact absurd h hth
        have hfullidx := h3 hthf
        obtain ⟨a, dev3, hre, hb3, hcopy, hzero, hgap⟩ :=
          dirBase_realloc dev hwf p hp hdir hused (getInode dev p).size (by rw [if_neg hu])
        have hu32 : u32 ((getInode dev p).size + INIT_DIR_SIZE * sizeof_dir_entry) =
            (getInode dev p).size + 44 := by
          simp only [u32, h44]; omega
        rw [hu32, hre]
        simp only
        have hfull : ∀ k, 11 * k < (getInode dev p).size →
            (dev3 (a + 11 * k)).val ≠ 0 ∧ matchAt dev3 name (a + 11 * k) = false := by
          intro k hk
          have hsm := (hmem ((getInode dev p).addr + 11 * k)).2 ⟨k, hk, rfl⟩
          have hmv := readDirEntry_moved dev dev3 ((getInode dev p).addr + 11 * k) (a + 11 * k)
            (fun x hx => hcopy k x hk hx)
          constructor
          · have h0 := hcopy k 0 hk (by omega)
            simp only [Nat.add_zero] at h0
            rw [h0]
            exact hfullidx _ hsm
          · unfold matchAt
            rw [hmv]
            exact hno _ hsm
        have hgrow : (⟨a, (getInode dev p).size + 44, true⟩ : inode_entry) = getInode dev p ∨
            ((getInode dev p).size + 44 = dirBaseSize dev p + 44 ∧
              (∀ k, 11 * k < dirBaseSize dev p → slotIndex dev p k ≠ 0) ∧
              (a = MEM_START ∨ ∃ j, j < 64 ∧ j ≠ p ∧ isAllocated dev j ∧
                a = (getInode dev j).addr + (getInode dev j).size + 1)) := by
          refine Or.inr ⟨by rw [hbase], ?_, hgap⟩
          intro k hk
          rw [hbase] at hk
          exact hfullidx _ ((hmem _).2 ⟨k, hk, rfl⟩)
        have hcont : ∀ k, 11 * k < (getInode dev p).size + 44 →
            (dev3 (a + 11 * k)).val =
              if 11 * k < dirBaseSize dev p then slotIndex dev p k else 0 := by
          intro k hk
          rw [hbase]
          by_cases hko : 11 * k < (getInode dev p).size
          · have h0 := hcopy k 0 hko (by omega)
            simp only [Nat.add_zero] at h0
            rw [if_pos hko, h0]
            rfl
          · rw [if_neg hko, hzero (11 * k) (by omega) hk]
            rfl
        have hcontE : ∀ k, 11 * k < (getInode dev p).size + 44 →
            readDirEntry dev3 (a + 11 * k) =
              if 11 * k < dirBaseSize dev p then
                readDirEntry dev ((getInode dev p).addr + 11 * k)
              else ⟨0, List.replicate NAME_SIZE 0⟩ := by
          intro k hk
          rw [hbase]
          by_cases hko : 11 * k < (getInode dev p).size
          · rw [if_pos hko]
            exact readDirEntry_moved dev dev3 ((getInode dev p).addr + 11 * k) (a + 11 * k)
              (fun x hx => hcopy k x hko hx)
          · rw [if_neg hko]
            apply readDirEntry_zero
            intro x hx
            rw [Nat.add_assoc]
            exact hzero (11 * k + x) (by omega) (by omega)
        rcases loop_grown hb3 i name 4294967294 hext.2.2.2 hzero hfull with
          ⟨hkey, hl⟩ | ⟨hkey, hl, hnoX⟩
        · exact ⟨_, _, hl, addEffect_fail name (addFrame_base hb3) (Or.inr hkey),
            fun _ => ⟨addShape_fail hb3 i hgrow hcont, addEntries_fail hb3 i name hcontE⟩⟩
        · have e : a + (getInode dev p).size = a + 11 * ((getInode dev p).size / 11) := by
            omega
          have hz : (dev3 (a + 11 * ((getInode dev p).size / 11))).val = 0 := by
            rw [← e, hzero _ (le_refl _) (by omega)]; rfl
          rw [e] at hl
          exact ⟨_, _, hl, addEffect_ok hb3 hp _ i name (by omega) hi0 hi hz hnoX hno,
            fun _ => ⟨addShape_ok hb3 hp _ i name (by omega) hi0 hi hgrow hcont
                (fun k hk => (hfull k (by omega)).1),
              addEntries_ok hb3 hp _ i name (by omega) hi0 hi hcontE
                (fun k hk => (hfull k (by omega)).1) hz⟩⟩
      · rw [if_pos hadd, hdev]
        obtain ⟨k, hk, rfl⟩ := (hmem s).1 hs
        have hfirst : ∀ k2, k2 < k → (dev ((getInode dev p).addr + 11 * k2)).val ≠ 0 := by
          intro k2 hk2
          exact (hbefore _ ((hmem _).2 ⟨k2, by omega, rfl⟩) (by omega)).1
        exact ⟨_, _, rfl, addEffect_ok hb hp k i name hk hi0 hi hidx hno hno,
          fun _ => ⟨addShape_ok hb hp k i name hk hi0 hi hgrow0 hcont0 hfirst,
            addEntries_ok hb hp k i name hk hi0 hi hcontE0 hfirst hidx⟩⟩

/-! ## Path resolution on a well-formed volume -/

theorem findFirstFreeInode_ok {dev : Device} {i : Nat} (h : findFirstFreeInode dev = .ok i) :
    i < 64 ∧ (getInode dev i).addr = 0 := by
  unfold findFirstFreeInode at h
  cases hf : (List.range INODE_AMOUNT).find? (fun i => decide ((getInode dev i).addr = 0)) with
  | none => rw [hf] at h; cases h
  | some j =>
    rw [hf] at h
    simp only [Except.ok.injEq] at h
    subst h
    have h1 := List.mem_of_find?_eq_some hf
    have h2 := List.find?_some hf
    simp only [List.mem_range, INODE_AMOUNT_eq] at h1
    exact ⟨h1, by simpa using h2⟩

theorem findFirstFreeInode_cases (dev : Device) :
    findFirstFreeInode dev = .error .noFreeInodes ∨ ∃ i, findFirstFreeInode dev = .ok i := by
  unfold findFirstFreeInode
  cases (List.range INODE_AMOUNT).find? (fun i => decide ((getInode dev i).addr = 0)) with
  | none => exact Or.inl rfl
  | some j => exact Or.inr ⟨j, rfl⟩

theorem findFile_congr (dev dev' : Device) (a sz : Nat) (c : List Byte) (h11 : sz % 11 = 0)
    (hsz : a + sz < 4294967296) (h : ∀ x, a ≤ x → x < a + sz → dev' x = dev x) :
    findFileInDirectory dev' a sz c = findFileInDirectory dev a sz c := by
  have hread : ∀ s ∈ slotAddrs a sz, readDirEntry dev' s = readDirEntry dev s := by
    intro s hs
    obtain ⟨k, hk, rfl⟩ := (mem_slotAddrs h11 hsz s).1 hs
    apply readDirEntry_congr
    intro x h1 h2
    exact h x (by omega) (by omega)
  have hfind : (slotAddrs a sz).find? (fun i => strncmpEq NAME_SIZE (readDirEntry dev' i).name c)
      = (slotAddrs a sz).find? (fun i => strncmpEq NAME_SIZE (readDirEntry dev i).name c) := by
    apply find_congr_mem
    intro s hs
    simp only [hread s hs]
  unfold findFileInDirectory
  rw [hfind]
  cases hf : (slotAddrs a sz).find?
      (fun i => strncmpEq NAME_SIZE (readDirEntry dev i).name c) with
  | none => rfl
  | some s =>
    simp only
    rw [hread s (List.mem_of_find?_eq_some hf)]

/-- A successful lookup in the content of an inode of a well-formed volume:
the inode is allocated and the index found is below 64. -/
theorem lookup_lt (dev : Device) (hwf : WellFormed dev) (X : Nat) (hX : X < 64)
    (c : List Byte) (y : Nat)
    (h : findFileInDirectory dev (getInode dev X).addr (getInode dev X).size c = .ok y) :
    y < 64 ∧ isAllocated dev X := by
  rw [findFile_ok_iff] at h
  obtain ⟨s, hs, hy⟩ := h
  have hmem := List.mem_of_find?_eq_some hs
  by_cases h0 : (getInode dev X).addr = 0
  · rw [h0, (hwf.unused_zero X hX h0).1, slotAddrs_zero] at hmem
    cases hmem
  · by_cases hu : (getInode dev X).addr = UINT32_MAX
    · rw [hu, slotAddrs_unallocated] at hmem
      cases hmem
    · have hal : isAllocated dev X := ⟨h0, hu⟩
      have hext := hwf.extent X hX hal
      have hDS : DEVICE_SIZE = 1048576 := rfl
      obtain ⟨k, hk, rfl⟩ := (mem_slotAddrs hext.2.2.2 (by omega) s).1 hmem
      refine ⟨?_, hal⟩
      rw [← hy]
      exact (hwf.slots X hX hal k hk).1

theorem walkPath_lt (dev : Device) (hwf : WellFormed dev) (fn : List Byte)
    (names : List (List Byte)) : ∀ (idx r : Nat), idx < 64 →
    walkPath dev fn names idx = .ok r → r < 64 := by
  induction names with
  | nil =>
    intro idx r hidx h
    simp only [walkPath, Except.ok.injEq] at h
    omega
  | cons c cs ih =>
    intro idx r hidx h
    simp only [walkPath] at h
    split_ifs at h with hc
    cases hf : findFileInDirectory dev (getInode dev idx).addr (getInode dev idx).size c with
    | error e => rw [hf] at h; cases h
    | ok y =>
      rw [hf] at h
      exact ih y r (lookup_lt dev hwf idx hidx c y hf).1 h

theorem getInodeIndexFromPath_lt (dev : Device) (hwf : WellFormed dev) (path : List Byte)
    (r : Nat) (h : getInodeIndexFromPath dev path = .ok r) : r < 64 := by
  unfold getInodeIndexFromPath at h
  split_ifs at h with h1 h2
  · simp only [BASEDIR_INODE_INDEX, Except.ok.injEq] at h
    omega
  · cases hs : splitPath path with
    | error e => rw [hs] at h; cases h
    | ok names =>
      rw [hs] at h
      exact walkPath_lt dev hwf _ names 0 r (by omega) h
  · exact (lookup_lt dev hwf 0 (by omega) _ r h).1

theorem walkPath_kept (dev dev' : Device) (hwf : WellFormed dev) (hk : LookupsKept dev dev')
    (fn : List Byte) (names : List (List Byte)) (hn : ∀ c ∈ names, nameKey c ≠ []) :
    ∀ (idx r : Nat), idx < 64 → walkPath dev fn names idx = .ok r →
      walkPath dev' fn names idx = .ok r := by
  induction names with
  | nil => intro idx r _ h; exact h
  | cons c cs ih =>
    intro idx r hidx h
    simp only [walkPath] at h ⊢
    split_ifs at h with hc
    cases hf : findFileInDirectory dev (getInode dev idx).addr (getInode dev idx).size c with
    | error e => rw [hf] at h; cases h
    | ok y =>
      rw [hf] at h
      obtain ⟨k1, k2⟩ := hk idx hidx c y (hn c (List.mem_cons_self _ _)) hf
      rw [k2, if_neg hc, k1]
      exact ih (fun c' hc' => hn c' (List.mem_cons_of_mem _ hc')) y r
        (lookup_lt dev hwf idx hidx c y hf).1 h

/-! ## `create_file` keeps the volume well formed -/

theorem wellFormed_addFrame {dev dev' : Device} {p : Nat} (hwf : WellFormed dev)
    (hf : AddFrame dev p dev') (hp : p < 64) (hcap : InCapacity dev') : WellFormed dev' := by
  have hM : MEM_START = 775 := rfl
  have hI : INT32_MAX = 2147483647 := rfl
  have hU : UINT32_MAX = 4294967295 := rfl
  have hpl := hf.place
  have hpa : isAllocated dev' p := ⟨by omega, by omega⟩
  have hal : ∀ j, j < 64 → j ≠ p → isAllocated dev' j → isAllocated dev j := by
    intro j hj hjp h
    unfold isAllocated at h ⊢
    rw [hf.others j hj hjp] at h
    exact h
  refine ⟨?_, ?_, ?_, ?_, ?_⟩
  · by_cases h0 : p = 0
    · subst h0
      exact ⟨by omega, hf.is_dir⟩
    · rw [hf.others 0 (by omega) (fun h => h0 h.symm)]
      exact hwf.root_dir
  · intro i hi h
    by_cases hip : i = p
    · subst hip; omega
    · rw [hf.others i hi hip] at h ⊢
      exact hwf.unused_zero i hi h
  · intro i hi h
    by_cases hip : i = p
    · subst hip
      exact ⟨hpl.1, hcap i hi h, hpl.2.2.1, hpl.2.2.2⟩
    · have h2 := hal i hi hip h
      rw [hf.others i hi hip]
      exact hwf.extent i hi h2
  · intro i j hi hj hij hai haj
    by_cases hip : i = p
    · subst hip
      have h2 := hal j hj (fun h => hij h.symm) haj
      rw [hf.others j hj (fun h => hij h.symm)]
      exact hf.fresh j hj (fun h => hij h.symm) h2
    · by_cases hjp : j = p
      · subst hjp
        have h2 := hal i hi hip hai
        rw [hf.others i hi hip]
        exact (hf.fresh i hi hip h2).symm
      · rw [hf.others i hi hip, hf.others j hj hjp]
        exact hwf.disjoint i j hi hj hij (hal i hi hip hai) (hal j hj hjp haj)
  · intro i hi h k hk
    by_cases hip : i = p
    · subst hip
      exact hf.slots k hk
    · have h2 := hal i hi hip h
      have hext := hwf.extent i hi h2
      have hfr := hf.fresh i hi hip h2
      rw [hf.others i hi hip] at hk ⊢
      rw [hf.frame _ (by omega) (by omega), hf.frame _ (by omega) (by omega)]
      exact hwf.slots i hi h2 k hk

theorem wellFormed_setInode {dev : Device} (hwf : WellFormed dev) (i : Nat) (hi : i < 64)
    (h0 : (getInode dev i).addr = 0) (d : Bool) :
    WellFormed (setInode dev i ⟨UINT32_MAX, 0, d⟩) := by
  have hU : UINT32_MAX = 4294967295 := rfl
  have hM : MEM_START = 775 := rfl
  have hi0 : i ≠ 0 := by
    rintro rfl
    exact hwf.root_dir.1 h0
  have hsame : getInode (setInode dev i ⟨UINT32_MAX, 0, d⟩) i = ⟨UINT32_MAX, 0, d⟩ :=
    getInode_setInode_same dev i _ (by simp only [hU]; omega) (by simp only; omega)
  have hne : ∀ j, j ≠ i → getInode (setInode dev i ⟨UINT32_MAX, 0, d⟩) j = getInode dev j :=
    fun j hj => getInode_setInode_ne dev i j _ (fun h => hj h.symm)
  have hal : ∀ j, isAllocated (setInode dev i ⟨UINT32_MAX, 0, d⟩) j →
      j ≠ i ∧ isAllocated dev j := by
    intro j h
    by_cases hji : j = i
    · subst hji
      unfold isAllocated at h
      rw [hsame] at h
      exact absurd rfl h.2
    · unfold isAllocated at h ⊢
      rw [hne j hji] at h
      exact ⟨hji, h⟩
  refine ⟨?_, ?_, ?_, ?_, ?_⟩
  · rw [hne 0 (fun h => hi0 h.symm)]
    exact hwf.root_dir
  · intro j hj h
    by_cases hji : j = i
    · subst hji
      rw [hsame] at h
      simp only [hU] at h
      omega
    · rw [hne j hji] at h ⊢
      exact hwf.unused_zero j hj h
  · intro j hj h
    obtain ⟨hji, h2⟩ := hal j h
    rw [hne j hji]
    exact hwf.extent j hj h2
  · intro j k hj hk hjk haj hak
    obtain ⟨hji, h2⟩ := hal j haj
    obtain ⟨hki, h3⟩ := hal k hak
    rw [hne j hji, hne k hki]
    exact hwf.disjoint j k hj hk hjk h2 h3
  · intro j hj h k hk
    obtain ⟨hji, h2⟩ := hal j h
    have hext := hwf.extent j hj h2
    rw [hne j hji] at hk ⊢
    rw [setInode_data dev i _ _ hi (by omega), setInode_data dev i _ _ hi (by omega)]
    exact hwf.slots j hj h2 k hk

theorem inCapacity_of_setInode {dev : Device} (i : Nat) (h0 : ¬ isAllocated dev i) (e : inode_entry)
    (hcap : InCapacity (setInode dev i e)) : InCapacity dev := by
  intro j hj h
  have hji : j ≠ i := by
    rintro rfl
    exact h0 h
  have hne := getInode_setInode_ne dev i j e (fun h => hji h.symm)
  have := hcap j hj (by unfold isAllocated; rw [hne]; exact h)
  rw [hne] at this
  exact this

/-- A directory inode of a well-formed volume is in use. -/
theorem dir_used {dev : Device} (hwf : WellFormed dev) (p : Nat) (hp : p < 64)
    (hdir : (getInode dev p).is_dir = true) : (getInode dev p).addr ≠ 0 := by
  intro h0
  have := (hwf.unused_zero p hp h0).2
  rw [hdir] at this
  cases this

/-- The call `create_file(path, directory)` on a well-formed volume, once an
unused inode `i` is found and the parent path resolves to the directory `p`:
`addToDirectory` returns or throws 'already exists', and only on a return is
the inode `i` written. -/
theorem create_file_dir (dev : Device) (hwf : WellFormed dev) (path : List Byte) (d : Bool)
    (i p : Nat) (hfree : findFirstFreeInode dev = .ok i)
    (hpar : getInodeIndexFromPath dev (removeFileNameFromPath path) = .ok p)
    (hdir : (getInode dev p).is_dir = true) :
    ∃ r devA, AddEffect dev p (getFileNameFromPath path) r devA ∧
      ((r = .ok () ∧ create_file dev path d = some (.ok (), setInode devA i ⟨UINT32_MAX, 0, d⟩)) ∨
        (r = .error .alreadyExists ∧
          create_file dev path d = some (.error .alreadyExists, devA))) ∧
      (PrefixLive dev p →
        AddShape dev p i r devA ∧ AddEntries dev p i (getFileNameFromPath path) r devA) := by
  obtain ⟨hi, hi0⟩ := findFirstFreeInode_ok hfree
  have hp := getInodeIndexFromPath_lt dev hwf _ p hpar
  have hipos : 0 < i := by
    rcases Nat.eq_zero_or_pos i with h | h
    · subst h
      exact absurd hi0 hwf.root_dir.1
    · exact h
  obtain ⟨r, devA, hadd, heff, hshape⟩ := addToDirectory_spec dev hwf p i hp hipos hi
    (getFileNameFromPath path) hdir (dir_used hwf p hp hdir)
  refine ⟨r, devA, heff, ?_, hshape⟩
  unfold create_file
  simp only [hfree, hpar, hadd]
  rcases heff.result with h | h
  · subst h
    exact Or.inl ⟨rfl, rfl⟩
  · subst h
    exact Or.inr ⟨rfl, rfl⟩

theorem create_file_wellFormed (dev : Device) (hwf : WellFormed dev) (path : List Byte)
    (d : Bool) (r : Except FsError Unit) (dev' : Device)
    (h : create_file dev path d = some (r, dev')) (hcap : InCapacity dev') : WellFormed dev' := by
  rcases findFirstFreeInode_cases dev with hfree | ⟨i, hfree⟩
  · unfold create_file at h
    simp only [hfree, Option.some.injEq, Prod.mk.injEq] at h
    rw [← h.2]
    exact hwf
  · cases hpar : getInodeIndexFromPath dev (removeFileNameFromPath path) with
    | error e =>
      unfold create_file at h
      simp only [hfree, hpar, Option.some.injEq, Prod.mk.injEq] at h
      rw [← h.2]
      exact hwf
    | ok p =>
      have hp := getInodeIndexFromPath_lt dev hwf _ p hpar
      obtain ⟨hi, hi0⟩ := findFirstFreeInode_ok hfree
      cases hdir : (getInode dev p).is_dir with
      | false =>
        unfold create_file at h
        have h256 : p % 256 = p := by omega
        simp only [hfree, hpar, addToDirectory, h256, hdir, if_true, Option.some.injEq,
          Prod.mk.injEq] at h
        rw [← h.2]
        exact hwf
      | true =>
        obtain ⟨r2, devA, heff, hc, -⟩ := create_file_dir dev hwf path d i p hfree hpar hdir
        have hip : i ≠ p := by
          rintro rfl
          exact dir_used hwf i hp hdir hi0
        have hiA : (getInode devA i).addr = 0 := by
          rw [heff.frame.others i hi hip]
          exact hi0
        rcases hc with ⟨_, hc⟩ | ⟨_, hc⟩
        · rw [hc] at h
          simp only [Option.some.injEq, Prod.mk.injEq] at h
          rw [← h.2] at hcap ⊢
          have hcapA := inCapacity_of_setInode i (fun hh => hh.1 hiA) _ hcap
          exact wellFormed_setInode (wellFormed_addFrame hwf heff.frame hp hcapA) i hi hiA d
        · rw [hc] at h
          simp only [Option.some.injEq, Prod.mk.injEq] at h
          rw [← h.2] at hcap ⊢
          exact wellFormed_addFrame hwf heff.frame hp hcap

theorem wellFormed_format (dev : Device) : WellFormed (format dev) := by
  have hroot := getInode_format_root dev
  have hother : ∀ i, i < 64 → i ≠ 0 → getInode (format dev) i = ⟨0, 0, false⟩ := by
    intro i hi hi0
    have hz : ∀ k, k < 9 → format dev (5 + 1 + i * 12 + k) = 0 := by
      intro k hk
      rw [format_apply, if_neg (by omega), if_neg (by omega), if_pos (by omega)]
    have h0 : format dev (5 + 1 + i * 12) = 0 := hz 0 (by omega)
    simp only [getInode, INODE_TABLE_START, sizeof_myfs_header, sizeof_inode_entry, le32, h0,
      hz 1 (by omega), hz 2 (by omega), hz 3 (by omega), hz 4 (by omega), hz 5 (by omega),
      hz 6 (by omega), hz 7 (by omega), hz 8 (by omega)]
    rfl
  have hal : ∀ i, i < 64 → isAllocated (format dev) i → i = 0 := by
    intro i hi h
    by_contra hne
    unfold isAllocated at h
    rw [hother i hi hne] at h
    exact h.1 rfl
  refine ⟨?_, ?_, ?_, ?_, ?_⟩
  · rw [hroot]; exact ⟨by decide, rfl⟩
  · intro i hi h
    by_cases h0 : i = 0
    · subst h0
      rw [hroot] at h
      cases h
    · rw [hother i hi h0]; exact ⟨rfl, rfl⟩
  · intro i hi h
    have := hal i hi h
    subst this
    rw [hroot]
    decide
  · intro i j hi hj hij hai haj
    have h1 := hal i hi hai
    have h2 := hal j hj haj
    omega
  · intro i hi h k hk
    have := hal i hi h
    subst this
    rw [hroot] at hk ⊢
    simp only at hk ⊢
    have hz : ∀ x, 775 ≤ x → x < 819 → format dev x = 0 := by
      intro x h1 h2
      rw [format_apply, if_pos ⟨h1, h2⟩]
    rw [hz _ (by omega) (by omega), hz _ (by omega) (by omega)]
    exact ⟨by decide, fun _ => rfl⟩


/-! ## Paths without NUL bytes and the lookups that `create_file` keeps -/

theorem nameKey_ne_nil (c : List Byte) (hc : c ≠ []) (h0 : (0 : Byte) ∉ c) : nameKey c ≠ [] := by
  have ht : c.takeWhile (fun x => decide (x ≠ 0)) = c := by
    rw [List.takeWhile_eq_self_iff]
    intro x hx
    have : x ≠ 0 := fun h => h0 (h ▸ hx)
    simpa using this
  unfold nameKey
  rw [ht]
  cases c with
  | nil => exact absurd rfl hc
  | cons x xs => simp [NAME_SIZE]

theorem mem_capFileName (c : List Byte) (x : Byte) (h : x ∈ capFileName c) : x ∈ c := by
  unfold capFileName at h
  split_ifs at h
  · exact List.mem_of_mem_take h
  · exact h

theorem capFileName_ne_nil (c : List Byte) (hc : c ≠ []) : capFileName c ≠ [] := by
  unfold capFileName
  split_ifs
  · cases c with
    | nil => exact absurd rfl hc
    | cons x xs => simp [NAME_SIZE]
  · exact hc

theorem mem_pathPieces (path : List Byte) :
    ∀ piece ∈ pathPieces path, ∀ x ∈ piece, x ∈ path := by
  induction path with
  | nil =>
    intro piece hp x hx
    simp only [pathPieces, List.mem_singleton] at hp
    subst hp
    cases hx
  | cons c cs ih =>
    intro piece hp x hx
    rw [pathPieces] at hp
    split_ifs at hp with hc
    · rcases List.mem_cons.1 hp with h | h
      · subst h; cases hx
      · exact List.mem_cons_of_mem _ (ih piece h x hx)
    · cases hpp : pathPieces cs with
      | nil =>
        rw [hpp] at hp
        simp only [List.mem_singleton] at hp
        subst hp
        simp only [List.mem_singleton] at hx
        subst hx
        exact List.mem_cons_self _ _
      | cons s ss =>
        rw [hpp] at hp ih
        simp only [List.mem_cons] at hp
        rcases hp with h | h
        · subst h
          rcases List.mem_cons.1 hx with h2 | h2
          · subst h2; exact List.mem_cons_self _ _
          · exact List.mem_cons_of_mem _ (ih s (List.mem_cons_self _ _) x h2)
        · exact List.mem_cons_of_mem _ (ih piece (List.mem_cons_of_mem _ h) x hx)

theorem splitPath_keys (path : List Byte) (names : List (List Byte)) (h0 : (0 : Byte) ∉ path)
    (h : splitPath path = .ok names) : ∀ c ∈ names, nameKey c ≠ [] := by
  unfold splitPath at h
  split_ifs at h
  simp only [Except.ok.injEq] at h
  subst h
  intro c hc
  simp only [List.mem_map, List.mem_filter] at hc
  obtain ⟨piece, ⟨hp, hne⟩, rfl⟩ := hc
  have hne2 : piece ≠ [] := by
    have := of_decide_eq_true hne
    exact this.1
  apply nameKey_ne_nil _ (capFileName_ne_nil piece hne2)
  intro hmem
  exact h0 (mem_pathPieces path piece hp 0 (mem_capFileName piece 0 hmem))

theorem mem_removeFileNameFromPath (path : List Byte) (x : Byte)
    (h : x ∈ removeFileNameFromPath path) : x ∈ path := by
  unfold removeFileNameFromPath at h
  by_cases hd : PATH_DELIMITER ∉ path
  · rw [if_pos hd] at h
    cases h
  · rw [if_neg hd] at h
    unfold beforeLastDelimiter at h
    rw [List.mem_reverse] at h
    have h2 := List.mem_of_mem_tail h
    have h3 := (List.dropWhile_sublist _).subset h2
    exact List.mem_reverse.1 h3

theorem mem_getFileNameFromPath (path : List Byte) (x : Byte)
    (h : x ∈ getFileNameFromPath path) : x ∈ path := by
  unfold getFileNameFromPath at h
  by_cases hd : PATH_DELIMITER ∉ path
  · rw [if_pos hd] at h
    exact mem_capFileName _ _ h
  · rw [if_neg hd] at h
    have h1 := mem_capFileName _ _ h
    unfold afterLastDelimiter at h1
    rw [List.mem_reverse] at h1
    have h3 := (List.takeWhile_sublist _).subset h1
    exact List.mem_reverse.1 h3

theorem getInodeIndexFromPath_kept (dev dev' : Device) (hwf : WellFormed dev)
    (hk : LookupsKept dev dev') (path : List Byte) (h0 : (0 : Byte) ∉ path) (r : Nat)
    (h : getInodeIndexFromPath dev path = .ok r) : getInodeIndexFromPath dev' path = .ok r := by
  unfold getInodeIndexFromPath at h ⊢
  by_cases h1 : path = [] ∨ path = [46]
  · rw [if_pos h1] at h ⊢
    exact h
  · rw [if_neg h1] at h ⊢
    by_cases h2 : PATH_DELIMITER ∉ path
    · rw [if_pos h2] at h ⊢
      have hne : path ≠ [] := fun hh => h1 (Or.inl hh)
      have hkey : nameKey (capFileName path) ≠ [] :=
        nameKey_ne_nil _ (capFileName_ne_nil path hne) (fun hm => h0 (mem_capFileName _ _ hm))
      exact (hk BASEDIR_INODE_INDEX (by decide) _ r hkey h).1
    · rw [if_neg h2] at h ⊢
      cases hs : splitPath path with
      | error e => rw [hs] at h; cases h
      | ok names =>
        rw [hs] at h
        exact walkPath_kept dev dev' hwf hk _ names (splitPath_keys path names h0 hs)
          BASEDIR_INODE_INDEX r (by decide) h

theorem findFile_notFound (dev : Device) (a sz : Nat) (c : List Byte)
    (h : findFileInDirectory dev a sz c = .error .notFound) :
    ∀ s ∈ slotAddrs a sz, matchAt dev c s = false := by
  unfold findFileInDirectory at h
  cases hf : (slotAddrs a sz).find?
      (fun i => strncmpEq NAME_SIZE (readDirEntry dev i).name c) with
  | some s => rw [hf] at h; cases h
  | none =>
    intro s hs
    have := List.find?_eq_none.1 hf s hs
    simpa [matchAt] using this

/-- The slots of an allocated extent lie in the data region. -/
theorem slot_ge {a sz : Nat} (h11 : sz % 11 = 0) (hsz : a + sz < 4294967296) (s : Nat)
    (hs : s ∈ slotAddrs a sz) : a ≤ s ∧ s + 11 ≤ a + sz := by
  obtain ⟨k, hk, rfl⟩ := (mem_slotAddrs h11 hsz s).1 hs
  omega

/-- After a successful `create_file` that put the inode `i` into the directory
`p`, a directory other than `p` and `i` holds what it held. -/
theorem other_dir_kept {dev devA : Device} {p : Nat} (hwf : WellFormed dev)
    (hf : AddFrame dev p devA) (i : Nat) (hi : i < 64) (e : inode_entry) (X : Nat) (hX : X < 64)
    (hXp : X ≠ p) (hXi : X ≠ i) :
    getInode (setInode devA i e) X = getInode dev X ∧
      ∀ s, s ∈ slotAddrs (getInode dev X).addr (getInode dev X).size →
        readDirEntry (setInode devA i e) s = readDirEntry dev s := by
  have hM : MEM_START = 775 := rfl
  have hDS : DEVICE_SIZE = 1048576 := rfl
  have hino : getInode (setInode devA i e) X = getInode dev X := by
    rw [getInode_setInode_ne devA i X e (fun h => hXi h.symm), hf.others X hX hXp]
  refine ⟨hino, ?_⟩
  intro s hs
  by_cases h0 : (getInode dev X).addr = 0
  · rw [h0, (hwf.unused_zero X hX h0).1, slotAddrs_zero] at hs
    cases hs
  · by_cases hu : (getInode dev X).addr = UINT32_MAX
    · rw [hu, slotAddrs_unallocated] at hs
      cases hs
    · have hal : isAllocated dev X := ⟨h0, hu⟩
      have hext := hwf.extent X hX hal
      have hfr := hf.fresh X hX hXp hal
      have hsl := slot_ge hext.2.2.2 (by omega) s hs
      apply readDirEntry_congr
      intro x h1 h2
      rw [setInode_data devA i e x hi (by omega)]
      exact hf.frame x (by omega) (by omega)

theorem lookupsKept_create {dev devA : Device} {p : Nat} {name : List Byte}
    (hwf : WellFormed dev) (hp : p < 64) (hdir : (getInode dev p).is_dir = true)
    (heff : AddEffect dev p name (.ok ()) devA) (i : Nat) (hi : i < 64)
    (hi0 : (getInode dev i).addr = 0) (e : inode_entry) :
    LookupsKept dev (setInode devA i e) := by
  have hM : MEM_START = 775 := rfl
  have hI : INT32_MAX = 2147483647 := rfl
  intro X hX c y hkey hfind
  have hal := (lookup_lt dev hwf X hX c y hfind).2
  have hXi : X ≠ i := by
    rintro rfl
    exact hal.1 hi0
  by_cases hXp : X = p
  · subst hXp
    have hino : getInode (setInode devA i e) X = getInode devA X :=
      getInode_setInode_ne devA i X e (fun h => hXi h.symm)
    have hpl := heff.frame.place
    rw [hino]
    refine ⟨?_, by rw [heff.frame.is_dir, hdir]⟩
    rw [findFile_congr devA (setInode devA i e) _ _ c hpl.2.2.2 (by omega)
      (fun x h1 _ => setInode_data devA i e x hi (by omega))]
    exact heff.lookups rfl c y hkey hfind
  · obtain ⟨hino, hrd⟩ := other_dir_kept hwf heff.frame i hi e X hX hXp hXi
    rw [hino]
    refine ⟨?_, rfl⟩
    rw [← hfind]
    unfold findFileInDirectory
    have hfe : (slotAddrs (getInode dev X).addr (getInode dev X).size).find?
        (fun t => strncmpEq NAME_SIZE (readDirEntry (setInode devA i e) t).name c) =
        (slotAddrs (getInode dev X).addr (getInode dev X).size).find?
        (fun t => strncmpEq NAME_SIZE (readDirEntry dev t).name c) := by
      apply find_congr_mem
      intro s hs
      simp only [hrd s hs]
    rw [hfe]
    cases hf : (slotAddrs (getInode dev X).addr (getInode dev X).size).find?
        (fun t => strncmpEq NAME_SIZE (readDirEntry dev t).name c) with
    | none => rfl
    | some s =>
      simp only
      rw [hrd s (List.mem_of_find?_eq_some hf)]

/-- What a returning `create_file` has done on a well-formed volume. -/
theorem create_file_ok_inv (dev : Device) (hwf : WellFormed dev) (path : List Byte) (d : Bool)
    (dev' : Device) (h : create_file dev path d = some (.ok (), dev')) :
    ∃ i p devA, findFirstFreeInode dev = .ok i ∧
      getInodeIndexFromPath dev (removeFileNameFromPath path) = .ok p ∧
      (getInode dev p).is_dir = true ∧
      AddEffect dev p (getFileNameFromPath path) (.ok ()) devA ∧
      dev' = setInode devA i ⟨UINT32_MAX, 0, d⟩ := by
  rcases findFirstFreeInode_cases dev with hfree | ⟨i, hfree⟩
  · unfold create_file at h
    simp only [hfree, Option.some.injEq, Prod.mk.injEq] at h
    cases h.1
  · cases hpar : getInodeIndexFromPath dev (removeFileNameFromPath path) with
    | error e =>
      unfold create_file at h
      simp only [hfree, hpar, Option.some.injEq, Prod.mk.injEq] at h
      cases h.1
    | ok p =>
      have hp := getInodeIndexFromPath_lt dev hwf _ p hpar
      cases hdir : (getInode dev p).is_dir with
      | false =>
        unfold create_file at h
        have h256 : p % 256 = p := by omega
        simp only [hfree, hpar, addToDirectory, h256, hdir, if_true, Option.some.injEq,
          Prod.mk.injEq] at h
        cases h.1
      | true =>
        obtain ⟨r2, devA, heff, hc, -⟩ := create_file_dir dev hwf path d i p hfree hpar hdir
        rcases hc with ⟨hr, hc⟩ | ⟨hr, hc⟩
        · subst hr
          rw [hc] at h
          simp only [Option.some.injEq, Prod.mk.injEq, true_and] at h
          exact ⟨i, p, devA, hfree, rfl, hdir, heff, h.symm⟩
        · rw [hc] at h
          simp only [Option.some.injEq, Prod.mk.injEq] at h
          cases h.1

/-! ## The room that directories take -/

theorem sum_range_update (f g : Nat → Nat) (p δ : Nat) : ∀ n, p < n →
    (∀ j, j < n → j ≠ p → g j = f j) → g p = f p + δ →
    ((List.range n).map g).sum = ((List.range n).map f).sum + δ := by
  intro n
  induction n with
  | zero => intro h; omega
  | succ n ih =>
    intro hp hother hat
    rw [List.range_succ, List.map_append, List.map_append, List.sum_append, List.sum_append]
    simp only [List.map_cons, List.map_nil, List.sum_cons, List.sum_nil, Nat.add_zero]
    by_cases hpn : p = n
    · subst hpn
      have hsame : (List.range p).map g = (List.range p).map f := by
        apply List.map_congr_left
        intro j hj
        rw [List.mem_range] at hj
        exact hother j (by omega) (by omega)
      rw [hsame, hat]
      omega
    · rw [ih (by omega) (fun j hj hjp => hother j (by omega) hjp) hat,
        hother n (by omega) (fun h => hpn h.symm)]
      omega

theorem sum_range_congr (f g : Nat → Nat) (n : Nat) (h : ∀ j, j < n → g j = f j) :
    ((List.range n).map g).sum = ((List.range n).map f).sum := by
  have : (List.range n).map g = (List.range n).map f := by
    apply List.map_congr_left
    intro j hj
    rw [List.mem_range] at hj
    exact h j hj
  rw [this]

theorem sum_range_le (f : Nat → Nat) (c : Nat) : ∀ n, (∀ j, j < n → f j ≤ c) →
    ((List.range n).map f).sum ≤ n * c := by
  intro n
  induction n with
  | zero => intro _; simp
  | succ n ih =>
    intro h
    rw [List.range_succ, List.map_append, List.sum_append]
    simp only [List.map_cons, List.map_nil, List.sum_cons, List.sum_nil, Nat.add_zero]
    have h1 := ih (fun j hj => h j (by omega))
    have h2 := h n (by omega)
    rw [Nat.succ_mul]
    omega

theorem term_le_sum_range (f : Nat → Nat) (p : Nat) : ∀ n, p < n →
    f p ≤ ((List.range n).map f).sum := by
  intro n
  induction n with
  | zero => intro h; omega
  | succ n ih =>
    intro hp
    rw [List.range_succ, List.map_append, List.sum_append]
    simp only [List.map_cons, List.map_nil, List.sum_cons, List.sum_nil, Nat.add_zero]
    by_cases hpn : p = n
    · subst hpn; omega
    · have := ih (by omega)
      omega

/-- Different indices between 1 and 63 are at most 63. -/
theorem taken_le (f : Nat → Nat) (m : Nat) (hr : ∀ k, k < m → 0 < f k ∧ f k < 64)
    (hinj : ∀ k k', k < m → k' < m → f k = f k' → k = k') : m ≤ 63 := by
  have h := Finset.card_le_card_of_injOn f
    (fun k hk => by
      have hk' : k < m := Finset.mem_range.1 (Finset.mem_coe.1 hk)
      have := hr k hk'
      exact Finset.mem_coe.2 (Finset.mem_Icc.2 ⟨by omega, by omega⟩))
    (fun k hk k' hk' hkk => hinj k k' (Finset.mem_range.1 (Finset.mem_coe.1 hk))
      (Finset.mem_range.1 (Finset.mem_coe.1 hk')) hkk)
    (s := Finset.range m) (t := Finset.Icc 1 63)
  simpa using h

theorem extentWeight_grow (s : Nat) (h : s % 44 = 0) :
    extentWeight (s + 44) = extentWeight s + s + 45 := by
  obtain ⟨k, rfl⟩ : ∃ k, s = 44 * k := ⟨s / 44, by omega⟩
  have e1 : (44 * k + 44) / 44 = k + 1 := by omega
  have e2 : 44 * k / 44 = k := by omega
  unfold extentWeight
  rw [e1, e2]
  ring

theorem extentWeight_le (s : Nat) (h : s ≤ 704) : extentWeight s ≤ 6000 := by
  unfold extentWeight
  have hk : s / 44 ≤ 16 := by omega
  calc s / 44 * (22 * (s / 44) + 23) ≤ 16 * (22 * 16 + 23) :=
        Nat.mul_le_mul hk (by omega)
    _ = 6000 := by norm_num

theorem potential_le (dev : Device)
    (hsmall : ∀ j, j < 64 → isAllocated dev j → (getInode dev j).size ≤ 704) :
    potential dev ≤ 384775 := by
  unfold potential
  have := sum_range_le (inodeWeight dev) 6000 64 (by
    intro j hj
    unfold inodeWeight
    split_ifs with h
    · exact extentWeight_le _ (hsmall j hj h)
    · omega)
  have hM : MEM_START = 775 := rfl
  omega

theorem weight_le_potential (dev : Device) (j : Nat) (hj : j < 64) :
    MEM_START + inodeWeight dev j ≤ potential dev := by
  unfold potential
  have := term_le_sum_range (inodeWeight dev) j 64 hj
  omega

/-! ## `create_file` keeps the directories tidy -/

theorem extentWeight_zero : extentWeight 0 = 0 := rfl

theorem inodeWeight_congr (dev dev' : Device) (j : Nat) (h : getInode dev' j = getInode dev j) :
    inodeWeight dev' j = inodeWeight dev j := by
  unfold inodeWeight isAllocated
  simp only [h]

/-- The weight of a directory inode in use is that of its base size. -/
theorem inodeWeight_base (dev : Device) (p : Nat) (hpu : (getInode dev p).addr ≠ 0) :
    inodeWeight dev p = extentWeight (dirBaseSize dev p) := by
  unfold inodeWeight dirBaseSize isAllocated
  by_cases hu : (getInode dev p).addr = UINT32_MAX
  · rw [if_neg (fun h => h.2 hu), if_pos hu, extentWeight_zero]
  · rw [if_pos ⟨hpu, hu⟩, if_neg hu]

theorem step_ne {dev devA dev' : Device} {p i : Nat} {r : Except FsError Unit}
    (s : CreateStep dev devA dev' p i r) : i ≠ p := by
  rintro rfl
  exact s.used s.unused

theorem step_inode_p {dev devA dev' : Device} {p i : Nat} {r : Except FsError Unit}
    (s : CreateStep dev devA dev' p i r) : getInode dev' p = getInode devA p :=
  s.inodes p (fun h => step_ne s h.symm)

theorem step_other {dev devA dev' : Device} {p i : Nat} {r : Except FsError Unit}
    (s : CreateStep dev devA dev' p i r) (j : Nat) (hj : j < 64) (hjp : j ≠ p) (hji : j ≠ i) :
    getInode dev' j = getInode dev j := by
  rw [s.inodes j hji, s.frame.others j hj hjp]

theorem step_unalloc {dev devA dev' : Device} {p i : Nat} {r : Except FsError Unit}
    (s : CreateStep dev devA dev' p i r) : ¬ isAllocated dev' i := by
  intro h
  rcases s.inode with ⟨-, h2⟩ | ⟨-, h2⟩
  · exact h.2 h2
  · rw [isAllocated, h2, s.frame.others i s.hi (step_ne s)] at h
    exact h.1 s.unused

theorem step_alloc_p {dev devA dev' : Device} {p i : Nat} {r : Except FsError Unit}
    (s : CreateStep dev devA dev' p i r) : isAllocated dev' p := by
  have hM : MEM_START = 775 := rfl
  have hI : INT32_MAX = 2147483647 := rfl
  have hU : UINT32_MAX = 4294967295 := rfl
  have := s.frame.place
  rw [isAllocated, step_inode_p s]
  exact ⟨by omega, by omega⟩

theorem step_alloc {dev devA dev' : Device} {p i : Nat} {r : Except FsError Unit}
    (s : CreateStep dev devA dev' p i r) (j : Nat) (hj : j < 64) (hjp : j ≠ p)
    (h : isAllocated dev' j) :
    j ≠ i ∧ isAllocated dev j ∧ getInode dev' j = getInode dev j := by
  have hji : j ≠ i := by
    rintro rfl
    exact step_unalloc s h
  have he := step_other s j hj hjp hji
  refine ⟨hji, ?_, he⟩
  rw [isAllocated, he] at h
  exact h

theorem step_slot_p {dev devA dev' : Device} {p i : Nat} {r : Except FsError Unit}
    (s : CreateStep dev devA dev' p i r) (k : Nat) :
    slotIndex dev' p k = slotIndex devA p k := by
  have hM : MEM_START = 775 := rfl
  have := s.frame.place
  unfold slotIndex
  rw [step_inode_p s, s.data _ (by omega)]

theorem step_slot_other {dev devA dev' : Device} {p i : Nat} {r : Except FsError Unit}
    (s : CreateStep dev devA dev' p i r) (j : Nat) (hj : j < 64) (hjp : j ≠ p)
    (hal : isAllocated dev j) (k : Nat) (hk : 11 * k < (getInode dev j).size) :
    slotIndex dev' j k = slotIndex dev j k := by
  have hM : MEM_START = 775 := rfl
  have hji : j ≠ i := by
    rintro rfl
    exact hal.1 s.unused
  have hext := s.wf.extent j hj hal
  have hfr := s.frame.fresh j hj hjp hal
  unfold slotIndex
  rw [step_other s j hj hjp hji, s.data _ (by omega), s.frame.frame _ (by omega) (by omega)]

/-- The base size of the directory is a multiple of 44, and of at most 60
slots when all of them are taken. -/
theorem step_base {dev devA dev' : Device} {p i : Nat} {r : Except FsError Unit}
    (s : CreateStep dev devA dev' p i r) :
    dirBaseSize dev p % 44 = 0 ∧
      ((∀ k, 11 * k < dirBaseSize dev p → slotIndex dev p k ≠ 0) → dirBaseSize dev p ≤ 660) := by
  unfold dirBaseSize
  by_cases hu : (getInode dev p).addr = UINT32_MAX
  · rw [if_pos hu]
    exact ⟨rfl, fun _ => by omega⟩
  · rw [if_neg hu]
    have hal : isAllocated dev p := ⟨s.used, hu⟩
    have hsm := s.tidy.small p s.hp hal
    refine ⟨hsm.2, fun hfull => ?_⟩
    have h63 := taken_le (slotIndex dev p) ((getInode dev p).size / 11)
      (fun k hk => by
        have hk' : 11 * k < (getInode dev p).size := by omega
        have h1 := hfull k hk'
        have h2 := (s.wf.slots p s.hp hal k hk').1
        exact ⟨Nat.pos_of_ne_zero h1, h2⟩)
      (fun k k' hk hk' he =>
        s.tidy.taken_differ p s.hp hal k k' (by omega) (by omega) (hfull k (by omega)) he)
    omega

theorem step_small {dev devA dev' : Device} {p i : Nat} {r : Except FsError Unit}
    (s : CreateStep dev devA dev' p i r) (j : Nat) (hj : j < 64) (h : isAllocated dev' j) :
    (getInode dev' j).size ≤ 704 ∧ (getInode dev' j).size % 44 = 0 := by
  by_cases hjp : j = p
  · subst hjp
    rcases s.shape.grow with hg | ⟨hg, hfull, -⟩
    · have he : getInode dev' j = getInode dev j := (step_inode_p s).trans hg
      rw [isAllocated, he] at h
      rw [he]
      exact s.tidy.small j hj h
    · have hb := step_base s
      have := hb.2 hfull
      rw [step_inode_p s, hg]
      omega
  · obtain ⟨-, hal, he⟩ := step_alloc s j hj hjp h
    rw [he]
    exact s.tidy.small j hj hal

/-- The potential does not fall, and bounds the end of the directory. -/
theorem step_potential {dev devA dev' : Device} {p i : Nat} {r : Except FsError Unit}
    (s : CreateStep dev devA dev' p i r) :
    potential dev ≤ potential dev' ∧
      (getInode dev' p).addr + (getInode dev' p).size ≤ potential dev' := by
  have hM : MEM_START = 775 := rfl
  have hwo : ∀ j, j < 64 → j ≠ p → inodeWeight dev' j = inodeWeight dev j := by
    intro j hj hjp
    by_cases hji : j = i
    · subst hji
      unfold inodeWeight
      rw [if_neg (step_unalloc s), if_neg (fun h => h.1 s.unused)]
    · exact inodeWeight_congr dev dev' j (step_other s j hj hjp hji)
  have hwp' : inodeWeight dev' p = extentWeight (getInode dev' p).size := by
    unfold inodeWeight
    rw [if_pos (step_alloc_p s)]
  rcases s.shape.grow with hg | ⟨hg, hfull, hgap⟩
  · have he : getInode dev' p = getInode dev p := (step_inode_p s).trans hg
    have hal : isAllocated dev p := by
      have := step_alloc_p s
      rw [isAllocated, he] at this
      exact this
    have hpot : potential dev' = potential dev := by
      unfold potential
      rw [sum_range_congr (inodeWeight dev) (inodeWeight dev') 64 (fun j hj => by
        by_cases hjp : j = p
        · subst hjp
          exact inodeWeight_congr dev dev' j he
        · exact hwo j hj hjp)]
    rw [hpot, he]
    exact ⟨le_refl _, s.tidy.bound p s.hp hal⟩
  · have hb := step_base s
    have hsz : (getInode dev' p).size = dirBaseSize dev p + 44 := by
      rw [step_inode_p s, hg]
    have hpot : potential dev' = potential dev + (dirBaseSize dev p + 45) := by
      unfold potential
      rw [sum_range_update (inodeWeight dev) (inodeWeight dev') p (dirBaseSize dev p + 45) 64
        s.hp hwo (by
          rw [hwp', hsz, extentWeight_grow _ hb.1, inodeWeight_base dev p s.used]
          omega)]
      omega
    refine ⟨by omega, ?_⟩
    rw [hpot, hsz, step_inode_p s]
    rcases hgap with h | ⟨j, hj, hjp, hal, h⟩
    · rw [h]
      have := weight_le_potential dev p s.hp
      omega
    · rw [h]
      have := s.tidy.bound j hj hal
      omega

theorem step_inCapacity {dev devA dev' : Device} {p i : Nat} {r : Except FsError Unit}
    (s : CreateStep dev devA dev' p i r) : InCapacity dev' := by
  have hDS : DEVICE_SIZE = 1048576 := rfl
  intro j hj h
  by_cases hjp : j = p
  · subst hjp
    have h1 := (step_potential s).2
    have h2 := potential_le dev' (fun j hj h => (step_small s j hj h).1)
    omega
  · obtain ⟨-, hal, he⟩ := step_alloc s j hj hjp h
    rw [he]
    exact (s.wf.extent j hj hal).2.1

theorem base_pos {dev : Device} {p : Nat} (hpu : (getInode dev p).addr ≠ 0)
    (h : 0 < dirBaseSize dev p) :
    isAllocated dev p ∧ dirBaseSize dev p = (getInode dev p).size := by
  unfold dirBaseSize at h ⊢
  by_cases hu : (getInode dev p).addr = UINT32_MAX
  · rw [if_pos hu] at h; omega
  · rw [if_neg hu]
    exact ⟨⟨hpu, hu⟩, rfl⟩

theorem dirBaseSize_alloc {dev : Device} {j : Nat} (h : isAllocated dev j) :
    dirBaseSize dev j = (getInode dev j).size := by
  unfold dirBaseSize
  rw [if_neg h.2]

theorem step_index_pos {dev devA dev' : Device} {p i : Nat} {r : Except FsError Unit}
    (s : CreateStep dev devA dev' p i r) : i ≠ 0 := by
  rintro rfl
  exact s.wf.root_dir.1 s.unused

/-- A taken slot of the directory after the step holds the new index, or is a
slot of the directory before the step and holds what it held. -/
theorem step_slots_p {dev devA dev' : Device} {p i : Nat} {r : Except FsError Unit}
    (s : CreateStep dev devA dev' p i r) (k : Nat) (hk : 11 * k < (getInode dev' p).size)
    (hlive : slotIndex dev' p k ≠ 0) :
    (r = .ok () ∧ slotIndex dev' p k = i) ∨
      (11 * k < (getInode dev p).size ∧ isAllocated dev p ∧
        slotIndex dev' p k = slotIndex dev p k) := by
  rw [step_slot_p s] at hlive ⊢
  rw [step_inode_p s] at hk
  by_cases hr : r = .ok ()
  · obtain ⟨k0, -, -, hc⟩ := s.shape.added hr
    have h := hc k hk
    by_cases hkk : k = k0
    · rw [if_pos hkk] at h
      exact Or.inl ⟨hr, h⟩
    · rw [if_neg hkk] at h
      by_cases hb : 11 * k < dirBaseSize dev p
      · rw [if_pos hb] at h
        obtain ⟨hal, hsz⟩ := base_pos s.used (by omega)
        exact Or.inr ⟨by omega, hal, h⟩
      · rw [if_neg hb] at h
        exact absurd h hlive
  · have h := s.shape.kept hr k hk
    by_cases hb : 11 * k < dirBaseSize dev p
    · rw [if_pos hb] at h
      obtain ⟨hal, hsz⟩ := base_pos s.used (by omega)
      exact Or.inr ⟨by omega, hal, h⟩
    · rw [if_neg hb] at h
      exact absurd h hlive

/-- The new index is held by one slot at most. -/
theorem step_new_once {dev devA dev' : Device} {p i : Nat} {r : Except FsError Unit}
    (s : CreateStep dev devA dev' p i r) (k k' : Nat) (hk : 11 * k < (getInode dev' p).size)
    (hk' : 11 * k' < (getInode dev' p).size) (h : slotIndex dev' p k = i)
    (h' : slotIndex dev' p k' = i) : k = k' := by
  have hold : ∀ k, 11 * k < (getInode dev p).size → isAllocated dev p →
      slotIndex dev p k ≠ i := by
    intro k hk hal he
    have := s.tidy.taken_used p s.hp hal k hk (by rw [he]; exact step_index_pos s)
    rw [he] at this
    exact this s.unused
  rw [step_slot_p s] at h h'
  rw [step_inode_p s] at hk hk'
  have hi0 := step_index_pos s
  by_cases hr : r = .ok ()
  · obtain ⟨k0, -, -, hc⟩ := s.shape.added hr
    have key : ∀ k, 11 * k < (getInode devA p).size → slotIndex devA p k = i → k = k0 := by
      intro k hk h
      by_contra hkk
      have h2 := hc k hk
      rw [if_neg hkk, h] at h2
      by_cases hb : 11 * k < dirBaseSize dev p
      · rw [if_pos hb] at h2
        obtain ⟨hal, hsz⟩ := base_pos s.used (by omega)
        exact hold k (by omega) hal h2.symm
      · rw [if_neg hb] at h2
        exact hi0 h2
    rw [key k hk h, key k' hk' h']
  · exfalso
    have h2 := s.shape.kept hr k hk
    rw [h] at h2
    by_cases hb : 11 * k < dirBaseSize dev p
    · rw [if_pos hb] at h2
      obtain ⟨hal, hsz⟩ := base_pos s.used (by omega)
      exact hold k (by omega) hal h2.symm
    · rw [if_neg hb] at h2
      exact hi0 h2

theorem step_used_kept {dev devA dev' : Device} {p i : Nat} {r : Except FsError Unit}
    (s : CreateStep dev devA dev' p i r) (y : Nat) (hy : y < 64)
    (h : (getInode dev y).addr ≠ 0) : (getInode dev' y).addr ≠ 0 := by
  by_cases hyp : y = p
  · subst hyp
    exact (step_alloc_p s).1
  · have hyi : y ≠ i := by
      rintro rfl
      exact h s.unused
    rw [step_other s y hy hyp hyi]
    exact h

theorem step_prefix_p {dev devA dev' : Device} {p i : Nat} {r : Except FsError Unit}
    (s : CreateStep dev devA dev' p i r) : PrefixLive dev' p := by
  have hpre : ∀ k k', k < k' → 11 * k' < dirBaseSize dev p → slotIndex dev p k = 0 →
      slotIndex dev p k' = 0 := by
    intro k k' hkk hk' h0
    obtain ⟨hal, -⟩ := base_pos s.used (Nat.lt_of_le_of_lt (Nat.zero_le _) hk')
    exact s.tidy.taken_first p s.hp hal k k' hkk hk' h0
  intro k k' hkk hk' h0
  rw [dirBaseSize_alloc (step_alloc_p s), step_inode_p s] at hk'
  rw [step_slot_p s] at h0 ⊢
  by_cases hr : r = .ok ()
  · obtain ⟨k0, -, hfirst, hc⟩ := s.shape.added hr
    have hk0 : k0 < k := by
      by_contra hle
      rcases Nat.lt_or_eq_of_le (Nat.le_of_not_lt hle) with h | h
      · exact hfirst k h h0
      · have h2 := hc k (by omega)
        rw [if_pos h, h0] at h2
        exact step_index_pos s h2.symm
    have h1 := hc k (by omega)
    have h2 := hc k' hk'
    rw [if_neg (by omega)] at h1 h2
    rw [h2]
    by_cases hb' : 11 * k' < dirBaseSize dev p
    · rw [if_pos hb']
      rw [if_pos (by omega), h0] at h1
      exact hpre k k' hkk hb' h1.symm
    · rw [if_neg hb']
  · have h1 := s.shape.kept hr k (by omega)
    have h2 := s.shape.kept hr k' hk'
    rw [h2]
    by_cases hb' : 11 * k' < dirBaseSize dev p
    · rw [if_pos hb']
      rw [if_pos (by omega), h0] at h1
      exact hpre k k' hkk hb' h1.symm
    · rw [if_neg hb']

theorem step_tidy {dev devA dev' : Device} {p i : Nat} {r : Except FsError Unit}
    (s : CreateStep dev devA dev' p i r) : Tidy dev' := by
  have hnew : ∀ k, 11 * k < (getInode dev' p).size → slotIndex dev' p k ≠ 0 →
      (getInode dev' (slotIndex dev' p k)).addr ≠ 0 := by
    intro k hk hlive
    rcases step_slots_p s k hk hlive with ⟨hr, he⟩ | ⟨hko, hal, he⟩
    · rw [he]
      rcases s.inode with ⟨-, h2⟩ | ⟨h2, -⟩
      · rw [h2]; decide
      · exact absurd hr h2
    · rw [he] at hlive ⊢
      exact step_used_kept s _ (s.wf.slots p s.hp hal k hko).1
        (s.tidy.taken_used p s.hp hal k hko hlive)
  refine ⟨?_, ?_, ?_, step_small s, ?_, ?_⟩
  · intro j hj h
    by_cases hjp : j = p
    · subst hjp
      exact step_prefix_p s
    · obtain ⟨-, hal, he⟩ := step_alloc s j hj hjp h
      intro k k' hkk hk' h0
      rw [dirBaseSize_alloc h, he] at hk'
      rw [step_slot_other s j hj hjp hal k (by omega)] at h0
      rw [step_slot_other s j hj hjp hal k' hk']
      exact s.tidy.taken_first j hj hal k k' hkk (by rw [dirBaseSize_alloc hal]; exact hk') h0
  · intro j hj h k hk hlive
    by_cases hjp : j = p
    · subst hjp
      exact hnew k hk hlive
    · obtain ⟨-, hal, he⟩ := step_alloc s j hj hjp h
      rw [he] at hk
      rw [step_slot_other s j hj hjp hal k hk] at hlive ⊢
      exact step_used_kept s _ (s.wf.slots j hj hal k hk).1
        (s.tidy.taken_used j hj hal k hk hlive)
  · intro j hj h k k' hk hk' hlive heq
    by_cases hjp : j = p
    · subst hjp
      have hlive' : slotIndex dev' j k' ≠ 0 := by rw [← heq]; exact hlive
      rcases step_slots_p s k hk hlive with ⟨-, he⟩ | ⟨hko, hal, he⟩
      · exact step_new_once s k k' hk hk' he (by rw [← heq]; exact he)
      · rcases step_slots_p s k' hk' hlive' with ⟨-, he'⟩ | ⟨hko', -, he'⟩
        · exact step_new_once s k k' hk hk' (by rw [heq]; exact he') he'
        · rw [he] at hlive
          rw [he, he'] at heq
          exact s.tidy.taken_differ j hj hal k k' hko hko' hlive heq
    · obtain ⟨-, hal, he⟩ := step_alloc s j hj hjp h
      rw [he] at hk hk'
      rw [step_slot_other s j hj hjp hal k hk] at hlive heq
      rw [step_slot_other s j hj hjp hal k' hk'] at heq
      exact s.tidy.taken_differ j hj hal k k' hk hk' hlive heq
  · intro j hj h
    by_cases hjp : j = p
    · subst hjp
      exact (step_potential s).2
    · obtain ⟨-, hal, he⟩ := step_alloc s j hj hjp h
      rw [he]
      exact le_trans (s.tidy.bound j hj hal) (step_potential s).1
  · intro j hj h
    by_cases hjp : j = p
    · subst hjp
      rw [step_inode_p s]
      exact s.frame.is_dir
    · obtain ⟨-, hal, he⟩ := step_alloc s j hj hjp h
      rw [he]
      exact s.tidy.dirs j hj hal
/-! ## The volumes reached from `format` -/

theorem prefixLive_of_tidy {dev : Device} (hwf : WellFormed dev) (ht : Tidy dev) (p : Nat)
    (hp : p < 64) : PrefixLive dev p := by
  by_cases hal : isAllocated dev p
  · exact ht.taken_first p hp hal
  · intro k k' _ hk' _
    exfalso
    unfold dirBaseSize at hk'
    by_cases hu : (getInode dev p).addr = UINT32_MAX
    · rw [if_pos hu] at hk'; omega
    · rw [if_neg hu] at hk'
      by_cases h0 : (getInode dev p).addr = 0
      · rw [(hwf.unused_zero p hp h0).1] at hk'; omega
      · exact hal ⟨h0, hu⟩

theorem tidy_format (dev : Device) : Tidy (format dev) := by
  have hwf := wellFormed_format dev
  have hroot := getInode_format_root dev
  have hal : ∀ i, i < 64 → isAllocated (format dev) i → i = 0 := by
    intro i hi h
    by_contra hne
    have h0 : (getInode (format dev) i).addr = 0 := by
      by_contra hc
      have hz : ∀ k, k < 9 → format dev (5 + 1 + i * 12 + k) = 0 := by
        intro k hk
        rw [format_apply, if_neg (by omega), if_neg (by omega), if_pos (by omega)]
      have h0 : format dev (5 + 1 + i * 12) = 0 := hz 0 (by omega)
      apply hc
      simp only [getInode, INODE_TABLE_START, sizeof_myfs_header, sizeof_inode_entry, le32, h0,
        hz 1 (by omega), hz 2 (by omega), hz 3 (by omega)]
      rfl
    exact h.1 h0
  have hz : ∀ k, 11 * k < 44 → slotIndex (format dev) 0 k = 0 := by
    intro k hk
    unfold slotIndex
    rw [hroot]
    simp only
    rw [format_apply, if_pos ⟨by omega, by omega⟩]
    rfl
  refine ⟨?_, ?_, ?_, ?_, ?_, ?_⟩
  rotate_left 5
  · intro j hj h
    have := hal j hj h
    subst this
    rw [hroot]
  · intro j hj h
    have := hal j hj h
    subst this
    intro k k' _ hk' _
    rw [dirBaseSize_alloc h, hroot] at hk'
    exact hz k' hk'
  · intro j hj h k hk hlive
    have := hal j hj h
    subst this
    rw [hroot] at hk
    exact absurd (hz k hk) hlive
  · intro j hj h k k' hk _ hlive _
    have := hal j hj h
    subst this
    rw [hroot] at hk
    exact absurd (hz k hk) hlive
  · intro j hj h
    have := hal j hj h
    subst this
    rw [hroot]
    decide
  · intro j hj h
    have := hal j hj h
    subst this
    have hw := weight_le_potential (format dev) 0 (by omega)
    have h45 : inodeWeight (format dev) 0 = 45 := by
      unfold inodeWeight
      rw [if_pos h, hroot]
      rfl
    have hM : MEM_START = 775 := rfl
    rw [hroot]
    simp only
    omega

/-- Whatever `create_file` does on a well-formed, tidy volume, it leaves one. -/
theorem create_file_sound (dev : Device) (hwf : WellFormed dev) (ht : Tidy dev)
    (path : List Byte) (d : Bool) (r : Except FsError Unit) (dev' : Device)
    (h : create_file dev path d = some (r, dev')) : WellFormed dev' ∧ Tidy dev' := by
  rcases findFirstFreeInode_cases dev with hfree | ⟨i, hfree⟩
  · unfold create_file at h
    simp only [hfree, Option.some.injEq, Prod.mk.injEq] at h
    rw [← h.2]
    exact ⟨hwf, ht⟩
  · cases hpar : getInodeIndexFromPath dev (removeFileNameFromPath path) with
    | error e =>
      unfold create_file at h
      simp only [hfree, hpar, Option.some.injEq, Prod.mk.injEq] at h
      rw [← h.2]
      exact ⟨hwf, ht⟩
    | ok p =>
      have hp := getInodeIndexFromPath_lt dev hwf _ p hpar
      obtain ⟨hi, hi0⟩ := findFirstFreeInode_ok hfree
      cases hdir : (getInode dev p).is_dir with
      | false =>
        unfold create_file at h
        have h256 : p % 256 = p := by omega
        simp only [hfree, hpar, addToDirectory, h256, hdir, if_true, Option.some.injEq,
          Prod.mk.injEq] at h
        rw [← h.2]
        exact ⟨hwf, ht⟩
      | true =>
        obtain ⟨r2, devA, heff, hc, hshape⟩ :=
          create_file_dir dev hwf path d i p hfree hpar hdir
        have hsh := (hshape (prefixLive_of_tidy hwf ht p hp)).1
        have hpu := dir_used hwf p hp hdir
        have hU : UINT32_MAX = 4294967295 := rfl
        rcases hc with ⟨hr, hc⟩ | ⟨hr, hc⟩
        · rw [hc] at h
          simp only [Option.some.injEq, Prod.mk.injEq] at h
          have hstep : CreateStep dev devA dev' p i r2 := by
            rw [← h.2]
            refine ⟨hwf, ht, hp, hi, hi0, hpu, heff.frame, hsh, ?_, ?_, Or.inl ⟨hr, ?_⟩⟩
            · intro j hj
              exact getInode_setInode_ne devA i j _ (fun hh => hj hh.symm)
            · intro x hx
              exact setInode_data devA i _ x hi hx
            · rw [getInode_setInode_same devA i _ (by simp only [hU]; omega)
                (by simp only; omega)]
          exact ⟨create_file_wellFormed dev hwf path d _ dev' (by rw [hc, h.2])
            (step_inCapacity hstep), step_tidy hstep⟩
        · rw [hc] at h
          simp only [Option.some.injEq, Prod.mk.injEq] at h
          have hstep : CreateStep dev devA dev' p i r2 := by
            rw [← h.2]
            exact ⟨hwf, ht, hp, hi, hi0, hpu, heff.frame, hsh, fun _ _ => rfl, fun _ _ => rfl,
              Or.inr ⟨(by rw [hr]; exact fun hh => (by cases hh)), rfl⟩⟩
          exact ⟨create_file_wellFormed dev hwf path d _ dev' (by rw [hc, h.2])
            (step_inCapacity hstep), step_tidy hstep⟩

theorem reached_sound {dev : Device} (h : Reached dev) : WellFormed dev ∧ Tidy dev := by
  induction h with
  | format dev => exact ⟨wellFormed_format dev, tidy_format dev⟩
  | create path d r dev' _ hc ih => exact create_file_sound _ ih.1 ih.2 path d r dev' hc

/-! ## The same name twice -/

theorem create_file_no_inode (dev : Device) (path : List Byte) (d : Bool)
    (h : findFirstFreeInode dev = .error .noFreeInodes) :
    create_file dev path d = some (.error .noFreeInodes, dev) := by
  unfold create_file
  simp only [h]

/-- After `create_file(path)` has returned, the same call throws 'already
exists' as long as an unused inode is left. -/
theorem second_create_fails (dev : Device) (hwf : WellFormed dev) (ht : Tidy dev)
    (path : List Byte) (h0 : (0 : Byte) ∉ path) (d d' : Bool) (dev' : Device)
    (h : create_file dev path d = some (.ok (), dev')) (j : Nat)
    (hj : findFirstFreeInode dev' = .ok j) :
    ∃ dev'', create_file dev' path d' = some (.error .alreadyExists, dev'') := by
  have hM : MEM_START = 775 := rfl
  have hI : INT32_MAX = 2147483647 := rfl
  have hwf' := (create_file_sound dev hwf ht path d _ dev' h).1
  obtain ⟨i, p, devA, hfree, hpar, hdir, heff, hdev'⟩ := create_file_ok_inv dev hwf path d dev' h
  obtain ⟨hi, hi0⟩ := findFirstFreeInode_ok hfree
  have hp := getInodeIndexFromPath_lt dev hwf _ p hpar
  have hip : i ≠ p := by
    rintro rfl
    exact dir_used hwf i hp hdir hi0
  have hkept : LookupsKept dev dev' := by
    rw [hdev']
    exact lookupsKept_create hwf hp hdir heff i hi hi0 _
  have hpar' := getInodeIndexFromPath_kept dev dev' hwf hkept _
    (fun hm => h0 (mem_removeFileNameFromPath path 0 hm)) p hpar
  have hino : getInode dev' p = getInode devA p := by
    rw [hdev']
    exact getInode_setInode_ne devA i p _ hip
  have hdir' : (getInode dev' p).is_dir = true := by
    rw [hino]
    exact heff.frame.is_dir
  obtain ⟨r2, devB, heff2, hc, -⟩ := create_file_dir dev' hwf' path d' j p hj hpar' hdir'
  have hdup : r2 = .error .alreadyExists := by
    apply heff2.duplicate
    obtain ⟨s, hs, hm⟩ := heff.present rfl
    refine ⟨s, by rw [hino]; exact hs, ?_⟩
    rw [← hm, hdev']
    have hpl := heff.frame.place
    have hsl := slot_ge hpl.2.2.2 (by omega) s hs
    apply matchAt_congr
    intro x h1 _
    exact setInode_data devA i _ x hi (by omega)
  rcases hc with ⟨hr, _⟩ | ⟨_, hc⟩
  · rw [hdup] at hr
    cases hr
  · exact ⟨devB, hc⟩

theorem findFirstFreeInode_some (dev : Device) (x : Nat) (hx : x < 64)
    (h : (getInode dev x).addr = 0) : ∃ j, findFirstFreeInode dev = .ok j := by
  unfold findFirstFreeInode
  cases hf : (List.range INODE_AMOUNT).find? (fun i => decide ((getInode dev i).addr = 0)) with
  | some j => exact ⟨j, rfl⟩
  | none =>
    exfalso
    have := List.find?_eq_none.1 hf x (by rw [List.mem_range, INODE_AMOUNT_eq]; exact hx)
    simp only [decide_eq_true_eq] at this
    exact this h

/-- A name that two different directories do not hold can be created in both,
when two inodes are unused. -/
theorem create_in_two_dirs (dev : Device) (hwf : WellFormed dev) (ht : Tidy dev)
    (q1 q2 : List Byte)
    (h1 : (0 : Byte) ∉ q1) (h2 : (0 : Byte) ∉ q2)
    (hname : getFileNameFromPath q1 = getFileNameFromPath q2)
    (hne : getFileNameFromPath q1 ≠ []) (p1 p2 : Nat)
    (hpar1 : getInodeIndexFromPath dev (removeFileNameFromPath q1) = .ok p1)
    (hpar2 : getInodeIndexFromPath dev (removeFileNameFromPath q2) = .ok p2)
    (hp12 : p1 ≠ p2) (hdir1 : (getInode dev p1).is_dir = true)
    (hdir2 : (getInode dev p2).is_dir = true)
    (habs1 : findFileInDirectory dev (getInode dev p1).addr (getInode dev p1).size
      (getFileNameFromPath q1) = .error .notFound)
    (habs2 : findFileInDirectory dev (getInode dev p2).addr (getInode dev p2).size
      (getFileNameFromPath q2) = .error .notFound)
    (i1 i2 : Nat) (hi1 : i1 < 64) (hi2 : i2 < 64) (hi12 : i1 ≠ i2)
    (hu1 : (getInode dev i1).addr = 0) (hu2 : (getInode dev i2).addr = 0) (d1 d2 : Bool) :
    ∃ dev' dev'', create_file dev q1 d1 = some (.ok (), dev') ∧
      create_file dev' q2 d2 = some (.ok (), dev'') := by
  obtain ⟨i, hfree⟩ := findFirstFreeInode_some dev i1 hi1 hu1
  have hkey1 : nameKey (getFileNameFromPath q1) ≠ [] :=
    nameKey_ne_nil _ hne (fun hm => h1 (mem_getFileNameFromPath q1 0 hm))
  have hkey2 : nameKey (getFileNameFromPath q2) ≠ [] := by
    rw [← hname]; exact hkey1
  obtain ⟨hi, hi0⟩ := findFirstFreeInode_ok hfree
  have hp1 := getInodeIndexFromPath_lt dev hwf _ p1 hpar1
  have hp2 := getInodeIndexFromPath_lt dev hwf _ p2 hpar2
  obtain ⟨r, devA, heff, hc, -⟩ := create_file_dir dev hwf q1 d1 i p1 hfree hpar1 hdir1
  have hr : r = .ok () := heff.succeeds (findFile_notFound dev _ _ _ habs1) hkey1
  subst hr
  rcases hc with ⟨_, hc⟩ | ⟨hr, _⟩
  swap
  · cases hr
  have hwf' := (create_file_sound dev hwf ht q1 d1 _ _ hc).1
  have hp1u := dir_used hwf p1 hp1 hdir1
  obtain ⟨j, hj⟩ : ∃ j, findFirstFreeInode (setInode devA i ⟨UINT32_MAX, 0, d1⟩) = .ok j := by
    obtain ⟨x, hx, hxi, hxu⟩ : ∃ x, x < 64 ∧ x ≠ i ∧ (getInode dev x).addr = 0 := by
      by_cases h : i1 = i
      · exact ⟨i2, hi2, fun hh => hi12 (h.trans hh.symm), hu2⟩
      · exact ⟨i1, hi1, h, hu1⟩
    apply findFirstFreeInode_some _ x hx
    have hxp : x ≠ p1 := by
      rintro rfl
      exact hp1u hxu
    rw [getInode_setInode_ne devA i x _ (fun hh => hxi hh.symm), heff.frame.others x hx hxp]
    exact hxu
  have hkept : LookupsKept dev (setInode devA i ⟨UINT32_MAX, 0, d1⟩) :=
    lookupsKept_create hwf hp1 hdir1 heff i hi hi0 _
  have hpar2' := getInodeIndexFromPath_kept dev _ hwf hkept _
    (fun hm => h2 (mem_removeFileNameFromPath q2 0 hm)) p2 hpar2
  have hip2 : p2 ≠ i := by
    rintro rfl
    exact dir_used hwf p2 hp2 hdir2 hi0
  obtain ⟨hino, hrd⟩ := other_dir_kept hwf heff.frame i hi ⟨UINT32_MAX, 0, d1⟩ p2 hp2
    (fun h => hp12 h.symm) hip2
  have hdir2' : (getInode (setInode devA i ⟨UINT32_MAX, 0, d1⟩) p2).is_dir = true := by
    rw [hino]; exact hdir2
  obtain ⟨r2, devB, heff2, hc2, -⟩ := create_file_dir _ hwf' q2 d2 j p2 hj hpar2' hdir2'
  have hr2 : r2 = .ok () := by
    apply heff2.succeeds _ hkey2
    rw [hino]
    intro s hs
    have := findFile_notFound dev _ _ _ habs2 s hs
    unfold matchAt at this ⊢
    rw [hrd s hs]
    exact this
  subst hr2
  rcases hc2 with ⟨_, hc2⟩ | ⟨hr, _⟩
  · exact ⟨_, _, hc, hc2⟩
  · cases hr

theorem create_file_afterCreate (dev : Device) (path : List Byte) (d : Bool)
    (r : Except FsError Unit) (h : (create_file dev path d).map Prod.fst = some r) :
    create_file dev path d = some (r, afterCreate dev path d) := by
  unfold afterCreate
  cases hc : create_file dev path d with
  | none => rw [hc] at h; cases h
  | some x =>
    rw [hc] at h
    simp only [Option.map_some', Option.some.injEq] at h
    subst h
    rfl

/-! ## `reallocInode` on any inode table whose other extents are in the data region -/

theorem mem_foldl_setInsert (l : List inode_entry) : ∀ (acc : List inode_entry) (y : inode_entry),
    y ∈ l.foldl (fun acc e => setInsert e acc) acc → y ∈ l ∨ y ∈ acc := by
  induction l with
  | nil => intro acc y h; exact Or.inr h
  | cons x xs ih =>
    intro acc y h
    rw [List.foldl_cons] at h
    rcases ih _ y h with h1 | h1
    · exact Or.inl (List.mem_cons_of_mem _ h1)
    · rcases mem_setInsert h1 with h2 | h2
      · exact Or.inl (h2 ▸ List.mem_cons_self _ _)
      · exact Or.inr h2

theorem mem_allocatedInodes (dev : Device) (e : inode_entry) (h : e ∈ allocatedInodes dev) :
    ∃ i, i < 64 ∧ getInode dev i = e ∧ e.addr ≠ 0 ∧ e.addr ≠ UINT32_MAX := by
  rw [allocatedInodes_eq] at h
  rcases mem_foldl_setInsert _ _ _ h with h1 | h1
  · exact (mem_allocatedExtents dev e).1 h1
  · cases h1

/-- A gap is taken only where it starts in the data region: the scan keeps the
chosen address in the data region, and the start of the next gap there too,
unless the wanted size is `2^31` or more. -/
theorem considerGap_good (n b : Nat) (st : FreeScan) (hb1 : MEM_START ≤ b)
    (hb2 : b ≤ INT32_MAX)
    (h1 : st.min = UINT32_MAX ∨ MEM_START ≤ st.minAddress) (h2 : st.minAddress < 4294967296)
    (h3 : MEM_START ≤ st.lastFreeSpaceAddress ∨ 2147483648 ≤ n)
    (h4 : st.lastFreeSpaceAddress < 4294967296) (h5 : st.min ≤ UINT32_MAX) :
    ((considerGap n (u32sub b st.lastFreeSpaceAddress) st).min = UINT32_MAX ∨
        MEM_START ≤ (considerGap n (u32sub b st.lastFreeSpaceAddress) st).minAddress) ∧
      (considerGap n (u32sub b st.lastFreeSpaceAddress) st).minAddress < 4294967296 ∧
      (considerGap n (u32sub b st.lastFreeSpaceAddress) st).lastFreeSpaceAddress =
        st.lastFreeSpaceAddress ∧
      (considerGap n (u32sub b st.lastFreeSpaceAddress) st).min ≤ UINT32_MAX := by
  have hM : MEM_START = 775 := rfl
  have hI : INT32_MAX = 2147483647 := rfl
  have hU : UINT32_MAX = 4294967295 := rfl
  unfold considerGap
  split_ifs with hc
  · simp only
    refine ⟨Or.inr ?_, h4, trivial, by omega⟩
    rcases h3 with h | h
    · exact h
    · by_contra hlt
      have : u32sub b st.lastFreeSpaceAddress = b - st.lastFreeSpaceAddress := by
        simp only [u32sub]; omega
      omega
  · exact ⟨h1, h2, rfl, h5⟩

theorem scanStep_good (n : Nat) (hn : n < 4294967296) (e : inode_entry) (st : FreeScan)
    (he1 : MEM_START ≤ e.addr)
    (he2 : e.addr + e.size ≤ DEVICE_SIZE ∨ (e.addr = INT32_MAX ∧ e.size = n))
    (h1 : st.min = UINT32_MAX ∨ MEM_START ≤ st.minAddress) (h2 : st.minAddress < 4294967296)
    (h3 : MEM_START ≤ st.lastFreeSpaceAddress ∨ 2147483648 ≤ n)
    (h4 : st.lastFreeSpaceAddress < 4294967296) (h5 : st.min ≤ UINT32_MAX) :
    ((scanStep n st e).min = UINT32_MAX ∨ MEM_START ≤ (scanStep n st e).minAddress) ∧
      (scanStep n st e).minAddress < 4294967296 ∧
      (MEM_START ≤ (scanStep n st e).lastFreeSpaceAddress ∨ 2147483648 ≤ n) ∧
      (scanStep n st e).lastFreeSpaceAddress < 4294967296 ∧
      (scanStep n st e).min ≤ UINT32_MAX := by
  have hM : MEM_START = 775 := rfl
  have hI : INT32_MAX = 2147483647 := rfl
  have hDS : DEVICE_SIZE = 1048576 := rfl
  obtain ⟨g1, g2, -, g5⟩ := considerGap_good n e.addr st he1 (by omega) h1 h2 h3 h4 h5
  unfold scanStep
  simp only
  refine ⟨g1, g2, ?_, ?_, g5⟩
  · simp only [u32]
    omega
  · simp only [u32]
    omega

theorem foldl_scanStep_good (n : Nat) (hn : n < 4294967296) (L : List inode_entry) :
    ∀ (st : FreeScan),
    (∀ e ∈ L, MEM_START ≤ e.addr ∧
      (e.addr + e.size ≤ DEVICE_SIZE ∨ (e.addr = INT32_MAX ∧ e.size = n))) →
    (st.min = UINT32_MAX ∨ MEM_START ≤ st.minAddress) → st.minAddress < 4294967296 →
    (MEM_START ≤ st.lastFreeSpaceAddress ∨ 2147483648 ≤ n) →
    st.lastFreeSpaceAddress < 4294967296 → st.min ≤ UINT32_MAX →
    ((L.foldl (scanStep n) st).min = UINT32_MAX ∨
        MEM_START ≤ (L.foldl (scanStep n) st).minAddress) ∧
      (L.foldl (scanStep n) st).minAddress < 4294967296 ∧
      (MEM_START ≤ (L.foldl (scanStep n) st).lastFreeSpaceAddress ∨ 2147483648 ≤ n) ∧
      (L.foldl (scanStep n) st).lastFreeSpaceAddress < 4294967296 ∧
      (L.foldl (scanStep n) st).min ≤ UINT32_MAX := by
  induction L with
  | nil => intro st _ h1 h2 h3 h4 h5; exact ⟨h1, h2, h3, h4, h5⟩
  | cons e es ih =>
    intro st hL h1 h2 h3 h4 h5
    rw [List.foldl_cons]
    obtain ⟨g1, g2, g3, g4, g5⟩ := scanStep_good n hn e st (hL e (List.mem_cons_self _ _)).1
      (hL e (List.mem_cons_self _ _)).2 h1 h2 h3 h4 h5
    exact ih _ (fun e' he' => hL e' (List.mem_cons_of_mem _ he')) g1 g2 g3 g4 g5

/-- The address that the allocator returns is in the data region, when every
extent is in the data region or is the mark `INT32_MAX` with the wanted size. -/
theorem bestFit_good (n : Nat) (hn : n < 4294967296) (L : List inode_entry)
    (hL : ∀ e ∈ L, MEM_START ≤ e.addr ∧
      (e.addr + e.size ≤ DEVICE_SIZE ∨ (e.addr = INT32_MAX ∧ e.size = n)))
    (a : Nat) (h : bestFit L n = .ok a) : MEM_START ≤ a ∧ a < 4294967296 := by
  have hM : MEM_START = 775 := rfl
  have hU : UINT32_MAX = 4294967295 := rfl
  have hDS : DEVICE_SIZE = 1048576 := rfl
  have hI : INT32_MAX = 2147483647 := rfl
  obtain ⟨g1, g2, g3, g4, g5⟩ := foldl_scanStep_good n hn L
    ⟨UINT32_MAX, UINT32_MAX, MEM_START⟩ hL (Or.inl rfl) (by simp only [hU]; omega)
    (Or.inl (le_refl _)) (by simp only [hM]; omega) (le_refl _)
  obtain ⟨k1, k2, -, -⟩ := considerGap_good n DEVICE_SIZE _ (by omega) (by omega) g1 g2 g3 g4 g5
  unfold bestFit at h
  simp only at h
  split_ifs at h with hmin
  simp only [Except.ok.injEq] at h
  rw [← h]
  rcases k1 with k | k
  · exact absurd k hmin
  · exact ⟨k, k2⟩

/-! ## `list_dir` -/

theorem filterMap_if {α β : Type} (p : α → Prop) [DecidablePred p] (f : α → β) (l : List α) :
    l.filterMap (fun x => if p x then some (f x) else none) = (l.filter fun x => p x).map f := by
  induction l with
  | nil => rfl
  | cons x xs ih =>
    by_cases h : p x
    · simp only [List.filterMap_cons, if_pos h, List.filter_cons, decide_eq_true h, if_true,
        List.map_cons, ih]
    · simp only [List.filterMap_cons, if_neg h, List.filter_cons, decide_eq_false h, ih]
      rfl

theorem toInt32_small (n : Nat) (h : n < 2147483648) : toInt32 n = n := by
  unfold toInt32
  rw [if_pos h]

/-- What `list_dir` returns for a path that resolves to the inode `idx`. -/
theorem list_dir_of_resolved (dev : Device) (path : List Byte) (idx : Nat)
    (h : getInodeIndexFromPath dev path = .ok idx) :
    list_dir dev path =
      if (getInode dev idx).is_dir = false then .error .isAFile
      else .ok (((slotAddrs (getInode dev idx).addr (getInode dev idx).size).filter
          fun s => (readDirEntry dev s).inode_index ≠ 0).map fun s =>
        { name := (readDirEntry dev s).name
          is_dir := (getInode dev (readDirEntry dev s).inode_index).is_dir
          file_size := toInt32 (getInode dev (readDirEntry dev s).inode_index).size }) := by
  unfold list_dir
  rw [h]
  simp only
  split_ifs with hd
  · rfl
  · rw [filterMap_if (fun s => (readDirEntry dev s).inode_index ≠ 0)]

/-! ## The live entries of a directory -/

theorem filter_range_prefix {β : Type} (f : Nat → β) (q : β → Bool) :
    ∀ m c, c ≤ m → (∀ k, k < c → q (f k) = true) → (∀ k, c ≤ k → k < m → q (f k) = false) →
      ((List.range m).map f).filter q = (List.range c).map f := by
  intro m
  induction m with
  | zero =>
    intro c hc _ _
    have : c = 0 := by omega
    subst this
    rfl
  | succ m ih =>
    intro c hc h1 h2
    rw [List.range_succ, List.map_append, List.filter_append]
    by_cases hcm : c = m + 1
    · subst hcm
      rw [ih m (le_refl _) (fun k hk => h1 k (by omega)) (fun k hk1 hk2 => by omega)]
      simp only [List.map_cons, List.map_nil, List.filter_cons, h1 m (by omega), if_true,
        List.filter_nil]
      rw [List.range_succ, List.map_append]
      rfl
    · rw [ih c (by omega) h1 (fun k hk1 hk2 => h2 k hk1 (by omega))]
      simp only [List.map_cons, List.map_nil, List.filter_cons, h2 m (by omega) (by omega),
        List.filter_nil]
      simp

theorem find_filter_of_imp {α : Type} (p q : α → Bool) (l : List α)
    (h : ∀ x ∈ l, q x = true → p x = true) : (l.filter p).find? q = l.find? q := by
  induction l with
  | nil => rfl
  | cons x xs ih =>
    have ih' := ih (fun y hy => h y (List.mem_cons_of_mem _ hy))
    by_cases hp : p x = true
    · rw [List.filter_cons, if_pos hp, List.find?_cons, List.find?_cons, ih']
    · have hq : q x = false := by
        cases hqx : q x with
        | false => rfl
        | true => exact absurd (h x (List.mem_cons_self _ _) hqx) hp
      rw [List.filter_cons, if_neg hp, List.find?_cons, hq, ih']

theorem liveEntries_eq (dev : Device) (p : Nat) :
    liveEntries dev p =
      ((slotAddrs (getInode dev p).addr (getInode dev p).size).map (readDirEntry dev)).filter
        fun e => e.inode_index ≠ 0 := rfl

/-- The live entries of an allocated directory of a well-formed volume, slot by slot. -/
theorem liveEntries_alloc (dev : Device) (hwf : WellFormed dev) (p : Nat) (hp : p < 64)
    (hal : isAllocated dev p) :
    liveEntries dev p =
      ((List.range ((getInode dev p).size / 11)).map
        (fun k => readDirEntry dev ((getInode dev p).addr + 11 * k))).filter
        fun e => e.inode_index ≠ 0 := by
  have hDS : DEVICE_SIZE = 1048576 := rfl
  have hext := hwf.extent p hp hal
  have hsz : (getInode dev p).size = 11 * ((getInode dev p).size / 11) := by omega
  rw [liveEntries_eq]
  have : slotAddrs (getInode dev p).addr (getInode dev p).size =
      (List.range ((getInode dev p).size / 11)).map fun k => (getInode dev p).addr + 11 * k := by
    have := slotAddrs_eq (getInode dev p).addr ((getInode dev p).size / 11) (by omega)
    rw [← hsz] at this
    exact this
  rw [this, List.map_map]
  rfl

/-- An inode that is not allocated has no live entries. -/
theorem liveEntries_unalloc (dev : Device) (hwf : WellFormed dev) (p : Nat) (hp : p < 64)
    (hal : ¬ isAllocated dev p) : liveEntries dev p = [] := by
  rw [liveEntries_eq]
  by_cases h0 : (getInode dev p).addr = 0
  · rw [h0, (hwf.unused_zero p hp h0).1, slotAddrs_zero]
    rfl
  · by_cases hu : (getInode dev p).addr = UINT32_MAX
    · rw [hu, slotAddrs_unallocated]
      rfl
    · exact absurd ⟨h0, hu⟩ hal

/-- `list_dir` in terms of the live entries. -/
theorem list_dir_live (dev : Device) (path : List Byte) (idx : Nat)
    (h : getInodeIndexFromPath dev path = .ok idx) (hd : (getInode dev idx).is_dir = true) :
    list_dir dev path = .ok ((liveEntries dev idx).map fun e =>
      { name := e.name
        is_dir := (getInode dev e.inode_index).is_dir
        file_size := toInt32 (getInode dev e.inode_index).size }) := by
  rw [list_dir_of_resolved dev path idx h, if_neg (by rw [hd]; decide), liveEntries_eq,
    List.filter_map, List.map_map]
  rfl

/-- The lookup of a name with a key in a directory of a well-formed volume
finds the first live entry with that key. -/
theorem findFile_live (dev : Device) (hwf : WellFormed dev) (p : Nat) (hp : p < 64)
    (c : List Byte) (hc : nameKey c ≠ []) :
    findFileInDirectory dev (getInode dev p).addr (getInode dev p).size c =
      match (liveEntries dev p).find? (fun e => strncmpEq NAME_SIZE e.name c) with
      | some e => .ok e.inode_index
      | none => .error .notFound := by
  have hDS : DEVICE_SIZE = 1048576 := rfl
  have hfind : (liveEntries dev p).find? (fun e => strncmpEq NAME_SIZE e.name c) =
      ((slotAddrs (getInode dev p).addr (getInode dev p).size).find?
        (fun s => strncmpEq NAME_SIZE (readDirEntry dev s).name c)).map (readDirEntry dev) := by
    rw [liveEntries_eq, find_filter_of_imp, List.find?_map]
    · rfl
    · intro e he hq
      rw [List.mem_map] at he
      obtain ⟨s, hs, rfl⟩ := he
      by_cases hal : isAllocated dev p
      · have hext := hwf.extent p hp hal
        obtain ⟨k, hk, rfl⟩ := (mem_slotAddrs hext.2.2.2 (by omega) s).1 hs
        by_contra hidx
        have h0 : (dev ((getInode dev p).addr + 11 * k)).val = 0 := by
          simpa [readDirEntry] using hidx
        have := matchAt_empty_slot dev c _ hc ((hwf.slots p hp hal k hk).2 h0)
        unfold matchAt at this
        rw [this] at hq
        cases hq
      · exfalso
        by_cases h0 : (getInode dev p).addr = 0
        · rw [h0, (hwf.unused_zero p hp h0).1, slotAddrs_zero] at hs
          cases hs
        · by_cases hu : (getInode dev p).addr = UINT32_MAX
          · rw [hu, slotAddrs_unallocated] at hs
            cases hs
          · exact hal ⟨h0, hu⟩
  rw [hfind]
  unfold findFileInDirectory
  cases (slotAddrs (getInode dev p).addr (getInode dev p).size).find?
      (fun s => strncmpEq NAME_SIZE (readDirEntry dev s).name c) with
  | none => rfl
  | some s => rfl

/-! ## The live entries after `create_file` -/

theorem step_entry_p {dev devA dev' : Device} {p i : Nat} {r : Except FsError Unit}
    (s : CreateStep dev devA dev' p i r) (k : Nat) :
    readDirEntry dev' ((getInode dev' p).addr + 11 * k) =
      readDirEntry devA ((getInode devA p).addr + 11 * k) := by
  have hM : MEM_START = 775 := rfl
  have := s.frame.place
  rw [step_inode_p s]
  apply readDirEntry_congr
  intro x hx _
  exact s.data x (by omega)

/-- A returning `create_file` appends its entry to the live entries of the parent. -/
theorem step_live_p {dev devA dev' : Device} {p i : Nat} (name : List Byte)
    (s : CreateStep dev devA dev' p i (.ok ())) (he : AddEntries dev p i name (.ok ()) devA)
    (hwf' : WellFormed dev') :
    liveEntries dev' p = liveEntries dev p ++ [⟨i, strncpy name NAME_SIZE⟩] := by
  have hpre := prefixLive_of_tidy s.wf s.tidy p s.hp
  have hi0 := step_index_pos s
  obtain ⟨k0, hk0, hfirst, hemp, hent⟩ := he.added rfl
  have hal' := step_alloc_p s
  have hext' := hwf'.extent p s.hp hal'
  have hszA : (getInode devA p).size = (getInode dev' p).size := by rw [step_inode_p s]
  -- the slots after the call
  have hnew : ∀ k, 11 * k < (getInode dev' p).size →
      readDirEntry dev' ((getInode dev' p).addr + 11 * k) =
        if k = k0 then ⟨i, strncpy name NAME_SIZE⟩
        else if 11 * k < dirBaseSize dev p then
          readDirEntry dev ((getInode dev p).addr + 11 * k)
        else ⟨0, List.replicate NAME_SIZE 0⟩ := by
    intro k hk
    rw [step_entry_p s]
    exact hent k (by omega)
  have hliveA : ∀ k, k < k0 → 11 * k < dirBaseSize dev p ∧
      readDirEntry dev' ((getInode dev' p).addr + 11 * k) =
        readDirEntry dev ((getInode dev p).addr + 11 * k) ∧
      (readDirEntry dev ((getInode dev p).addr + 11 * k)).inode_index ≠ 0 := by
    intro k hk
    have h1 := hnew k (by omega)
    have h2 : (readDirEntry devA ((getInode devA p).addr + 11 * k)).inode_index ≠ 0 :=
      hfirst k hk
    rw [← step_entry_p s, h1, if_neg (by omega)] at h2
    rw [if_neg (by omega)] at h1
    by_cases hb : 11 * k < dirBaseSize dev p
    · rw [if_pos hb] at h1 h2
      exact ⟨hb, h1, h2⟩
    · rw [if_neg hb] at h2
      exact absurd rfl h2
  have hk0base : 11 * k0 ≤ dirBaseSize dev p := by
    by_contra hlt
    have hb := step_base s
    have hlt2 : dirBaseSize dev p / 11 < k0 := by omega
    have := (hliveA (dirBaseSize dev p / 11) hlt2).1
    omega
  have hdead : ∀ k, k0 ≤ k → 11 * k < dirBaseSize dev p →
      (readDirEntry dev ((getInode dev p).addr + 11 * k)).inode_index = 0 := by
    intro k hk hb
    have h0 : slotIndex dev p k0 = 0 := hemp (by omega)
    rcases Nat.eq_or_lt_of_le hk with h | h
    · rw [← h]; exact h0
    · exact hpre k0 k h hb h0
  -- the live entries after the call
  have hafter : liveEntries dev' p =
      (List.range (k0 + 1)).map
        (fun k => readDirEntry dev' ((getInode dev' p).addr + 11 * k)) := by
    rw [liveEntries_alloc dev' hwf' p s.hp hal']
    apply filter_range_prefix _ _ _ (k0 + 1) (by omega)
    · intro k hk
      rcases Nat.eq_or_lt_of_le (Nat.le_of_lt_succ hk) with h | h
      · rw [h, hnew k0 (by omega), if_pos rfl]
        simpa using hi0
      · rw [(hliveA k h).2.1]
        simpa using (hliveA k h).2.2
    · intro k hk1 hk2
      rw [hnew k (by omega), if_neg (by omega)]
      by_cases hb : 11 * k < dirBaseSize dev p
      · rw [if_pos hb]
        simpa using hdead k (by omega) hb
      · rw [if_neg hb]
        rfl
  have hbefore : liveEntries dev p =
      (List.range k0).map (fun k => readDirEntry dev ((getInode dev p).addr + 11 * k)) := by
    by_cases hal : isAllocated dev p
    · rw [liveEntries_alloc dev s.wf p s.hp hal]
      have hbs := dirBaseSize_alloc hal
      apply filter_range_prefix _ _ _ k0 (by omega)
      · intro k hk
        simpa using (hliveA k hk).2.2
      · intro k hk1 hk2
        simpa using hdead k hk1 (by omega)
    · rw [liveEntries_unalloc dev s.wf p s.hp hal]
      have hb0 : dirBaseSize dev p = 0 := by
        by_contra hne
        exact hal (base_pos s.used (Nat.pos_of_ne_zero hne)).1
      have : k0 = 0 := by omega
      subst this
      rfl
  rw [hafter, hbefore, List.range_succ, List.map_append]
  congr 1
  · apply List.map_congr_left
    intro k hk
    rw [List.mem_range] at hk
    exact (hliveA k hk).2.1
  · simp only [List.map_cons, List.map_nil]
    rw [hnew k0 (by omega), if_pos rfl]

/-- A returning `create_file` leaves the live entries of the other inodes. -/
theorem step_live_other {dev devA dev' : Device} {p i : Nat} {r : Except FsError Unit}
    (s : CreateStep dev devA dev' p i r) (X : Nat) (hX : X < 64) (hXp : X ≠ p) (hXi : X ≠ i) :
    liveEntries dev' X = liveEntries dev X := by
  have hM : MEM_START = 775 := rfl
  have hDS : DEVICE_SIZE = 1048576 := rfl
  have hino := step_other s X hX hXp hXi
  rw [liveEntries_eq, liveEntries_eq, hino]
  congr 1
  apply List.map_congr_left
  intro t ht
  by_cases hal : isAllocated dev X
  · have hext := s.wf.extent X hX hal
    have hfr := s.frame.fresh X hX hXp hal
    have hsl := slot_ge hext.2.2.2 (by omega) t ht
    apply readDirEntry_congr
    intro x h1 h2
    rw [s.data x (by omega)]
    exact s.frame.frame x (by omega) (by omega)
  · exfalso
    by_cases h0 : (getInode dev X).addr = 0
    · rw [h0, (s.wf.unused_zero X hX h0).1, slotAddrs_zero] at ht
      cases ht
    · by_cases hu : (getInode dev X).addr = UINT32_MAX
      · rw [hu, slotAddrs_unallocated] at ht
        cases ht
      · exact hal ⟨h0, hu⟩

/-- What a returning `create_file` has done on a well-formed, tidy volume. -/
theorem create_file_ok_step (dev : Device) (hwf : WellFormed dev) (ht : Tidy dev)
    (path : List Byte) (d : Bool) (dev' : Device)
    (h : create_file dev path d = some (.ok (), dev')) :
    ∃ i p devA, findFirstFreeInode dev = .ok i ∧
      getInodeIndexFromPath dev (removeFileNameFromPath path) = .ok p ∧
      (getInode dev p).is_dir = true ∧
      AddEffect dev p (getFileNameFromPath path) (.ok ()) devA ∧
      AddEntries dev p i (getFileNameFromPath path) (.ok ()) devA ∧
      CreateStep dev devA dev' p i (.ok ()) ∧
      getInode dev' i = ⟨UINT32_MAX, 0, d⟩ ∧
      dev' = setInode devA i ⟨UINT32_MAX, 0, d⟩ := by
  have hU : UINT32_MAX = 4294967295 := rfl
  rcases findFirstFreeInode_cases dev with hfree | ⟨i, hfree⟩
  · unfold create_file at h
    simp only [hfree, Option.some.injEq, Prod.mk.injEq] at h
    cases h.1
  · cases hpar : getInodeIndexFromPath dev (removeFileNameFromPath path) with
    | error e =>
      unfold create_file at h
      simp only [hfree, hpar, Option.some.injEq, Prod.mk.injEq] at h
      cases h.1
    | ok p =>
      have hp := getInodeIndexFromPath_lt dev hwf _ p hpar
      obtain ⟨hi, hi0⟩ := findFirstFreeInode_ok hfree
      cases hdir : (getInode dev p).is_dir with
      | false =>
        unfold create_file at h
        have h256 : p % 256 = p := by omega
        simp only [hfree, hpar, addToDirectory, h256, hdir, if_true, Option.some.injEq,
          Prod.mk.injEq] at h
        cases h.1
      | true =>
        obtain ⟨r2, devA, heff, hc, hshape⟩ :=
          create_file_dir dev hwf path d i p hfree hpar hdir
        obtain ⟨hsh, hen⟩ := hshape (prefixLive_of_tidy hwf ht p hp)
        have hpu := dir_used hwf p hp hdir
        rcases hc with ⟨hr, hc⟩ | ⟨hr, hc⟩
        · subst hr
          rw [hc] at h
          simp only [Option.some.injEq, Prod.mk.injEq, true_and] at h
          have hsame : getInode dev' i = ⟨UINT32_MAX, 0, d⟩ := by
            rw [← h, getInode_setInode_same devA i _ (by simp only [hU]; omega)
              (by simp only; omega)]
          have hstep : CreateStep dev devA dev' p i (.ok ()) := by
            refine ⟨hwf, ht, hp, hi, hi0, hpu, heff.frame, hsh, ?_, ?_, Or.inl ⟨rfl, ?_⟩⟩
            · intro j hj
              rw [← h]
              exact getInode_setInode_ne devA i j _ (fun hh => hj hh.symm)
            · intro x hx
              rw [← h]
              exact setInode_data devA i _ x hi hx
            · rw [hsame]
          exact ⟨i, p, devA, hfree, rfl, hdir, heff, hen, hstep, hsame, h.symm⟩
        · rw [hc] at h
          simp only [Option.some.injEq, Prod.mk.injEq] at h
          cases h.1

/-! ## Paths, component by component -/

theorem pathPieces_ne_nil (path : List Byte) : pathPieces path ≠ [] := by
  cases path with
  | nil => simp [pathPieces]
  | cons c cs =>
    rw [pathPieces]
    split_ifs
    · simp
    · cases pathPieces cs <;> simp

theorem pathPieces_append (u v : List Byte) :
    pathPieces (u ++ PATH_DELIMITER :: v) = pathPieces u ++ pathPieces v := by
  induction u with
  | nil => simp [pathPieces]
  | cons x xs ih =>
    rw [List.cons_append, pathPieces, pathPieces, ih]
    split_ifs with hx
    · rfl
    · cases hp : pathPieces xs with
      | nil => exact absurd hp (pathPieces_ne_nil xs)
      | cons s ss => rfl

theorem pathPieces_noslash (c : List Byte) (h : PATH_DELIMITER ∉ c) : pathPieces c = [c] := by
  induction c with
  | nil => rfl
  | cons x xs ih =>
    have hx : x ≠ PATH_DELIMITER := fun hh => h (hh ▸ List.mem_cons_self _ _)
    have hxs : PATH_DELIMITER ∉ xs := fun hh => h (List.mem_cons_of_mem _ hh)
    rw [pathPieces, if_neg hx, ih hxs]

theorem splitPath_eq (path : List Byte) (h : (32 : Byte) ∉ path) :
    splitPath path = .ok (pathNames path) := by
  unfold splitPath pathNames
  rw [if_neg h]

theorem pathNames_append (u c : List Byte) (h : PATH_DELIMITER ∉ c) (hc : c ≠ [])
    (hdot : c ≠ [46]) : pathNames (u ++ PATH_DELIMITER :: c) = pathNames u ++ [capFileName c] := by
  unfold pathNames
  rw [pathPieces_append, pathPieces_noslash c h, List.filter_append, List.map_append]
  congr 1
  have : decide (c ≠ [] ∧ c ≠ [46]) = true := decide_eq_true ⟨hc, hdot⟩
  simp only [List.filter_cons, this, if_true, List.filter_nil, List.map_cons, List.map_nil]

theorem dropWhile_append_stop {α : Type} (q : α → Bool) (l1 : List α) (x : α) (l2 : List α)
    (h1 : ∀ y ∈ l1, q y = true) (hx : q x = false) :
    (l1 ++ x :: l2).dropWhile q = x :: l2 := by
  induction l1 with
  | nil => simp [List.dropWhile, hx]
  | cons y ys ih =>
    rw [List.cons_append, List.dropWhile_cons, if_pos (h1 y (List.mem_cons_self _ _))]
    exact ih (fun z hz => h1 z (List.mem_cons_of_mem _ hz))

theorem takeWhile_append_stop {α : Type} (q : α → Bool) (l1 : List α) (x : α) (l2 : List α)
    (h1 : ∀ y ∈ l1, q y = true) (hx : q x = false) :
    (l1 ++ x :: l2).takeWhile q = l1 := by
  induction l1 with
  | nil => simp [List.takeWhile, hx]
  | cons y ys ih =>
    rw [List.cons_append, List.takeWhile_cons, if_pos (h1 y (List.mem_cons_self _ _)),
      ih (fun z hz => h1 z (List.mem_cons_of_mem _ hz))]

theorem removeFileNameFromPath_append (u c : List Byte) (h : PATH_DELIMITER ∉ c) :
    removeFileNameFromPath (u ++ PATH_DELIMITER :: c) = u := by
  unfold removeFileNameFromPath
  rw [if_neg (by simp)]
  unfold beforeLastDelimiter
  rw [List.reverse_append, List.reverse_cons, List.append_assoc, List.singleton_append,
    dropWhile_append_stop _ _ _ _ (by
      intro y hy
      rw [List.mem_reverse] at hy
      have : y ≠ PATH_DELIMITER := fun hh => h (hh ▸ hy)
      simpa using this) (by simp)]
  simp

theorem getFileNameFromPath_append (u c : List Byte) (h : PATH_DELIMITER ∉ c) :
    getFileNameFromPath (u ++ PATH_DELIMITER :: c) = capFileName c := by
  unfold getFileNameFromPath
  rw [if_neg (by simp)]
  unfold afterLastDelimiter
  rw [List.reverse_append, List.reverse_cons, List.append_assoc, List.singleton_append,
    takeWhile_append_stop _ _ _ _ (by
      intro y hy
      rw [List.mem_reverse] at hy
      have : y ≠ PATH_DELIMITER := fun hh => h (hh ▸ hy)
      simpa using this) (by simp)]
  simp

theorem walkPath_append (dev : Device) (fn : List Byte) (names : List (List Byte))
    (last : List Byte) : ∀ (idx : Nat),
    walkPath dev fn (names ++ [last]) idx =
      match walkPath dev fn names idx with
      | .error e => .error e
      | .ok q => walkPath dev fn [last] q := by
  induction names with
  | nil => intro idx; rfl
  | cons c cs ih =>
    intro idx
    rw [List.cons_append]
    simp only [walkPath]
    split_ifs with hc
    · rfl
    · cases findFileInDirectory dev (getInode dev idx).addr (getInode dev idx).size c with
      | error e => rfl
      | ok y => exact ih y

/-- Path resolution is the walk over the names of the path, when the root is a
directory and the path holds no space. -/
theorem resolve_eq_walk (dev : Device) (hroot : (getInode dev 0).is_dir = true)
    (path : List Byte) (hsp : (32 : Byte) ∉ path) :
    getInodeIndexFromPath dev path =
      walkPath dev (getFileNameFromPath path) (pathNames path) 0 := by
  unfold getInodeIndexFromPath
  by_cases h1 : path = [] ∨ path = [46]
  · rw [if_pos h1]
    rcases h1 with h | h <;> subst h <;> rfl
  · rw [if_neg h1]
    by_cases h2 : PATH_DELIMITER ∉ path
    · rw [if_pos h2]
      have hn : pathNames path = [capFileName path] := by
        unfold pathNames
        rw [pathPieces_noslash path h2]
        have : decide (path ≠ [] ∧ path ≠ [46]) = true :=
          decide_eq_true ⟨fun h => h1 (Or.inl h), fun h => h1 (Or.inr h)⟩
        simp only [List.filter_cons, this, if_true, List.filter_nil, List.map_cons, List.map_nil]
      rw [hn]
      simp only [walkPath, BASEDIR_INODE_INDEX, hroot]
      rw [if_neg (by simp)]
      cases findFileInDirectory dev (getInode dev 0).addr (getInode dev 0).size
        (capFileName path) <;> rfl
    · rw [if_neg h2, splitPath_eq path hsp]
      rfl

/-- On a well-formed, tidy volume a walk that returns does so whatever the
name that is exempt from the test for a file as parent. -/
theorem walkPath_fn (dev : Device) (hwf : WellFormed dev) (ht : Tidy dev) (fn fn' : List Byte)
    (names : List (List Byte)) : ∀ (idx r : Nat), idx < 64 →
    walkPath dev fn names idx = .ok r → walkPath dev fn' names idx = .ok r := by
  induction names with
  | nil => intro idx r _ h; exact h
  | cons c cs ih =>
    intro idx r hidx h
    simp only [walkPath] at h ⊢
    split_ifs at h with hc
    cases hf : findFileInDirectory dev (getInode dev idx).addr (getInode dev idx).size c with
    | error e => rw [hf] at h; cases h
    | ok y =>
      rw [hf] at h
      obtain ⟨hy, hal⟩ := lookup_lt dev hwf idx hidx c y hf
      have hd := ht.dirs idx hidx hal
      rw [if_neg (by rw [hd]; simp)]
      simp only
      exact ih y r hy h

/-! ## The path of a created entry -/

theorem capFileName_long (c : List Byte) (h : NAME_SIZE < c.length) :
    capFileName c = c.take NAME_SIZE := by
  unfold capFileName
  rw [if_pos h]

theorem capFileName_short (c : List Byte) (h : c.length ≤ NAME_SIZE) : capFileName c = c := by
  unfold capFileName
  rw [if_neg (by omega)]

theorem capFileName_length (c : List Byte) : (capFileName c).length ≤ NAME_SIZE := by
  unfold capFileName
  split_ifs with h
  · rw [List.length_take]; omega
  · omega

/-- The name field of a name without NUL bytes: the name and its padding. -/
theorem strncpy_nulfree (n : List Byte) (h0 : (0 : Byte) ∉ n) (hl : n.length ≤ NAME_SIZE) :
    strncpy n NAME_SIZE = n ++ List.replicate (NAME_SIZE - n.length) 0 := by
  have ht : n.takeWhile (fun x => decide (x ≠ 0)) = n := by
    rw [List.takeWhile_eq_self_iff]
    intro x hx
    have : x ≠ 0 := fun h => h0 (h ▸ hx)
    simpa using this
  unfold strncpy
  simp only [ht, List.take_of_length_le hl]

theorem nameKey_nulfree (n : List Byte) (h0 : (0 : Byte) ∉ n) (hl : n.length ≤ NAME_SIZE) :
    nameKey n = n := by
  have ht : n.takeWhile (fun x => decide (x ≠ 0)) = n := by
    rw [List.takeWhile_eq_self_iff]
    intro x hx
    have : x ≠ 0 := fun h => h0 (h ▸ hx)
    simpa using this
  unfold nameKey
  rw [ht, List.take_of_length_le hl]

theorem mem_liveEntries (dev : Device) (p : Nat) (e : dir_entry) (h : e ∈ liveEntries dev p) :
    ∃ s ∈ slotAddrs (getInode dev p).addr (getInode dev p).size,
      readDirEntry dev s = e ∧ e.inode_index ≠ 0 := by
  rw [liveEntries_eq, List.mem_filter, List.mem_map] at h
  obtain ⟨⟨s, hs, rfl⟩, hl⟩ := h
  exact ⟨s, hs, rfl, by simpa using hl⟩

theorem liveEntries_name_length (dev : Device) (p : Nat) (e : dir_entry)
    (h : e ∈ liveEntries dev p) : e.name.length = NAME_SIZE := by
  obtain ⟨s, -, rfl, -⟩ := mem_liveEntries dev p e h
  simp [readDirEntry, blkRead]

/-- After `create_file(parent/c)` has returned on a well-formed, tidy volume:
the parent, which resolved to `p`, resolves to `p`; its live entries are those
it had and the entry of the new inode `i`; the path resolves to `i`; and the
inode `i` is not allocated and carries the flag. -/
theorem create_resolves (dev : Device) (hwf : WellFormed dev) (ht : Tidy dev)
    (parent c : List Byte) (d : Bool) (dev' : Device)
    (hp0 : (0 : Byte) ∉ parent) (hps : (32 : Byte) ∉ parent)
    (hc0 : (0 : Byte) ∉ c) (hcd : PATH_DELIMITER ∉ c) (hcne : c ≠ [])
    (h : create_file dev (parent ++ PATH_DELIMITER :: c) d = some (.ok (), dev')) :
    ∃ i p, findFirstFreeInode dev = .ok i ∧ getInodeIndexFromPath dev parent = .ok p ∧
      getInodeIndexFromPath dev' parent = .ok p ∧ (getInode dev' p).is_dir = true ∧
      liveEntries dev' p = liveEntries dev p ++ [⟨i, strncpy (capFileName c) NAME_SIZE⟩] ∧
      (∀ e ∈ liveEntries dev p, strncmpEq NAME_SIZE e.name (capFileName c) = false) ∧
      (∀ c2 : List Byte, (32 : Byte) ∉ c2 → PATH_DELIMITER ∉ c2 → c2 ≠ [] → c2 ≠ [46] →
        capFileName c2 = capFileName c →
        getInodeIndexFromPath dev' (parent ++ PATH_DELIMITER :: c2) = .ok i) ∧
      getInode dev' i = ⟨UINT32_MAX, 0, d⟩ ∧
      (∀ X, X < 64 → X ≠ p → X ≠ i →
        getInode dev' X = getInode dev X ∧ liveEntries dev' X = liveEntries dev X) ∧
      p < 64 ∧ i < 64 ∧ i ≠ 0 ∧ i ≠ p := by
  obtain ⟨hwf', ht'⟩ := create_file_sound dev hwf ht _ d _ dev' h
  obtain ⟨i, p, devA, hfree, hpar, hdir, heff, hen, hstep, hino, hdev'⟩ :=
    create_file_ok_step dev hwf ht _ d dev' h
  rw [removeFileNameFromPath_append parent c hcd] at hpar
  rw [getFileNameFromPath_append parent c hcd] at heff hen
  have hcap0 : (0 : Byte) ∉ capFileName c := fun hm => hc0 (mem_capFileName c 0 hm)
  have hkey : nameKey (capFileName c) ≠ [] :=
    nameKey_ne_nil _ (capFileName_ne_nil c hcne) hcap0
  have hlive := step_live_p (capFileName c) hstep hen hwf'
  have hkept : LookupsKept dev dev' := by
    rw [hdev']
    exact lookupsKept_create hwf hstep.hp hdir heff i hstep.hi hstep.unused _
  have hpar' := getInodeIndexFromPath_kept dev dev' hwf hkept parent hp0 p hpar
  have hdir' : (getInode dev' p).is_dir = true := by
    rw [step_inode_p hstep]
    exact heff.frame.is_dir
  have hold : ∀ e ∈ liveEntries dev p, strncmpEq NAME_SIZE e.name (capFileName c) = false := by
    intro e he
    obtain ⟨s, hs, rfl, -⟩ := mem_liveEntries dev p e he
    cases hm : strncmpEq NAME_SIZE (readDirEntry dev s).name (capFileName c) with
    | false => rfl
    | true =>
      have := heff.duplicate ⟨s, hs, hm⟩
      cases this
  have hfind : findFileInDirectory dev' (getInode dev' p).addr (getInode dev' p).size
      (capFileName c) = .ok i := by
    rw [findFile_live dev' hwf' p hstep.hp (capFileName c) hkey, hlive, List.find?_append,
      List.find?_eq_none.2 (fun e he => by rw [hold e he]; simp)]
    simp only [Option.none_or, List.find?_cons, strncmpEq_strncpy]
  have hroot' := hwf'.root_dir.2
  have hpath : ∀ c2 : List Byte, (32 : Byte) ∉ c2 → PATH_DELIMITER ∉ c2 → c2 ≠ [] →
      c2 ≠ [46] → capFileName c2 = capFileName c →
      getInodeIndexFromPath dev' (parent ++ PATH_DELIMITER :: c2) = .ok i := by
    intro c2 hcs2 hcd2 hcne2 hcdot2 hcap
    have hsp : (32 : Byte) ∉ parent ++ PATH_DELIMITER :: c2 := by
      intro hm
      rcases List.mem_append.1 hm with h1 | h1
      · exact hps h1
      · rcases List.mem_cons.1 h1 with h2 | h2
        · cases h2
        · exact hcs2 h2
    rw [resolve_eq_walk dev' hroot' _ hsp, pathNames_append parent c2 hcd2 hcne2 hcdot2,
      getFileNameFromPath_append parent c2 hcd2, walkPath_append, hcap]
    have hw := hpar'
    rw [resolve_eq_walk dev' hroot' parent hps] at hw
    rw [walkPath_fn dev' hwf' ht' _ (capFileName c) _ 0 p (by omega) hw]
    simp only [walkPath, hdir']
    rw [if_neg (by simp), hfind]
  refine ⟨i, p, hfree, hpar, hpar', hdir', hlive, hold, hpath, hino, ?_, hstep.hp, hstep.hi,
    step_index_pos hstep, step_ne hstep⟩
  intro X hX hXp hXi
  exact ⟨step_other hstep X hX hXp hXi, step_live_other hstep X hX hXp hXi⟩

/-- A name field of ten bytes that `strncmp` finds equal to ten bytes without
NUL is these ten bytes. -/
theorem name_eq_of_match (a b : List Byte) (ha : a.length = NAME_SIZE) (hb : b.length = NAME_SIZE)
    (hb0 : (0 : Byte) ∉ b) (h : strncmpEq NAME_SIZE a b = true) : a = b := by
  have hk := (strncmpEq_iff_nameKey a b).1 h
  rw [nameKey_nulfree b hb0 (by omega)] at hk
  unfold nameKey at hk
  have hlen : ((a.takeWhile fun c => decide (c ≠ 0)).take NAME_SIZE).length = NAME_SIZE := by
    rw [hk, hb]
  rw [List.length_take] at hlen
  have hpre : (a.takeWhile fun c => decide (c ≠ 0)) <+: a := List.takeWhile_prefix _
  have hle := hpre.length_le
  have heq : (a.takeWhile fun c => decide (c ≠ 0)) = a :=
    hpre.eq_of_length (by omega)
  rw [heq, List.take_of_length_le (by omega)] at hk
  exact hk

/-- A directory in which no live entry matches a name with a key holds no slot
that matches it. -/
theorem no_match_of_live (dev : Device) (hwf : WellFormed dev) (p : Nat) (hp : p < 64)
    (c : List Byte) (hc : nameKey c ≠ [])
    (h : ∀ e ∈ liveEntries dev p, strncmpEq NAME_SIZE e.name c = false) :
    ∀ s ∈ slotAddrs (getInode dev p).addr (getInode dev p).size, matchAt dev c s = false := by
  apply findFile_notFound
  rw [findFile_live dev hwf p hp c hc, List.find?_eq_none.2 (fun e he => by rw [h e he]; simp)]

/-- On a well-formed, tidy volume `create_file(parent/c)` returns when the
parent resolves to a directory in which no live entry matches the name, and an
inode is unused. -/
theorem create_file_returns (dev : Device) (hwf : WellFormed dev)
    (path : List Byte) (d : Bool) (p i : Nat)
    (hpar : getInodeIndexFromPath dev (removeFileNameFromPath path) = .ok p)
    (hdir : (getInode dev p).is_dir = true)
    (hkey : nameKey (getFileNameFromPath path) ≠ [])
    (hno : ∀ e ∈ liveEntries dev p,
      strncmpEq NAME_SIZE e.name (getFileNameFromPath path) = false)
    (hfree : findFirstFreeInode dev = .ok i) :
    ∃ dev', create_file dev path d = some (.ok (), dev') := by
  have hp := getInodeIndexFromPath_lt dev hwf _ p hpar
  obtain ⟨r, devA, heff, hc, -⟩ := create_file_dir dev hwf path d i p hfree hpar hdir
  have hr : r = .ok () := heff.succeeds (no_match_of_live dev hwf p hp _ hkey hno) hkey
  subst hr
  rcases hc with ⟨_, hc⟩ | ⟨hr, _⟩
  · exact ⟨_, hc⟩
  · cases hr
/-! ## Many entries in the root directory -/

theorem find_range_lowest (q : Nat → Bool) (n i : Nat) (hi : i < n) (hq : q i = true)
    (hlow : ∀ j, j < i → q j = false) : (List.range n).find? q = some i := by
  obtain ⟨m, rfl⟩ : ∃ m, n = i + (m + 1) := ⟨n - i - 1, by omega⟩
  rw [List.range_add, List.find?_append,
    List.find?_eq_none.2 (fun j hj => by rw [hlow j (List.mem_range.1 hj)]; simp),
    List.range_succ_eq_map]
  simp [hq]

/-- The inode that `findFirstFreeInode` returns is the lowest unused one. -/
theorem findFirstFreeInode_lowest (dev : Device) (i : Nat) (hi : i < 64)
    (h0 : (getInode dev i).addr = 0) (hlow : ∀ j, j < i → (getInode dev j).addr ≠ 0) :
    findFirstFreeInode dev = .ok i := by
  unfold findFirstFreeInode
  rw [find_range_lowest _ INODE_AMOUNT i (by rw [INODE_AMOUNT_eq]; exact hi) (by simpa using h0)
    (fun j hj => by simpa using hlow j hj)]

theorem createAll_append (L M : List (List Byte × Bool)) : ∀ dev : Device,
    createAll dev (L ++ M) = createAll (createAll dev L) M := by
  induction L with
  | nil => intro dev; rfl
  | cons x L ih =>
    intro dev
    obtain ⟨q, d⟩ := x
    simp only [List.cons_append, createAll]
    exact ih _

theorem createResults_append (L M : List (List Byte × Bool)) : ∀ dev : Device,
    createResults dev L = List.replicate L.length (some (.ok ())) →
    createResults dev (L ++ M) =
      List.replicate L.length (some (.ok ())) ++ createResults (createAll dev L) M := by
  induction L with
  | nil => intro dev _; rfl
  | cons x L ih =>
    intro dev h
    obtain ⟨q, d⟩ := x
    simp only [List.cons_append, createResults, createAll, List.length_cons,
      List.replicate_succ, List.append_eq] at h ⊢
    cases hc : create_file dev q d with
    | none => rw [hc] at h; simp at h
    | some r =>
      rw [hc] at h
      simp only [List.cons.injEq, Option.some.injEq] at h
      simp only [afterCreate, hc, h.1]
      rw [ih r.2 h.2]

theorem rootEntries_append (L : List (List Byte × Bool)) (x : List Byte × Bool) : ∀ b : Nat,
    rootEntries b (L ++ [x]) = rootEntries b L ++ [⟨b + L.length, strncpy x.1 NAME_SIZE⟩] := by
  induction L with
  | nil => intro b; rfl
  | cons y L ih =>
    intro b
    simp only [List.cons_append, rootEntries, List.append_eq, ih, List.length_cons]
    rw [show b + 1 + L.length = b + (L.length + 1) by omega]

theorem mem_rootEntries (L : List (List Byte × Bool)) : ∀ (b : Nat) (e : dir_entry),
    e ∈ rootEntries b L → ∃ x ∈ L, e.name = strncpy x.1 NAME_SIZE := by
  induction L with
  | nil => intro b e h; cases h
  | cons y L ih =>
    intro b e h
    simp only [rootEntries, List.mem_cons] at h
    rcases h with h | h
    · exact ⟨y, List.mem_cons_self _ _, by rw [h]⟩
    · obtain ⟨x, hx, hn⟩ := ih _ e h
      exact ⟨x, List.mem_cons_of_mem _ hx, hn⟩

/-- Two valid names are found equal by `strncmp` on the name field only when
they are the same name. -/
theorem strncmpEq_valid (m n : List Byte) (hm : ValidName m) (hn : ValidName n) :
    strncmpEq NAME_SIZE (strncpy m NAME_SIZE) n = true ↔ m = n := by
  rw [strncmpEq_iff_nameKey, nameKey_strncpy, nameKey_nulfree m hm.2.2.1 hm.2.1,
    nameKey_nulfree n hn.2.2.1 hn.2.1]

theorem rootEntries_find (L : List (List Byte × Bool)) : ∀ (b j : Nat) (x : List Byte × Bool),
    (∀ e ∈ L, ValidName e.1) → (L.map Prod.fst).Nodup → L[j]? = some x →
    (rootEntries b L).find? (fun e => strncmpEq NAME_SIZE e.name x.1) =
      some ⟨b + j, strncpy x.1 NAME_SIZE⟩ := by
  induction L with
  | nil => intro b j x _ _ h; simp at h
  | cons y L ih =>
    intro b j x hv hd hj
    simp only [List.map_cons, List.nodup_cons] at hd
    have hx : x ∈ y :: L := List.mem_iff_getElem?.2 ⟨j, hj⟩
    cases j with
    | zero =>
      simp only [List.getElem?_cons_zero, Option.some.injEq] at hj
      subst hj
      simp only [rootEntries, List.find?_cons,
        (strncmpEq_valid y.1 y.1 (hv y hx) (hv y hx)).2 rfl, Nat.add_zero]
    | succ j =>
      simp only [List.getElem?_cons_succ] at hj
      have hxL : x ∈ L := List.mem_iff_getElem?.2 ⟨j, hj⟩
      have hne : y.1 ≠ x.1 := fun hh => hd.1 (hh ▸ List.mem_map_of_mem Prod.fst hxL)
      have hfalse : strncmpEq NAME_SIZE (strncpy y.1 NAME_SIZE) x.1 = false := by
        cases hm : strncmpEq NAME_SIZE (strncpy y.1 NAME_SIZE) x.1 with
        | false => rfl
        | true =>
          exact absurd ((strncmpEq_valid y.1 x.1 (hv y (List.mem_cons_self _ _)) (hv x hx)).1 hm)
            hne
      simp only [rootEntries, List.find?_cons, hfalse]
      rw [ih (b + 1) j x (fun e he => hv e (List.mem_cons_of_mem _ he)) hd.2 hj]
      rw [show b + 1 + j = b + (j + 1) by omega]

/-- The listing of `rootEntries` when the inodes they name are the ones that
the creations have written. -/
theorem rootEntries_listing (dev : Device) (L : List (List Byte × Bool)) : ∀ b : Nat,
    (∀ j x, L[j]? = some x → getInode dev (b + j) = ⟨UINT32_MAX, 0, x.2⟩) →
    (rootEntries b L).map (fun e =>
      ({ name := e.name
         is_dir := (getInode dev e.inode_index).is_dir
         file_size := toInt32 (getInode dev e.inode_index).size } : dir_list_entry)) =
      L.map fun x => ⟨strncpy x.1 NAME_SIZE, x.2, 0⟩ := by
  induction L with
  | nil => intro b _; rfl
  | cons y L ih =>
    intro b h
    have h0 := h 0 y (by simp)
    simp only [Nat.add_zero] at h0
    simp only [rootEntries, List.map_cons, h0]
    rw [ih (b + 1) (fun j x hj => by
      have := h (j + 1) x (by simpa using hj)
      rw [show b + 1 + j = b + (j + 1) by omega]
      exact this)]
    simp [toInt32]

theorem resolve_empty (dev : Device) : getInodeIndexFromPath dev [] = .ok 0 := by
  unfold getInodeIndexFromPath
  rw [if_pos (Or.inl rfl)]
  rfl

theorem resolve_slash (dev : Device) : getInodeIndexFromPath dev [PATH_DELIMITER] = .ok 0 := by
  rfl

/-- The volume after the creation of valid, pairwise distinct names in the
root directory of the fresh volume, at most 63 of them: every call has
returned without an error, the live entries of the root are the names in the
order of creation with the inodes 1, 2, ..., these inodes are the empty
entries with the flags of the calls, and the inodes after them are unused. -/
theorem create_many_inv (L : List (List Byte × Bool)) :
    L.length ≤ 63 → (∀ e ∈ L, ValidName e.1) → (L.map Prod.fst).Nodup →
    Reached (createAll freshVolume (rootCalls L)) ∧
      createResults freshVolume (rootCalls L) = List.replicate L.length (some (.ok ())) ∧
      liveEntries (createAll freshVolume (rootCalls L)) 0 = rootEntries 1 L ∧
      (∀ j x, L[j]? = some x →
        getInode (createAll freshVolume (rootCalls L)) (1 + j) = ⟨UINT32_MAX, 0, x.2⟩) ∧
      (∀ X, L.length < X → X < 64 →
        (getInode (createAll freshVolume (rootCalls L)) X).addr = 0) := by
  induction L using List.reverseRecOn with
  | nil =>
    intro _ _ _
    refine ⟨Reached.format blankDevice, rfl, by decide!, fun j x h => by simp at h, ?_⟩
    have : ∀ X, X < 64 → 0 < X → (getInode freshVolume X).addr = 0 := by decide!
    intro X h1 h2
    exact this X h2 h1
  | append_singleton L x ih =>
    intro hk hv hd
    obtain ⟨n, d⟩ := x
    rw [List.length_append, List.length_singleton] at hk
    rw [List.map_append, List.nodup_append] at hd
    obtain ⟨hdL, -, hdis⟩ := hd
    have hvn : ValidName n := hv (n, d) (by simp)
    obtain ⟨hr, hres, hlive, hino, hun⟩ :=
      ih (by omega) (fun e he => hv e (List.mem_append_left _ he)) hdL
    obtain ⟨hwf, ht⟩ := reached_sound hr
    have hcalls : rootCalls (L ++ [(n, d)]) = rootCalls L ++ [(PATH_DELIMITER :: n, d)] := by
      simp [rootCalls]
    have hlen : (rootCalls L).length = L.length := by simp [rootCalls]
    rw [hcalls, createAll_append]
    generalize hdev : createAll freshVolume (rootCalls L) = dev at hr hwf ht hlive hino hun
    have hfree : findFirstFreeInode dev = .ok (L.length + 1) := by
      apply findFirstFreeInode_lowest dev _ (by omega) (hun _ (by omega) (by omega))
      intro j hj
      cases j with
      | zero => exact hwf.root_dir.1
      | succ j =>
        obtain ⟨y, hy⟩ : ∃ y, L[j]? = some y :=
          ⟨L[j], List.getElem?_eq_getElem (by omega)⟩
        rw [show j + 1 = 1 + j by omega, hino j y hy]
        show UINT32_MAX ≠ 0
        decide
    have hfn : getFileNameFromPath (PATH_DELIMITER :: n) = n := by
      have := getFileNameFromPath_append [] n hvn.2.2.2.2.1
      rw [List.nil_append] at this
      rw [this, capFileName_short n hvn.2.1]
    have hrm : removeFileNameFromPath (PATH_DELIMITER :: n) = [] := by
      have := removeFileNameFromPath_append [] n hvn.2.2.2.2.1
      rw [List.nil_append] at this
      exact this
    have hno : ∀ e ∈ liveEntries dev 0,
        strncmpEq NAME_SIZE e.name (getFileNameFromPath (PATH_DELIMITER :: n)) = false := by
      intro e he
      rw [hfn]
      rw [hlive] at he
      obtain ⟨y, hy, hname⟩ := mem_rootEntries L 1 e he
      rw [hname]
      cases hm : strncmpEq NAME_SIZE (strncpy y.1 NAME_SIZE) n with
      | false => rfl
      | true =>
        have := (strncmpEq_valid y.1 n (hv y (List.mem_append_left _ hy)) hvn).1 hm
        exact absurd (List.mem_map_of_mem Prod.fst hy) (fun h1 => hdis h1 (by simp [this]))
    obtain ⟨dev', hcr⟩ := create_file_returns dev hwf (PATH_DELIMITER :: n) d 0 (L.length + 1)
      (by rw [hrm]; exact resolve_empty dev) hwf.root_dir.2
      (by rw [hfn]; exact nameKey_ne_nil n hvn.1 hvn.2.2.1) hno hfree
    obtain ⟨i, p, hfree2, hpar, -, -, hlive', -, -, hino', hoth, -, -, -, -⟩ :=
      create_resolves dev hwf ht [] n d dev' (by simp) (by simp) hvn.2.2.1 hvn.2.2.2.2.1 hvn.1
        hcr
    have hi : i = L.length + 1 := by
      rw [hfree] at hfree2
      simp only [Except.ok.injEq] at hfree2
      exact hfree2.symm
    have hp : p = 0 := by
      rw [resolve_empty] at hpar
      simp only [Except.ok.injEq] at hpar
      exact hpar.symm
    subst hi hp
    have hdev' : createAll dev [(PATH_DELIMITER :: n, d)] = dev' := by
      simp only [createAll, afterCreate]
      rw [hcr]
    rw [hdev']
    refine ⟨Reached.create _ d (.ok ()) dev' hr hcr, ?_, ?_, ?_, ?_⟩
    · rw [← hdev] at hcr
      rw [createResults_append _ _ _ (by rw [hlen]; exact hres), hlen]
      simp only [createResults, hcr, List.length_append, List.length_singleton]
      exact (List.replicate_succ' _ _).symm
    · rw [hlive', hlive, rootEntries_append, capFileName_short n hvn.2.1, Nat.add_comm 1]
    · intro j y hj
      by_cases hjl : j < L.length
      · rw [List.getElem?_append_left hjl] at hj
        rw [(hoth (1 + j) (by omega) (by omega) (by omega)).1]
        exact hino j y hj
      · have hjl2 : j = L.length := by
          have := (List.getElem?_eq_some.1 hj).1
          simp only [List.length_append, List.length_singleton] at this
          omega
        subst hjl2
        simp only [List.getElem?_concat_length, Option.some.injEq] at hj
        subst hj
        rw [Nat.add_comm 1, hino']
    · intro X h1 h2
      rw [List.length_append, List.length_singleton] at h1
      rw [(hoth X h2 (by omega) (by omega)).1]
      exact hun X (by omega) h2

/-! # The claims -/

/-- C3: on an inode table whose allocated extents have distinct start
addresses, do not overlap and lie inside `[MEM_START, DEVICE_SIZE]`, a
successful `findFreeSpace(n)` returns the start of a gap of the data region of
size at least `n`, no gap of size at least `n` is smaller, no gap of the same
size has a lower address, and when some gap has size exactly `n` the returned
gap has size exactly `n`. -/
theorem findFreeSpace_best_fit (dev : Device) (n a : Nat) (hok : ExtentsOk dev)
    (h : findFreeSpace dev n = .ok a) :
    ∃ g ∈ dataGaps dev, g.1 = a ∧ (n : Int) ≤ g.2 ∧
      (∀ g' ∈ dataGaps dev, (n : Int) ≤ g'.2 → g.2 ≤ g'.2) ∧
      (∀ g' ∈ dataGaps dev, g'.2 = g.2 → g.1 ≤ g'.1) ∧
      (∀ g' ∈ dataGaps dev, g'.2 = (n : Int) → g.2 = (n : Int)) := by
  rw [findFreeSpace_eq_scanAll dev n hok] at h
  obtain ⟨s1, -, s3, s4⟩ := scanTo_spec DEVICE_SIZE (by decide) n (extentsInAddressOrder dev)
    MEM_START ⟨UINT32_MAX, UINT32_MAX, MEM_START⟩ (chained_extents dev hok) rfl (le_refl _)
  rw [← gapsFrom_eq] at s3 s4
  split_ifs at h with hmin
  simp only at s1 s3 s4
  obtain ⟨g, hg, g1, g2, g3, g4⟩ := s4 (lt_of_le_of_ne s1 hmin)
  have ha : (scanTo DEVICE_SIZE n ⟨UINT32_MAX, UINT32_MAX, MEM_START⟩
      (extentsInAddressOrder dev)).minAddress = a := by
    injection h
  have hmin' : ∀ g' ∈ dataGaps dev, (n : Int) ≤ g'.2 → g.2 ≤ g'.2 := by
    intro g' hg' hn
    rw [g2]
    exact s3 g' hg' hn
  refine ⟨g, hg, g1.trans ha, g3, hmin', g4, ?_⟩
  intro g' hg' he
  have := hmin' g' hg' (by omega)
  omega

/-- Witness of C3: the root directory at 775..818, a file at 830..839, and a
request of 10 bytes: the exact-fit gap at 820 wins over the trailing gap. -/
theorem findFreeSpace_best_fit_witness :
    ExtentsOk (setInode (format blankDevice) 1 ⟨830, 10, false⟩) ∧
    findFreeSpace (setInode (format blankDevice) 1 ⟨830, 10, false⟩) 10 = .ok 820 ∧
    ∃ g ∈ dataGaps (setInode (format blankDevice) 1 ⟨830, 10, false⟩), g.1 = 820 ∧
      ((10 : Nat) : Int) ≤ g.2 ∧
      (∀ g' ∈ dataGaps (setInode (format blankDevice) 1 ⟨830, 10, false⟩),
        ((10 : Nat) : Int) ≤ g'.2 → g.2 ≤ g'.2) ∧
      (∀ g' ∈ dataGaps (setInode (format blankDevice) 1 ⟨830, 10, false⟩),
        g'.2 = g.2 → g.1 ≤ g'.1) ∧
      (∀ g' ∈ dataGaps (setInode (format blankDevice) 1 ⟨830, 10, false⟩),
        g'.2 = ((10 : Nat) : Int) → g.2 = ((10 : Nat) : Int)) :=
  ⟨by decide!, by decide!,
    findFreeSpace_best_fit (setInode (format blankDevice) 1 ⟨830, 10, false⟩) 10 820
      (by decide!) (by decide!)⟩

/-- C4: on an inode table whose allocated extents have distinct start
addresses, do not overlap and lie inside `[MEM_START, DEVICE_SIZE]`,
`findFreeSpace(n)` throws "no free space" exactly when every gap of the data
region, the trailing one included, is smaller than `n`. -/
theorem findFreeSpace_fails_iff (dev : Device) (n : Nat) (hok : ExtentsOk dev) :
    findFreeSpace dev n = .error .noFreeSpace ↔ ∀ g ∈ dataGaps dev, g.2 < (n : Int) := by
  rw [findFreeSpace_eq_scanAll dev n hok]
  obtain ⟨s1, -, s3, s4⟩ := scanTo_spec DEVICE_SIZE (by decide) n (extentsInAddressOrder dev)
    MEM_START ⟨UINT32_MAX, UINT32_MAX, MEM_START⟩ (chained_extents dev hok) rfl (le_refl _)
  rw [← gapsFrom_eq] at s3 s4
  simp only at s1 s3 s4
  constructor
  · intro h g hg
    split_ifs at h with hmin
    by_contra hn
    have h1 := s3 g hg (by omega)
    have h2 := gapsUpTo_size_le (chained_extents dev hok) g (by rw [← gapsFrom_eq]; exact hg)
    rw [hmin] at h1
    simp only [UINT32_MAX, DEVICE_SIZE] at h1 h2
    omega
  · intro h
    split_ifs with hmin
    · rfl
    · exfalso
      obtain ⟨g, hg, -, -, g3, -⟩ := s4 (lt_of_le_of_ne s1 hmin)
      have := h g hg
      omega

/-- Witness of C4: the freshly formatted volume has no gap of `2^20` bytes. -/
theorem findFreeSpace_fails_iff_witness :
    ExtentsOk (format blankDevice) ∧
    (findFreeSpace (format blankDevice) 1048576 = .error .noFreeSpace ↔
      ∀ g ∈ dataGaps (format blankDevice), g.2 < ((1048576 : Nat) : Int)) :=
  ⟨by decide!, findFreeSpace_fails_iff (format blankDevice) 1048576 (by decide!)⟩

/-- C9: `format` is idempotent on the device content, whatever the content
before, and `list_dir("")` on a freshly formatted volume returns the empty list. -/
theorem format_idempotent (dev : Device) :
    format (format dev) = format dev ∧ list_dir (format dev) [] = .ok [] :=
  ⟨format_format_aux dev, list_dir_format_aux dev⟩

/-- C10: the constructor leaves the device unchanged when bytes 0..3 hold the
magic "DaLI" and byte 4 holds the version 3, and otherwise leaves the device
that `format` produces. -/
theorem construct_spec (dev : Device) :
    construct dev =
      if dev 0 = 68 ∧ dev 1 = 97 ∧ dev 2 = 76 ∧ dev 3 = 73 ∧ dev 4 = 3 then dev
      else format dev :=
  construct_eq_aux dev

set_option synthInstance.maxSize 1024 in
/-- C1 (evaluation at the failing input): after `shadowTrace` the path `/d/x`
resolves to inode 6, a file; `set_content("/d/x", "A")` returns, and the
`get_content("/d/x")` that follows throws "not found" instead of returning
"A": the content was written at 776, inside the directory `/d`, over the
name of the entry `x`. -/
theorem set_get_not_roundtrip :
    (runCalls freshVolume shadowTrace).map (fun dev =>
      (getInodeIndexFromPath dev (str "/d/x"), (getInode dev 6).is_dir, getInode dev 2,
        getInode (set_content dev (str "/d/x") (str "A")).2 6,
        (set_content dev (str "/d/x") (str "A")).1,
        get_content (set_content dev (str "/d/x") (str "A")).2 (str "/d/x"))) =
      some (.ok 6, false, ⟨775, 44, true⟩, ⟨776, 1, false⟩, .ok (), .error .notFound) := by
  decide!

/-- C2 (evaluation at the failing input): after `overlapTrace` the inode of
`/c` holds the extent 775..779, and `findFreeSpace(1)` returns 776, a byte of
that extent; a `set_content("/a", "AB")` then puts `/a` at 776..777 and the
content of `/c` reads "hABlo". -/
theorem findFreeSpace_overlaps :
    (runCalls freshVolume overlapTrace).map (fun dev =>
      (getInode dev 4, findFreeSpace dev 1,
        getInode (set_content dev (str "/a") (str "AB")).2 2,
        get_content (set_content dev (str "/a") (str "AB")).2 (str "/c"))) =
      some (⟨775, 5, false⟩, .ok 776, ⟨776, 2, false⟩, .ok (str "hABlo")) := by
  decide!

set_option synthInstance.maxSize 1024 in
/-- C5 (evaluation at the failing input): after `fullTrace` the root directory
holds 775..818 and the file `/f` holds 820..1048575.  With the root marked as
not allocated by `UINT32_MAX` the allocator finds no 88 bytes, yet
`reallocInode` of the root to 88 bytes returns, with the extent at 1048577,
past `DEVICE_SIZE`; `create_file("/e")` grows the root in this way. -/
theorem reallocInode_past_device :
    (runCalls freshVolume fullTrace).map (fun dev =>
      (getInode dev 0, getInode dev 1,
        findFreeSpace (setInode dev 0 ⟨UINT32_MAX, 88, true⟩) 88,
        (reallocInode dev (getInode dev 0) 0 88).1,
        (create_file dev (str "/e") false).map fun r => (r.1, getInode r.2 0))) =
      some (⟨775, 44, true⟩, ⟨820, 1047756, false⟩, .error .noFreeSpace,
        .ok ⟨1048577, 88, true⟩, some (.ok (), ⟨1048577, 88, true⟩)) := by
  rw [runCalls_fullTrace]
  decide!

/-- C7 (evaluation at the failing input): on a fresh volume the path "a b",
which holds a space and no delimiter, is resolved without the test for
spaces: `getInodeIndexFromPath` throws "not found", and `create_file` returns
and leaves an entry "a b" in the root directory, which then resolves to
inode 1; `create_file("/a b")` creates the entry as well. -/
theorem space_in_path_accepted :
    getInodeIndexFromPath freshVolume (str "a b") = .error .notFound ∧
    get_content freshVolume (str "a b") = .error .notFound ∧
    (create_file freshVolume (str "a b") false).map
        (fun r => (r.1, getInodeIndexFromPath r.2 (str "a b"),
          (list_dir r.2 []).map fun l => l.map fun e => e.name)) =
      some (.ok (), .ok 1, .ok [strncpy (str "a b") 10]) ∧
    (create_file freshVolume (str "/a b") false).map
        (fun r => (r.1, (list_dir r.2 []).map fun l => l.map fun e => e.name)) =
      some (.ok (), .ok [strncpy (str "a b") 10]) := by
  decide!

/-- C8 (evaluation at the failing input): with `/f` a file, the path `/f/x`
does not throw the error of a parent that is a file: it throws "not found"
when `/f` is empty, and when the content of `/f` is the eleven bytes of a
directory entry (7, "x") it returns the inode index 7.  The path `/f/x/y`
throws the error at `x`. -/
theorem file_parent_not_rejected :
    (runCalls freshVolume [.create (str "/f") false]).map (fun dev =>
      ((getInode dev 1).is_dir, getInodeIndexFromPath dev (str "/f"),
        getInodeIndexFromPath dev (str "/f/x"), getInodeIndexFromPath dev (str "/f/x/y"))) =
      some (false, .ok 1, .error .notFound, .error .parentIsAFile) ∧
    (runCalls freshVolume
        [.create (str "/f") false, .write (str "/f") (7 :: strncpy (str "x") 10)]).map
      (fun dev => ((getInode dev 1).is_dir, getInodeIndexFromPath dev (str "/f"),
        getInodeIndexFromPath dev (str "/f/x"))) =
      some (false, .ok 1, .ok 7) := by
  decide!

/-! ## C6: the same name twice -/

set_option synthInstance.maxSize 4096 in
/-- C6 (evaluation at the failing input), in the frame where `dir` follows
`entry_to_add` (`PastEnd.dirAddr`): on the fresh volume `create_file` returns
for the directories `/a` and `/b`, and then throws "not found" for `/a/f` and
for `/b/f`.  The store past `entry_to_add` has turned the address 775 of the
root, in the local `dir`, into 768: the entries of `a` and `b` lie at 768 and
779, the inode of the root still says 775, `list_dir("/")` returns nothing and
no lookup finds `a` or `b`. -/
theorem sibling_create_not_found :
    createResultsWith .dirAddr freshVolume siblingCalls =
        [some (.ok ()), some (.ok ()), some (.error .notFound), some (.error .notFound)] ∧
      getInode (createAllWith .dirAddr freshVolume (siblingCalls.take 2)) 0 = ⟨775, 44, true⟩ ∧
      readDirEntry (createAllWith .dirAddr freshVolume (siblingCalls.take 2)) 768 =
        ⟨1, str "a" ++ List.replicate 9 0⟩ ∧
      readDirEntry (createAllWith .dirAddr freshVolume (siblingCalls.take 2)) 779 =
        ⟨2, str "b" ++ List.replicate 9 0⟩ ∧
      list_dir (createAllWith .dirAddr freshVolume (siblingCalls.take 2)) (str "/") = .ok [] := by
  decide!

/-- In the frame where the store past `entry_to_add` changes nothing
(`create_file`): the 63 calls of `exhaustTrace` all return and use up the inode
table; the last of them creates `/c/c/c`, and a second `create_file` of
`/c/c/c` throws 'no free inodes', not 'already exists'. -/
theorem duplicate_reports_no_inode :
    exhaustTrace.getLast? = some (str "/c/c/c", false) ∧
      createResults freshVolume (exhaustTrace ++ [(str "/c/c/c", false)]) =
        List.replicate 63 (some (.ok ())) ++ [some (.error .noFreeInodes)] := by
  decide!

/-- In the frame where the store past `entry_to_add` changes nothing
(`create_file`): on a volume reached from `format` by `create_file` calls,
(1) once `create_file` has returned for a path without NUL bytes, a second
`create_file` of the same path throws, whatever the two is-directory flags:
'no free inodes' when no inode is unused, 'already exists' when one is; and
(2) for two paths without NUL bytes that end in the same non-empty name and
whose parents are two different directories holding no entry of that name,
`create_file` returns for the first path and then for the second one, when
two inodes are unused. -/
theorem create_file_same_name (dev : Device) (hr : Reached dev) :
    (∀ (path : List Byte) (d d' : Bool) (dev' : Device), (0 : Byte) ∉ path →
      create_file dev path d = some (.ok (), dev') →
        (findFirstFreeInode dev' = .error .noFreeInodes →
          create_file dev' path d' = some (.error .noFreeInodes, dev')) ∧
        (∀ j, findFirstFreeInode dev' = .ok j →
          ∃ dev'', create_file dev' path d' = some (.error .alreadyExists, dev''))) ∧
    (∀ (q1 q2 : List Byte) (d1 d2 : Bool) (p1 p2 i1 i2 : Nat),
      (0 : Byte) ∉ q1 → (0 : Byte) ∉ q2 →
      getFileNameFromPath q1 = getFileNameFromPath q2 → getFileNameFromPath q1 ≠ [] →
      getInodeIndexFromPath dev (removeFileNameFromPath q1) = .ok p1 →
      getInodeIndexFromPath dev (removeFileNameFromPath q2) = .ok p2 →
      p1 ≠ p2 → (getInode dev p1).is_dir = true → (getInode dev p2).is_dir = true →
      findFileInDirectory dev (getInode dev p1).addr (getInode dev p1).size
        (getFileNameFromPath q1) = .error .notFound →
      findFileInDirectory dev (getInode dev p2).addr (getInode dev p2).size
        (getFileNameFromPath q2) = .error .notFound →
      i1 < 64 → i2 < 64 → i1 ≠ i2 →
      (getInode dev i1).addr = 0 → (getInode dev i2).addr = 0 →
        ∃ dev' dev'', create_file dev q1 d1 = some (.ok (), dev') ∧
          create_file dev' q2 d2 = some (.ok (), dev'')) := by
  obtain ⟨hwf, ht⟩ := reached_sound hr
  constructor
  · intro path d d' dev' h0 h
    exact ⟨fun hfull => create_file_no_inode dev' path d' hfull,
      fun j hj => second_create_fails dev hwf ht path h0 d d' dev' h j hj⟩
  · intro q1 q2 d1 d2 p1 p2 i1 i2 h1 h2 hname hne hpar1 hpar2 hp12 hdir1 hdir2 habs1 habs2
      hi1 hi2 hi12 hu1 hu2
    exact create_in_two_dirs dev hwf ht q1 q2 h1 h2 hname hne p1 p2 hpar1 hpar2 hp12 hdir1 hdir2
      habs1 habs2 i1 i2 hi1 hi2 hi12 hu1 hu2 d1 d2

/-- The statement `create_file_same_name` at the volume with the empty
directories `/a` and `/b`, in the frame where the store changes nothing: the
file `/a/f` cannot be created twice, and `f` can be created in `/a` and in `/b`. -/
theorem create_file_same_name_witness :
    Reached twoDirs ∧
      (∃ dev'', create_file (afterCreate twoDirs (str "/a/f") false) (str "/a/f") true =
        some (.error .alreadyExists, dev'')) ∧
      (∃ dev' dev'', create_file twoDirs (str "/a/f") false = some (.ok (), dev') ∧
        create_file dev' (str "/b/f") true = some (.ok (), dev'')) := by
  have hr : Reached twoDirs :=
    Reached.create (str "/b") true (.ok ()) twoDirs
      (Reached.create (str "/a") true (.ok ()) (afterCreate freshVolume (str "/a") true)
        (Reached.format blankDevice) (create_file_afterCreate _ _ _ _ (by decide!)))
      (create_file_afterCreate _ _ _ _ (by decide!))
  have hf : create_file twoDirs (str "/a/f") false =
      some (.ok (), afterCreate twoDirs (str "/a/f") false) :=
    create_file_afterCreate _ _ _ _ (by decide!)
  have hfree : findFirstFreeInode (afterCreate twoDirs (str "/a/f") false) = .ok 4 := by decide!
  exact ⟨hr, ((create_file_same_name twoDirs hr).1 (str "/a/f") false true _ (by decide) hf).2
      4 hfree,
    (create_file_same_name twoDirs hr).2 (str "/a/f") (str "/b/f") false true 1 2 3 4
      (by decide) (by decide) (by decide) (by decide) (by decide!) (by decide!) (by decide)
      (by decide!) (by decide!) (by decide!) (by decide!) (by decide) (by decide) (by decide)
      (by decide!) (by decide!)⟩
/-! ## C14 to C19: evaluations -/

set_option synthInstance.maxSize 1024 in
/-- C14 (evaluation at the failing input): on a fresh volume the lowest unused
inode is 1 and `create_file("/.", false)` returns, leaving an entry named `.`
in the root directory and the inode 1 not allocated; yet the path `/.` then
resolves to the root, inode 0, since `splitPath` discards the component `.`,
and `get_content("/.")` throws "is a directory".  With the path `/a b` the
call returns as well and the resolution throws "path contains whitespaces". -/
theorem created_path_not_resolved :
    findFirstFreeInode freshVolume = .ok 1 ∧
    (create_file freshVolume (str "/.") false).map
        (fun r => (r.1, getInode r.2 1, getInodeIndexFromPath r.2 (str "/."),
          get_content r.2 (str "/."), (list_dir r.2 []).map fun l => l.map fun e => e.name)) =
      some (.ok (), ⟨UINT32_MAX, 0, false⟩, .ok 0, .error .isADirectory,
        .ok [strncpy (str ".") 10]) ∧
    (create_file freshVolume (str "/a b") false).map
        (fun r => (r.1, getInode r.2 1, getInodeIndexFromPath r.2 (str "/a b"))) =
      some (.ok (), ⟨UINT32_MAX, 0, false⟩, .error .pathContainsWhitespaces) := by
  decide!

set_option synthInstance.maxSize 1024 in
/-- C15 (evaluation at the failing input): after `spoilInodeTrace` the inode 10
is unused and the parent path `/f/x` resolves to 70, a record read from the
content of the file `/f`; `create_file("/f/x/y", false)` throws "already
exists", and after it the inode 10 holds the address 30979: the entry was
stored in the first slot of the forged directory before the scan reached the
slot of the root directory that holds the name `y`. -/
theorem failed_create_takes_inode :
    (runCalls freshVolume spoilInodeTrace).map (fun dev =>
      (getInode dev 10, findFirstFreeInode dev, getInodeIndexFromPath dev (str "/f/x"),
        getInode dev 70,
        (create_file dev (str "/f/x/y") false).map fun r => (r.1, getInode r.2 10))) =
      some (⟨0, 0, false⟩, .ok 3, .ok 70, ⟨126, 671, true⟩,
        some (.error .alreadyExists, ⟨30979, 0, false⟩)) := by
  decide!

/-- C16: when `set_content` throws, whatever the volume, the path and the
content, the device holds what it held before the call. -/
theorem set_content_fails_unchanged (dev : Device) (path content : List Byte) (e : FsError)
    (h : (set_content dev path content).1 = .error e) :
    (set_content dev path content).2 = dev := by
  unfold set_content at h ⊢
  cases hr : getInodeIndexFromPath dev path with
  | error e1 => rfl
  | ok idx =>
    rw [hr] at h
    simp only at h ⊢
    by_cases hd : (getInode dev idx).is_dir = true
    · rw [if_pos hd]
    · rw [if_neg hd] at h ⊢
      cases hf : findFreeSpace dev (u32 content.length) with
      | error e2 => rfl
      | ok a =>
        rw [hf] at h
        cases h

/-- C16 at three failing calls on the volume with the directory `/a` and the
file `/a/b` holding "hello": a path that does not resolve, a directory, and a
content of `DEVICE_SIZE` bytes, for which the allocator finds no space. -/
theorem set_content_fails_unchanged_witness :
    ((set_content helloVolume (str "/a/c") (str "x")).1 = .error .notFound ∧
      (set_content helloVolume (str "/a/c") (str "x")).2 = helloVolume) ∧
    ((set_content helloVolume (str "/a") (str "x")).1 = .error .isADirectory ∧
      (set_content helloVolume (str "/a") (str "x")).2 = helloVolume) ∧
    ((set_content helloVolume (str "/a/b") deviceContent).1 = .error .noFreeSpace ∧
      (set_content helloVolume (str "/a/b") deviceContent).2 = helloVolume) := by
  have h1 : (set_content helloVolume (str "/a/c") (str "x")).1 = .error .notFound := by decide!
  have h2 : (set_content helloVolume (str "/a") (str "x")).1 = .error .isADirectory := by decide!
  have h3 : (set_content helloVolume (str "/a/b") deviceContent).1 = .error .noFreeSpace := by
    rw [set_content_eq_sized helloVolume (str "/a/b") deviceContent 1048576
      (List.length_replicate _ _)]
    decide!
  exact ⟨⟨h1, set_content_fails_unchanged _ _ _ _ h1⟩,
    ⟨h2, set_content_fails_unchanged _ _ _ _ h2⟩, ⟨h3, set_content_fails_unchanged _ _ _ _ h3⟩⟩

set_option synthInstance.maxSize 4096 in
/-- C17 (evaluation at the failing input): the three calls of `spoilRootTrace`
return, and after them the inode 0 holds the address 2030174983 with size 0
and is not a directory: `list_dir("")` throws "is a file".  The third call,
`create_file("/f/x/y")`, resolved its parent `/f/x` in the content of the file
`/f` to the record 70, a forged directory at address 8, and stored the entry
(2, "y") there, over the bytes 8 to 18 of the inode table. -/
theorem root_made_a_file :
    (runCalls freshVolume (spoilRootTrace.take 2)).map (fun dev =>
      (getInode dev 0, getInode dev 1, getInodeIndexFromPath dev (str "/f/x"), getInode dev 70,
        (create_file dev (str "/f/x/y") false).map fun r =>
          (r.1, getInode r.2 0, list_dir r.2 []))) =
      some (⟨775, 44, true⟩, ⟨820, 35, false⟩, .ok 70, ⟨8, 11, true⟩,
        some (.ok (), ⟨2030174983, 0, false⟩, .error .isAFile)) ∧
    (runCalls freshVolume spoilRootTrace).map (fun dev => getInode dev 0) =
      some ⟨2030174983, 0, false⟩ := by
  decide!

/-- C18 (evaluation at the failing input): the root directory of a fresh
volume holds no live entry, and `addToDirectory(0, 1, "")` throws "already
exists" and stores nothing: the empty name matches the name of the first empty
slot.  `create_file("/")` reaches this call. -/
theorem empty_name_already_exists :
    (∀ s ∈ slotAddrs (getInode freshVolume 0).addr (getInode freshVolume 0).size,
      (readDirEntry freshVolume s).inode_index = 0) ∧
    (addToDirectory freshVolume 0 1 []).map
        (fun r => (r.1, getInode r.2 0, blkRead r.2 775 44)) =
      some (.error .alreadyExists, ⟨775, 44, true⟩, List.replicate 44 0) ∧
    (getFileNameFromPath (str "/") = [] ∧ removeFileNameFromPath (str "/") = [] ∧
      (create_file freshVolume (str "/") false).map Prod.fst = some (.error .alreadyExists)) := by
  decide!

set_option synthInstance.maxSize 1024 in
/-- C19 (evaluation at the failing input): in the root directory of
`staleSlotVolume` the slot at 775 is empty (inode index 0) with the stale name
`abc` and the slot at 786 is the live entry `abc` of inode 5;
`findFileInDirectory` returns 0, the index of the empty slot.  The same
happens on the 22 bytes that `set_content` stored for the file `/f`. -/
theorem empty_slot_matches :
    (readDirEntry staleSlotVolume 775, readDirEntry staleSlotVolume 786,
        getInode staleSlotVolume 0, findFileInDirectory staleSlotVolume 775 44 (str "abc")) =
      (⟨0, strncpy (str "abc") 10⟩, ⟨5, strncpy (str "abc") 10⟩, ⟨775, 44, true⟩, .ok 0) ∧
    (runCalls freshVolume staleFileTrace).map (fun dev =>
      (getInode dev 1, readDirEntry dev 820, readDirEntry dev 831,
        findFileInDirectory dev 820 22 (str "x"))) =
      some (⟨820, 22, false⟩, ⟨0, strncpy (str "x") 10⟩, ⟨5, strncpy (str "x") 10⟩, .ok 0) := by
  decide!

/-! ## C20: `reallocInode` -/

set_option synthInstance.maxSize 4096 in
/-- C20, the instances against the claim as it stands.  On `strayExtentVolume`
the root directory is allocated with 44 bytes at 775 and the inode 1 holds the
extent of size 0 at 5: `reallocInode` of the root with the new size 88 succeeds
and returns the address 6, the start of the inode table; the 88 bytes written
there are the records of the inodes 0 to 7, so that afterwards the root reads
size 0, not 88, and the inode 1 has changed.  On `filledVolume`, where the
inode 1 holds all the bytes from 820 to the end of the device, the same call
succeeds and returns the address 1048577, past `DEVICE_SIZE`, where the device
has no bytes; the root directory is then an allocated directory whose content
lies past the device. -/
theorem reallocInode_stray_extent :
    getInode strayExtentVolume 0 = ⟨775, 44, true⟩ ∧
      getInode strayExtentVolume 1 = ⟨5, 0, false⟩ ∧
      (reallocInode strayExtentVolume (getInode strayExtentVolume 0) 0 88).1 =
        .ok ⟨6, 88, true⟩ ∧
      getInode (reallocInode strayExtentVolume (getInode strayExtentVolume 0) 0 88).2 0 =
        ⟨0, 0, false⟩ ∧
      getInode (reallocInode strayExtentVolume (getInode strayExtentVolume 0) 0 88).2 1 =
        ⟨0, 0, false⟩ ∧
      getInode filledVolume 1 = ⟨820, 1047756, false⟩ ∧
      (reallocInode filledVolume (getInode filledVolume 0) 0 88).1 =
        .ok ⟨1048577, 88, true⟩ ∧
      getInode (reallocInode filledVolume (getInode filledVolume 0) 0 88).2 0 =
        ⟨1048577, 88, true⟩ ∧
      DEVICE_SIZE < 1048577 := by
  decide!

/-- C20, amended: on an inode table whose other allocated extents lie in the
data region, from `MEM_START` to `DEVICE_SIZE`, let the inode `p` have the old
size `s`, its content inside the device when it is allocated, and let
`reallocInode` succeed for `p` and a new size `ns ≥ s` (a `uint32_t`) with a new
extent that ends inside the device.  Then the inode `p` has the size `ns` and
an address in the data region; when `p` was allocated the first `s` bytes at
the new address are the old content and the `ns - s` bytes after them are
zero; when `p` was not allocated (`UINT32_MAX`) all `ns` bytes are zero;
every other inode is what it was; and no address from `DEVICE_SIZE` on is
written. -/
theorem reallocInode_grows (dev : Device) (p ns : Nat) (hp : p < 64) (hns : ns < 4294967296)
    (hsz : (getInode dev p).size ≤ ns)
    (hothers : ∀ j, j < 64 → j ≠ p → isAllocated dev j →
      MEM_START ≤ (getInode dev j).addr ∧
        (getInode dev j).addr + (getInode dev j).size ≤ DEVICE_SIZE)
    (hold : isAllocated dev p → (getInode dev p).addr + (getInode dev p).size ≤ DEVICE_SIZE)
    (dir' : inode_entry) (h : (reallocInode dev (getInode dev p) p ns).1 = .ok dir')
    (hin : dir'.addr + ns ≤ DEVICE_SIZE) :
    getInode (reallocInode dev (getInode dev p) p ns).2 p = dir' ∧
    dir'.size = ns ∧ dir'.is_dir = (getInode dev p).is_dir ∧ MEM_START ≤ dir'.addr ∧
    ((getInode dev p).addr ≠ UINT32_MAX →
      blkRead (reallocInode dev (getInode dev p) p ns).2 dir'.addr (getInode dev p).size =
          blkRead dev (getInode dev p).addr (getInode dev p).size ∧
        blkRead (reallocInode dev (getInode dev p) p ns).2 (dir'.addr + (getInode dev p).size)
          (ns - (getInode dev p).size) = List.replicate (ns - (getInode dev p).size) 0) ∧
    ((getInode dev p).addr = UINT32_MAX →
      blkRead (reallocInode dev (getInode dev p) p ns).2 dir'.addr ns = List.replicate ns 0) ∧
    (∀ j, j < 64 → j ≠ p →
      getInode (reallocInode dev (getInode dev p) p ns).2 j = getInode dev j) ∧
    (∀ x, DEVICE_SIZE ≤ x → (reallocInode dev (getInode dev p) p ns).2 x = dev x) := by
  clear hold
  have hDS : DEVICE_SIZE = 1048576 := rfl
  have hns0 : ns ≠ 0 := by
    intro h0
    subst h0
    simp [reallocInode] at h
  have hM : MEM_START = 775 := rfl
  have hI : INT32_MAX = 2147483647 := rfl
  have hU : UINT32_MAX = 4294967295 := rfl
  obtain ⟨dev1, hdev1⟩ : ∃ dev1, dev1 = setInode dev p ⟨INT32_MAX, ns, (getInode dev p).is_dir⟩ :=
    ⟨_, rfl⟩
  have h1p : getInode dev1 p = ⟨INT32_MAX, ns, (getInode dev p).is_dir⟩ := by
    rw [hdev1, getInode_setInode_same _ _ _ (by simp [hI]) (by simp only; omega)]
  have h1j : ∀ j, j ≠ p → getInode dev1 j = getInode dev j := by
    intro j hj
    rw [hdev1, getInode_setInode_ne _ _ _ _ (Ne.symm hj)]
  have hrun : reallocInode dev (getInode dev p) p ns =
      match findFreeSpace dev1 ns with
      | .error e => (.error e, dev1)
      | .ok a => (.ok ⟨a, ns, (getInode dev p).is_dir⟩,
          blkWrite (setInode dev1 p ⟨a, ns, (getInode dev p).is_dir⟩) a ns
            (fun k => if (getInode dev p).addr ≠ UINT32_MAX ∧ k < (getInode dev p).size then
              dev ((getInode dev p).addr + k) else 0)) := by
    rw [hdev1]
    unfold reallocInode
    exact if_neg hns0
  rw [hrun] at h ⊢
  cases hf : findFreeSpace dev1 ns with
  | error e => rw [hf] at h; cases h
  | ok a =>
    rw [hf] at h
    simp only [Except.ok.injEq] at h
    subst h
    simp only
    obtain ⟨ha1, ha2⟩ := bestFit_good ns hns (allocatedInodes dev1) (by
      intro e he
      obtain ⟨i, hi, rfl, hal⟩ := mem_allocatedInodes dev1 e he
      by_cases hip : i = p
      · subst hip
        rw [h1p]
        exact ⟨by simp only [hM, hI]; omega, Or.inr ⟨rfl, rfl⟩⟩
      · rw [h1j i hip] at hal ⊢
        have := hothers i hi hip hal
        exact ⟨this.1, Or.inl this.2⟩) a hf
    have hbuf : ∀ k, k < ns →
        blkWrite (setInode dev1 p ⟨a, ns, (getInode dev p).is_dir⟩) a ns
          (fun k => if (getInode dev p).addr ≠ UINT32_MAX ∧ k < (getInode dev p).size then
            dev ((getInode dev p).addr + k) else 0) (a + k) =
        if (getInode dev p).addr ≠ UINT32_MAX ∧ k < (getInode dev p).size then
          dev ((getInode dev p).addr + k) else 0 := by
      intro k hk
      rw [blkWrite_inside _ _ _ _ _ ⟨by omega, by omega⟩]
      simp only [Nat.add_sub_cancel_left]
    simp only at hin
    refine ⟨?_, trivial, trivial, ha1, ?_, ?_, ?_, ?_⟩
    · rw [getInode_blkWrite _ _ _ _ _ hp (by omega),
        getInode_setInode_same _ _ _ (by simp only; omega) (by simp only; omega)]
    · intro hal
      constructor
      · unfold blkRead
        apply List.map_congr_left
        intro k hk
        rw [List.mem_range] at hk
        rw [hbuf k (by omega), if_pos ⟨hal, hk⟩]
      · unfold blkRead
        rw [List.eq_replicate_iff]
        refine ⟨by simp, ?_⟩
        intro b hb
        rw [List.mem_map] at hb
        obtain ⟨k, hk, rfl⟩ := hb
        rw [List.mem_range] at hk
        rw [Nat.add_assoc, hbuf _ (by omega), if_neg (by omega)]
    · intro hun
      unfold blkRead
      rw [List.eq_replicate_iff]
      refine ⟨by simp, ?_⟩
      intro b hb
      rw [List.mem_map] at hb
      obtain ⟨k, hk, rfl⟩ := hb
      rw [List.mem_range] at hk
      rw [hbuf _ hk, if_neg (fun hc => hc.1 hun)]
    · intro j hj hjp
      rw [getInode_blkWrite _ _ _ _ _ hj (by omega), getInode_setInode_ne _ _ _ _ (Ne.symm hjp),
        h1j j hjp]
    · intro x hx
      rw [blkWrite_outside _ _ _ _ _ (Or.inr (by omega)),
        setInode_outside _ _ _ _ (Or.inr (by omega)), hdev1,
        setInode_outside _ _ _ _ (Or.inr (by omega))]

set_option synthInstance.maxSize 4096 in
/-- C20, amended, at the root directory of `neighbourVolume`, which holds the
entry `a` and is followed by the directory of the inode 1 at 820: grown from 44
to 88 bytes it moves to 865; the first 44 bytes there are its old content, the
entry `a` and zeros, and the next 44 bytes are zero; the inode 1 is what it
was. -/
theorem reallocInode_grows_witness :
    getInode neighbourVolume 0 = ⟨775, 44, true⟩ ∧
    getInode neighbourVolume 1 = ⟨820, 44, true⟩ ∧
    (reallocInode neighbourVolume (getInode neighbourVolume 0) 0 88).1 = .ok ⟨865, 88, true⟩ ∧
    getInode (reallocInode neighbourVolume (getInode neighbourVolume 0) 0 88).2 0 =
      ⟨865, 88, true⟩ ∧
    blkRead (reallocInode neighbourVolume (getInode neighbourVolume 0) 0 88).2 865 44 =
      blkRead neighbourVolume 775 44 ∧
    blkRead neighbourVolume 775 44 = 1 :: str "a" ++ List.replicate 42 0 ∧
    blkRead (reallocInode neighbourVolume (getInode neighbourVolume 0) 0 88).2 (865 + 44) 44 =
      List.replicate 44 0 ∧
    getInode (reallocInode neighbourVolume (getInode neighbourVolume 0) 0 88).2 1 =
      getInode neighbourVolume 1 := by
  have h : (reallocInode neighbourVolume (getInode neighbourVolume 0) 0 88).1 =
      .ok ⟨865, 88, true⟩ := by
    decide!
  have hroot : getInode neighbourVolume 0 = ⟨775, 44, true⟩ := by decide!
  have hu : (getInode neighbourVolume 0).addr ≠ UINT32_MAX := by rw [hroot]; decide
  have key := reallocInode_grows neighbourVolume 0 88 (by decide) (by decide) (by decide!)
    (by decide!) (by decide!) _ h (by decide)
  have k5 := key.2.2.2.2.1 hu
  rw [hroot] at k5
  exact ⟨hroot, by decide!, h, key.1, k5.1, by decide!, k5.2,
    key.2.2.2.2.2.2.1 1 (by decide) (by decide)⟩
/-! ## C12: `list_dir` -/

set_option synthInstance.maxSize 4096 in
/-- C12 (evaluation at the failing inputs).  On `paddedVolume`, written byte by
byte, the root directory holds the one entry of the name `b`, a file of 5 bytes:
`list_dir("/")` returns one element, not a directory, of size 5, whose name is
not `b` but the ten bytes of the name field, `b` and nine NUL bytes
(`std::string(curr.name, NAME_SIZE)`).  The example scenario gives the same
name in the frame where the store past `entry_to_add` changes nothing
(`helloVolume`); in the frame where `dir` follows `entry_to_add`
(`PastEnd.dirAddr`) its second call, `create_file("/a/b")`, throws "not
found". -/
theorem list_dir_name_is_padded :
    list_dir paddedVolume (str "/") = .ok [⟨str "b" ++ List.replicate 9 0, false, 5⟩] ∧
      list_dir paddedVolume (str "/") ≠ .ok [⟨str "b", false, 5⟩] ∧
      get_content paddedVolume (str "/b") = .ok (str "hello") ∧
      list_dir helloVolume (str "/a") = .ok [⟨str "b" ++ List.replicate 9 0, false, 5⟩] ∧
      createResultsWith .dirAddr freshVolume [(str "/a", true), (str "/a/b", false)] =
        [some (.ok ()), some (.error .notFound)] := by
  decide!

/-- What `list_dir` returns, on every device: when the path resolves to an
inode that is not a directory `list_dir` throws "is a file"; when it resolves to a directory `list_dir`
returns one element for each slot of the content whose inode index is not 0,
in slot order, carrying the ten bytes of the name field of the slot, and the
is-directory flag and the size (the size itself when it is below `2^31`) of
the inode that the slot names; the slots of a content of `11 * m` bytes at `a`
are at `a`, `a + 11`, ..., and the name field of the slot at `s` is the ten
bytes from `s + 1`. -/
theorem list_dir_spec (dev : Device) (path : List Byte) (idx : Nat)
    (h : getInodeIndexFromPath dev path = .ok idx) :
    ((getInode dev idx).is_dir = false → list_dir dev path = .error .isAFile) ∧
    ((getInode dev idx).is_dir = true →
      ∃ l, list_dir dev path = .ok l ∧
        l = ((slotAddrs (getInode dev idx).addr (getInode dev idx).size).filter
            fun s => (readDirEntry dev s).inode_index ≠ 0).map (fun s =>
          { name := blkRead dev (s + 1) 10
            is_dir := (getInode dev (readDirEntry dev s).inode_index).is_dir
            file_size := toInt32 (getInode dev (readDirEntry dev s).inode_index).size }) ∧
        (∀ s, (getInode dev (readDirEntry dev s).inode_index).size < 2147483648 →
          toInt32 (getInode dev (readDirEntry dev s).inode_index).size =
            (getInode dev (readDirEntry dev s).inode_index).size) ∧
        (∀ a m, (getInode dev idx).addr = a → (getInode dev idx).size = 11 * m →
          a + 11 * m < 4294967296 →
          slotAddrs (getInode dev idx).addr (getInode dev idx).size =
            (List.range m).map fun k => a + 11 * k)) := by
  have hl := list_dir_of_resolved dev path idx h
  constructor
  · intro hd
    rw [hl, if_pos hd]
  · intro hd
    rw [hl, if_neg (by rw [hd]; decide)]
    refine ⟨_, rfl, rfl, fun s hs => toInt32_small _ hs, ?_⟩
    intro a m ha hm hlt
    rw [ha, hm]
    exact slotAddrs_eq a m hlt

set_option synthInstance.maxSize 4096 in
/-- The statement `list_dir_spec` on the volume of the example scenario, in the
frame where the store past `entry_to_add` changes nothing: `/a` resolves to the
directory 1, whose content holds the entry of `/a/b`, and `/a/b` to the file 2;
`list_dir("/a")` returns the entry with the padded name "b", not a directory,
of size 5; `list_dir("/a/b")` throws "is a file", `get_content("/a")` throws
"is a directory", `get_content("/a/b")` returns "hello", and `/a/c` is not
found. -/
theorem list_dir_spec_witness :
    getInodeIndexFromPath helloVolume (str "/a") = .ok 1 ∧
    getInodeIndexFromPath helloVolume (str "/a/b") = .ok 2 ∧
    list_dir helloVolume (str "/a/b") = .error .isAFile ∧
    (∃ l, list_dir helloVolume (str "/a") = .ok l ∧
      l = [⟨str "b" ++ List.replicate 9 0, false, 5⟩]) ∧
    get_content helloVolume (str "/a") = .error .isADirectory ∧
    get_content helloVolume (str "/a/b") = .ok (str "hello") ∧
    getInodeIndexFromPath helloVolume (str "/a/c") = .error .notFound := by
  have h1 : getInodeIndexFromPath helloVolume (str "/a") = .ok 1 := by decide!
  have h2 : getInodeIndexFromPath helloVolume (str "/a/b") = .ok 2 := by decide!
  refine ⟨h1, h2, (list_dir_spec helloVolume (str "/a/b") 2 h2).1 (by decide!), ?_,
    by decide!, by decide!, by decide!⟩
  obtain ⟨l, hl, hl2, -⟩ := (list_dir_spec helloVolume (str "/a") 1 h1).2 (by decide!)
  refine ⟨l, hl, ?_⟩
  rw [hl2]
  decide!

/-! ## C13: names longer than `NAME_SIZE` -/

set_option synthInstance.maxSize 4096 in
/-- C13 (evaluation at the failing input), in the frame where `dir` follows
`entry_to_add` (`PastEnd.dirAddr`): on the fresh volume
`create_file("/abcdefghijkl")` returns; `list_dir("/")` then returns one
element, whose name is `hij` and seven NUL bytes, not the first 10 bytes
`abcdefghij` of the component; and neither `/abcdefghijkl` nor `/abcdefghij` is
found.  The entry lies at 768, so the slot of the root at 775 starts with the
byte `g` of the name, which is read as an inode index. -/
theorem long_name_entry_misplaced :
    createResultsWith .dirAddr freshVolume [(str "/abcdefghijkl", false)] = [some (.ok ())] ∧
      readDirEntry (createAllWith .dirAddr freshVolume [(str "/abcdefghijkl", false)]) 768 =
        ⟨1, str "abcdefghij"⟩ ∧
      list_dir (createAllWith .dirAddr freshVolume [(str "/abcdefghijkl", false)]) (str "/") =
        .ok [⟨str "hij" ++ List.replicate 7 0, false, 0⟩] ∧
      getInodeIndexFromPath (createAllWith .dirAddr freshVolume [(str "/abcdefghijkl", false)])
        (str "/abcdefghijkl") = .error .notFound ∧
      getInodeIndexFromPath (createAllWith .dirAddr freshVolume [(str "/abcdefghijkl", false)])
        (str "/abcdefghij") = .error .notFound := by
  decide!

set_option synthInstance.maxSize 4096 in
/-- In the frame where the store past `entry_to_add` changes nothing
(`create_file`): on the fresh volume `create_file` of the root entry whose 12
bytes are `ab`, a NUL byte and `defghijkl` succeeds, and `list_dir` of the root
then returns one entry, whose name is `ab` and eight NUL bytes, not the first 10
bytes of the component. -/
theorem long_name_with_nul :
    (create_file freshVolume (str "/ab" ++ 0 :: str "defghijkl") false).map
          (fun r => (r.1, list_dir r.2 [])) =
        some (.ok (), .ok [⟨str "ab" ++ List.replicate 8 0, false, 0⟩]) ∧
      (str "ab" ++ 0 :: str "defghijkl").take NAME_SIZE ≠ str "ab" ++ List.replicate 8 0 := by
  decide!

/-- In the frame where the store past `entry_to_add` changes nothing
(`create_file`): on a volume reached from `format` by `create_file` calls, let
the path `parent/c` hold no NUL byte and no space, let `parent` resolve to the
directory `p`, let the component `c` be longer than 10 bytes without a slash,
let no live entry of `p` have the first 10 bytes of `c` as its name, and let
`i` be the lowest unused inode.  Then `create_file(parent/c)` returns;
`list_dir(parent)` then returns a list that holds the entry named by the first
10 bytes of `c`, with the flag of the call and size 0, and no entry named `c`;
and the path `parent/c` and the path with `c` cut to 10 bytes both resolve to
the inode `i`. -/
theorem long_name_truncated (dev : Device) (hr : Reached dev) (parent c : List Byte) (d : Bool)
    (p i : Nat) (hlen : NAME_SIZE < c.length)
    (hc0 : (0 : Byte) ∉ c) (hcs : (32 : Byte) ∉ c) (hcd : PATH_DELIMITER ∉ c)
    (hp0 : (0 : Byte) ∉ parent) (hps : (32 : Byte) ∉ parent)
    (hpar : getInodeIndexFromPath dev parent = .ok p) (hdir : (getInode dev p).is_dir = true)
    (habs : ∀ e ∈ liveEntries dev p, e.name ≠ c.take NAME_SIZE)
    (hfree : findFirstFreeInode dev = .ok i) :
    ∃ dev', create_file dev (parent ++ PATH_DELIMITER :: c) d = some (.ok (), dev') ∧
      (∃ l, list_dir dev' parent = .ok l ∧ ⟨c.take NAME_SIZE, d, 0⟩ ∈ l ∧
        ∀ e ∈ l, e.name ≠ c) ∧
      getInodeIndexFromPath dev' (parent ++ PATH_DELIMITER :: c) = .ok i ∧
      getInodeIndexFromPath dev' (parent ++ PATH_DELIMITER :: c.take NAME_SIZE) = .ok i := by
  obtain ⟨hwf, ht⟩ := reached_sound hr
  have hN : NAME_SIZE = 10 := rfl
  have hcap : capFileName c = c.take NAME_SIZE := capFileName_long c hlen
  have htl : (c.take NAME_SIZE).length = NAME_SIZE := by
    rw [List.length_take]; omega
  have ht0 : (0 : Byte) ∉ c.take NAME_SIZE := fun hm => hc0 (List.mem_of_mem_take hm)
  have hcne : c ≠ [] := by
    intro hh; rw [hh] at hlen; simp at hlen
  have hcdot : c ≠ [46] := by
    intro hh; rw [hh] at hlen; simp [NAME_SIZE] at hlen
  have hname : getFileNameFromPath (parent ++ PATH_DELIMITER :: c) = c.take NAME_SIZE := by
    rw [getFileNameFromPath_append parent c hcd, hcap]
  have hkey : nameKey (c.take NAME_SIZE) ≠ [] := by
    rw [nameKey_nulfree _ ht0 (by omega)]
    intro hh
    rw [hh] at htl
    simp [NAME_SIZE] at htl
  obtain ⟨dev', hcr⟩ := create_file_returns dev hwf (parent ++ PATH_DELIMITER :: c) d p i
    (by rw [removeFileNameFromPath_append parent c hcd]; exact hpar) hdir
    (by rw [hname]; exact hkey)
    (by
      rw [hname]
      intro e he
      cases hm : strncmpEq NAME_SIZE e.name (c.take NAME_SIZE) with
      | false => rfl
      | true =>
        exact absurd (name_eq_of_match _ _ (liveEntries_name_length dev p e he) htl ht0 hm)
          (habs e he))
    hfree
  obtain ⟨i2, p2, hfree2, hpar2, hpar', hdir', hlive, -, hpath, hino, -, hp2, hi2, -, -⟩ :=
    create_resolves dev hwf ht parent c d dev' hp0 hps hc0 hcd hcne hcr
  have hi : i2 = i := by
    rw [hfree] at hfree2
    simp only [Except.ok.injEq] at hfree2
    exact hfree2.symm
  have hp : p2 = p := by
    rw [hpar] at hpar2
    simp only [Except.ok.injEq] at hpar2
    exact hpar2.symm
  subst hi hp
  refine ⟨dev', hcr, ?_, hpath c hcs hcd hcne hcdot rfl, ?_⟩
  · rw [list_dir_live dev' parent p2 hpar' hdir']
    refine ⟨_, rfl, ?_, ?_⟩
    · rw [hlive, List.map_append, List.mem_append]
      right
      simp only [List.map_cons, List.map_nil, List.mem_singleton, hino, hcap]
      rw [strncpy_nulfree _ ht0 (by omega), htl]
      simp [toInt32]
    · intro e he hne
      rw [List.mem_map] at he
      obtain ⟨e0, he0, rfl⟩ := he
      have := liveEntries_name_length dev' p2 e0 he0
      simp only at hne
      rw [hne] at this
      omega
  · apply hpath
    · exact fun hm => hcs (List.mem_of_mem_take hm)
    · exact fun hm => hcd (List.mem_of_mem_take hm)
    · intro hh; rw [hh] at htl; simp [NAME_SIZE] at htl
    · intro hh; rw [hh] at htl; simp [NAME_SIZE] at htl
    · rw [hcap, capFileName_short _ (by omega)]

/-- The statement `long_name_truncated` at the volume with the empty directories
`/a` and `/b`, the
component `abcdefghijkl` and the parent `/a`, which is the inode 1, the lowest
unused inode being 3: the call succeeds, `list_dir("/a")` then holds the
directory `abcdefghij` of size 0 and no entry named `abcdefghijkl`, and
`/a/abcdefghijkl` and `/a/abcdefghij` both resolve to the inode 3. -/
theorem long_name_truncated_witness :
    Reached twoDirs ∧
      ∃ dev', create_file twoDirs (str "/a" ++ PATH_DELIMITER :: str "abcdefghijkl") true =
          some (.ok (), dev') ∧
        (∃ l, list_dir dev' (str "/a") = .ok l ∧
          ⟨(str "abcdefghijkl").take NAME_SIZE, true, 0⟩ ∈ l ∧
          ∀ e ∈ l, e.name ≠ str "abcdefghijkl") ∧
        getInodeIndexFromPath dev' (str "/a" ++ PATH_DELIMITER :: str "abcdefghijkl") = .ok 3 ∧
        getInodeIndexFromPath dev'
          (str "/a" ++ PATH_DELIMITER :: (str "abcdefghijkl").take NAME_SIZE) = .ok 3 := by
  have hr : Reached twoDirs :=
    Reached.create (str "/b") true (.ok ()) twoDirs
      (Reached.create (str "/a") true (.ok ()) (afterCreate freshVolume (str "/a") true)
        (Reached.format blankDevice) (create_file_afterCreate _ _ _ _ (by decide!)))
      (create_file_afterCreate _ _ _ _ (by decide!))
  exact ⟨hr, long_name_truncated twoDirs hr (str "/a") (str "abcdefghijkl") true 1 3
    (by decide) (by decide) (by decide) (by decide) (by decide) (by decide)
    (by decide!) (by decide!) (by decide!) (by decide!)⟩

set_option synthInstance.maxSize 4096 in
/-- In the frame where the store past `entry_to_add` changes nothing, on a
volume that `set_content` has written: after `staleTrace` the
content of `/h` lies at 776 inside the directory `/d` at 775 (the defect of
`findFreeSpace` shown for C1 and C2), `list_dir("/d")` returns the one entry
`x`, and `create_file("/d/abcdefghijkl")` throws "already exists", because
the name comparison of `addToDirectory` also reads the unused slot that the
content has filled (the defect shown for C19). -/
theorem stale_slot_blocks_create :
    (runCalls freshVolume staleTrace).map (fun dev =>
      (getInode dev 2, getInode dev 4, list_dir dev (str "/d"),
        (create_file dev (str "/d/abcdefghijkl") false).map Prod.fst)) =
      some (⟨775, 44, true⟩, ⟨776, 21, false⟩,
        .ok [⟨str "x" ++ List.replicate 9 0, false, 0⟩], some (.error .alreadyExists)) := by
  decide!
/-! ## C11: growth of a directory -/

set_option synthInstance.maxSize 4096 in
/-- C11 (evaluation at the failing input), in the frame where `dir` follows
`entry_to_add` (`PastEnd.dirAddr`): the six entries `a`, `b`, `c`, `d`, `e`,
`g` are created in the root directory of the fresh volume and every call
returns.  After the first four calls `list_dir("/")` returns nothing: the
entries lie from 768 on, not from 775.  After the six calls it returns four
elements, not six: the growth at the fifth call has copied the bytes from 768
to 775, and the sixth call, which scans from 768 again, stores `g` at 779, over
the name field of `a` and the inode index of `b`.  The path `/b` is not found. -/
theorem grown_directory_loses_entry :
    createResultsWith .dirAddr freshVolume (rootCalls sixEntries) =
        List.replicate 6 (some (.ok ())) ∧
      list_dir (createAllWith .dirAddr freshVolume (rootCalls (sixEntries.take 4)))
        (str "/") = .ok [] ∧
      list_dir (createAllWith .dirAddr freshVolume (rootCalls sixEntries)) (str "/") =
        .ok [⟨str "a" ++ [0, 0, 6] ++ str "g" ++ List.replicate 5 0, false, 0⟩,
          ⟨str "c" ++ List.replicate 9 0, false, 0⟩, ⟨str "d" ++ List.replicate 9 0, false, 0⟩,
          ⟨str "e" ++ List.replicate 9 0, true, 0⟩] ∧
      getInodeIndexFromPath (createAllWith .dirAddr freshVolume (rootCalls sixEntries))
        (str "/b") = .error .notFound := by
  decide!

set_option synthInstance.maxSize 4096 in
/-- In the frame where the store past `entry_to_add` changes nothing
(`create_file`): the five entries `a` to `e` are created in the root directory
of the fresh volume, one more than its first four slots, and every call
succeeds; `list_dir("/")` then returns five elements in creation order, whose
names are the ten bytes of the name fields, each name followed by nine NUL
bytes. -/
theorem listed_names_are_padded :
    createResults freshVolume (rootCalls fiveEntries) = List.replicate 5 (some (.ok ())) ∧
      list_dir (createAll freshVolume (rootCalls fiveEntries)) [PATH_DELIMITER] =
        .ok [⟨str "a" ++ List.replicate 9 0, false, 0⟩, ⟨str "b" ++ List.replicate 9 0, true, 0⟩,
          ⟨str "c" ++ List.replicate 9 0, false, 0⟩, ⟨str "d" ++ List.replicate 9 0, false, 0⟩,
          ⟨str "e" ++ List.replicate 9 0, true, 0⟩] ∧
      list_dir (createAll freshVolume (rootCalls fiveEntries)) [PATH_DELIMITER] ≠
        .ok (fiveEntries.map fun e => ⟨e.1, e.2, 0⟩) := by
  decide!

/-- In the frame where the store past `entry_to_add` changes nothing
(`create_file`): from the fresh volume, the creation in the root directory of
`k ≤ 63` entries with pairwise distinct valid names (1 to 10 bytes, no NUL, no
space, no delimiter, not `.`), also for every `k` greater than 4, succeeds at
every call; afterwards `list_dir("/")` returns exactly `k` elements in
creation order, the `j`-th carrying the `j`-th name padded with NUL bytes to
ten bytes, the flag of its call and the size 0; and the path of the `j`-th
entry (from 0) resolves to the inode `j + 1`. -/
theorem create_many_listed (entries : List (List Byte × Bool)) (hk : entries.length ≤ 63)
    (hv : ∀ e ∈ entries, ValidName e.1) (hd : (entries.map Prod.fst).Nodup) :
    createResults freshVolume (rootCalls entries) =
        List.replicate entries.length (some (.ok ())) ∧
      list_dir (createAll freshVolume (rootCalls entries)) [PATH_DELIMITER] =
        .ok (entries.map fun e =>
          ⟨e.1 ++ List.replicate (NAME_SIZE - e.1.length) 0, e.2, 0⟩) ∧
      ∀ j e, entries[j]? = some e →
        getInodeIndexFromPath (createAll freshVolume (rootCalls entries))
          (PATH_DELIMITER :: e.1) = .ok (j + 1) := by
  obtain ⟨hr, hres, hlive, hino, -⟩ := create_many_inv entries hk hv hd
  obtain ⟨hwf, ht⟩ := reached_sound hr
  refine ⟨hres, ?_, ?_⟩
  · rw [list_dir_live _ _ 0 (resolve_slash _) hwf.root_dir.2, hlive,
      rootEntries_listing _ entries 1 hino]
    congr 1
    apply List.map_congr_left
    intro e he
    rw [strncpy_nulfree e.1 (hv e he).2.2.1 (hv e he).2.1]
  · intro j e hj
    have he : e ∈ entries := List.mem_iff_getElem?.2 ⟨j, hj⟩
    obtain ⟨hne, hlen, h0, hs, hdl, hdot⟩ := hv e he
    have hsp : (32 : Byte) ∉ PATH_DELIMITER :: e.1 := by
      intro hm
      rcases List.mem_cons.1 hm with h2 | h2
      · cases h2
      · exact hs h2
    have hpn := pathNames_append [] e.1 hdl hne hdot
    have hfn := getFileNameFromPath_append [] e.1 hdl
    rw [List.nil_append] at hpn hfn
    rw [resolve_eq_walk _ hwf.root_dir.2 _ hsp, hpn, hfn, capFileName_short e.1 hlen]
    have hpn0 : pathNames [] = [] := rfl
    rw [hpn0, List.nil_append]
    simp only [walkPath, hwf.root_dir.2]
    rw [if_neg (by simp), findFile_live _ hwf 0 (by omega) e.1 (nameKey_ne_nil e.1 hne h0), hlive,
      rootEntries_find entries 1 j e hv hd hj, Nat.add_comm 1 j]

/-- The statement `create_many_listed` at the five entries `a` to `e`, one more
than the four slots that the root directory holds at first. -/
theorem create_many_listed_witness :
    fiveEntries.length ≤ 63 ∧ (∀ e ∈ fiveEntries, ValidName e.1) ∧
      (fiveEntries.map Prod.fst).Nodup ∧
      createResults freshVolume (rootCalls fiveEntries) =
        List.replicate fiveEntries.length (some (.ok ())) ∧
      list_dir (createAll freshVolume (rootCalls fiveEntries)) [PATH_DELIMITER] =
        .ok (fiveEntries.map fun e =>
          ⟨e.1 ++ List.replicate (NAME_SIZE - e.1.length) 0, e.2, 0⟩) ∧
      ∀ j e, fiveEntries[j]? = some e →
        getInodeIndexFromPath (createAll freshVolume (rootCalls fiveEntries))
          (PATH_DELIMITER :: e.1) = .ok (j + 1) :=
  ⟨by decide, by decide, by decide,
    create_many_listed fiveEntries (by decide) (by decide) (by decide)⟩

end MyFs
